import Mathlib

/-!
# Metering and billing core of sealos (`controllers/pkg/database/mongodb.go`,
`controllers/pkg/resources/resources.go`)

A shallow embedding of the MongoDB-backed metering and billing store, and the
properties of it that the specification states.

Conventions of the embedding.

* A Go `string` is a Lean `String`; Go compares strings bytewise, which for
  valid UTF-8 is the order of the code points, the order of `String`.
* A Go `time.Time` is an instant on the UTC time line, counted in nanoseconds
  from the Unix epoch.  The location of a time is not modelled: every time is
  a UTC time.
* A Go `map` is an association list whose keys are looked up from the front;
  ranging over a map visits the entries in list order.
* `int64`, `int` and `uint8` values are integers and naturals. The amount of an
  app cost and the page arithmetic of a range query wrap around at 64 bits
  (`wrapInt64`); the other sums are taken as they are.
* A `float64` is a value of the binary format of 64 bits; conversion and
  division round to the nearest value, a tie to the even mantissa.
* The database is a value that every operation receives and returns; a query,
  which leaves it as it is, returns the query with its status and the error.
* A document of the billing collection is a `Billing` value. A field written
  with `omitempty` is absent from the document when it has its zero value, so a
  match on the zero value of such a field finds no document.
* The stage `$sort` gives documents of equal key an order that the store is free
  to choose in every run; the store rejects a negative `$skip` and a `$limit`
  that is not positive. The store keeps a time to the millisecond; the model
  keeps the time it is given.
* Declarations of packages that are not among the sources (`accountv1`, `crypto`,
  `resource`) are modelled from their uses, or taken as parameters.
-/

namespace Sealos

/-! ## `time.Time` -/

/-- An instant of the UTC time line: nanoseconds since 1970-01-01T00:00:00Z. -/
structure Time where
  unixNano : Int
deriving DecidableEq, Repr

/-- Nanoseconds of one day. -/
def nanosPerDay : Int := 86400000000000

/-- The zero value `time.Time{}`: 0001-01-01T00:00:00Z. -/
def Time.zero : Time := ⟨-62135596800000000000⟩

/-- `t.Before(u)`. -/
def Time.Before (t u : Time) : Bool := decide (t.unixNano < u.unixNano)

/-- `t.Equal(u)`. -/
def Time.Equal (t u : Time) : Bool := decide (t.unixNano = u.unixNano)

/-- The number of the UTC day an instant falls on: days since 1970-01-01. -/
def Time.dayNumber (t : Time) : Int := t.unixNano / nanosPerDay

/-- A calendar date: year, month (1..12), day of the month (1..31). -/
structure Date where
  year : Int
  month : Int
  day : Int
deriving DecidableEq, Repr

/-- `isLeap` of package `time`. -/
def isLeap (year : Int) : Bool :=
  decide (year % 4 = 0) && (decide (year % 100 ≠ 0) || decide (year % 400 = 0))

/-- `daysBefore` of package `time`: the days of a non-leap year before each month. -/
def daysBefore : List Int := [0, 31, 59, 90, 120, 151, 181, 212, 243, 273, 304, 334, 365]

/-- Cut whole cycles of `len` days off a day count; the count of cycles `n` is
lowered by `n >> 2`, so that the extra day that ends the fourth cycle stays in that cycle. -/
def cutCycles (len d : Int) : Int × Int :=
  let n := d / len
  let n := n - n / 4
  (n, d - len * n)

/-- The year and the day of the year (from 0) of a day counted from 0001-01-01, as
`absDate` of package `time` finds them: cut off 400-year cycles, then 100-year cycles,
then 4-year cycles, then years. -/
def yearDay (d : Int) : Int × Int :=
  let n400 := d / 146097
  let d1 := d - 146097 * n400
  let c100 := cutCycles 36524 d1
  let n4 := c100.2 / 1461
  let d3 := c100.2 - 1461 * n4
  let c1 := cutCycles 365 d3
  (1 + 400 * n400 + 100 * c100.1 + 4 * n4 + c1.1, c1.2)

/-- The month and the day of the month of a day of the year, as `absDate` finds them:
a leap day is taken out first, the month is estimated as if every month had 31 days and
corrected with `daysBefore`. -/
def monthDay (leap : Bool) (yday : Int) : Int × Int :=
  if leap && decide (yday = 31 + 29 - 1) then (2, 29)
  else
    let day := if leap && decide (yday > 31 + 29 - 1) then yday - 1 else yday
    let month := day / 31
    let stop := daysBefore.getD (month + 1).toNat 0
    if day ≥ stop then (month + 2, day - stop + 1)
    else (month + 1, day - daysBefore.getD month.toNat 0 + 1)

/-- The proleptic Gregorian date of a day number (days since 1970-01-01), which is
what `time.Time.Date` returns for a UTC time. -/
def civilFromDays (z : Int) : Date :=
  let yd := yearDay (z + 719162)
  let md := monthDay (isLeap yd.1) yd.2
  { year := yd.1, month := md.1, day := md.2 }

/-- `t.Date()` of a UTC time. -/
def Time.Date (t : Time) : Date := civilFromDays t.dayNumber

/-- `t.AddDate(0, 0, days)` of a UTC time: the same clock time `days` days
later. -/
def Time.AddDays (t : Time) (days : Int) : Time := ⟨t.unixNano + days * nanosPerDay⟩

/-- One decimal digit as a character. -/
def digit (d : Nat) : Char := Char.ofNat (48 + d)

/-- Go's `appendInt(b, x, width)` of package `time`: the decimal form of `x`,
with a leading minus sign when negative, padded with zeros to `width` digits.
Two-digit and four-digit fields take the table-driven fast paths. -/
def appendInt (x : Int) (width : Nat) : List Char :=
  let u := x.natAbs
  let sign : List Char := if x < 0 then ['-'] else []
  if width = 2 ∧ u < 100 then
    sign ++ [digit (u / 10), digit (u % 10)]
  else if width = 4 ∧ u < 10000 then
    let q := u / 100
    let r := u % 100
    sign ++ [digit (q / 10), digit (q % 10), digit (r / 10), digit (r % 10)]
  else
    let ds := Nat.toDigits 10 u
    sign ++ List.replicate (width - ds.length) '0' ++ ds

/-- `t.Format("20060102")`: four-digit year, two-digit month, two-digit day. -/
def Time.Format20060102 (t : Time) : String :=
  let d := t.Date
  String.mk (appendInt d.year 4 ++ appendInt d.month 2 ++ appendInt d.day 2)

/-! ## The store handle -/

/-- The fields of `MongoDB` that name collections. -/
structure MongoDB where
  DBName : String
  MonitorConnPrefix : String
  MeteringConn : String
  BillingConn : String
  PricesConn : String
  PropertiesConn : String
deriving DecidableEq, Repr

/-- `getMonitorCollectionName`: `fmt.Sprintf("%s_%s", prefix, t.Format("20060102"))`. -/
def MongoDB.getMonitorCollectionName (m : MongoDB) (collTime : Time) : String :=
  m.MonitorConnPrefix ++ "_" ++ collTime.Format20060102

/-- The handle `NewMongoDB` builds. -/
def defaultMongoDB : MongoDB :=
  { DBName := "sealos-resources", MonitorConnPrefix := "monitor", MeteringConn := "metering",
    BillingConn := "billing", PricesConn := "prices", PropertiesConn := "properties" }

/-- Midnight UTC of a day number. -/
def Time.ofDay (day : Int) : Time := ⟨day * nanosPerDay⟩

/-! ## Strings -/

/-- Lexicographic comparison of two character sequences, Go's `<` on strings. -/
def lexLess : List Char → List Char → Bool
  | _, [] => false
  | [], _ :: _ => true
  | a :: as, b :: bs => if a < b then true else if b < a then false else lexLess as bs

/-- Go's `s < t` on strings. -/
def strLess (s t : String) : Bool := lexLess s.data t.data

/-- `strings.HasPrefix(s, pre)`. -/
def HasPrefix (s pre : String) : Bool := pre.data.isPrefixOf s.data

/-! ## Documents (`resources.go`) -/

/-- `EnumUsedMap`: resource consumption by property enum, `map[uint8]int64`. -/
abbrev EnumUsedMap := List (Nat × Int)

/-- `Monitor`: one usage sample (`Type_` is the field `Type`). -/
structure Monitor where
  Time : Time
  Category : String
  Type_ : Nat
  Name : String
  Used : EnumUsedMap
  Property : String
deriving DecidableEq, Repr

/-- `Metering`: one metering record. -/
structure Metering where
  Category : String
  Amount : Int
  Property : String
  Value : Int
  Time : Time
  Detail : String
deriving DecidableEq, Repr

/-- `AppCost`: what one application of an order used and what it costs. -/
structure AppCost where
  Used : EnumUsedMap
  UsedAmount : EnumUsedMap
  Amount : Int
  Name : String
deriving DecidableEq, Repr

/-- `accountv1.Type`: the kinds of billing orders. -/
inductive BillingType where
  | Consumption
  | Recharge
  | TransferIn
  | TransferOut
deriving DecidableEq, Repr

/-- `BillingStatus`. -/
inductive BillingStatus where
  | Unsettled
  | Settled
deriving DecidableEq, Repr

/-- `Payment`: the payment payload of a recharge. -/
structure Payment where
  Method : String
  UserID : String
  Amount : Int
  TradeNO : String
  CodeURL : String
deriving DecidableEq, Repr

/-- `Transfer`: the transfer payload of a transfer. -/
structure Transfer where
  From : String
  To : String
  Amount : Int
deriving DecidableEq, Repr

/-- `Billing`: one billing order, as a document of the billing collection (`Type_` is the
field `Type`). `Payment` and `Transfer` are the optional payloads. `Costs` is the field
`costs` of the stored document: the struct `Billing` does not declare it, so a document
written from a `Billing` value has none (the older layout of the documents,
`AccountBalanceSpecBSON`, carries it). -/
structure Billing where
  Time : Time
  OrderID : String
  Type_ : BillingType
  Namespace : String
  AppCosts : List AppCost
  AppType : Nat
  Amount : Int
  Owner : String
  Status : BillingStatus
  Payment : Option Payment := none
  Transfer : Option Transfer := none
  Costs : Option (List (String × Int)) := none
deriving DecidableEq, Repr

/-! ## The database -/

/-- A collection: its name and the documents in it, by kind, in insertion order. -/
structure Collection where
  name : String
  monitors : List Monitor
  meterings : List Metering
  billings : List Billing
deriving DecidableEq, Repr

/-- A database: its collections. -/
abbrev Database := List Collection

/-- A collection without documents. -/
def Collection.empty (name : String) : Collection :=
  { name := name, monitors := [], meterings := [], billings := [] }

/-- `db.Collection(name)`: the collection of that name, empty when there is none. -/
def Database.coll (db : Database) (name : String) : Collection :=
  (db.find? (fun c => c.name == name)).getD (Collection.empty name)

/-- Change the collection of a name, creating it first when there is none (an insert
into a missing collection creates it). -/
def Database.update (db : Database) (name : String) (f : Collection → Collection) : Database :=
  if db.any (fun c => c.name == name) then
    db.map (fun c => if c.name == name then f c else c)
  else db ++ [f (Collection.empty name)]

/-- `db.ListCollectionNames`. -/
def Database.ListCollectionNames (db : Database) : List String := db.map (fun c => c.name)

/-- `db.Collection(name).Drop`. -/
def Database.Drop (db : Database) (name : String) : Database :=
  db.filter (fun c => !(c.name == name))

/-- An error value. -/
abbrev Error := String

/-! ## Monitor partitions -/

/-- `InsertMonitor`: an empty batch is a no-op; otherwise the whole batch goes, with one
`InsertMany`, into the monitor collection of the first sample's time. `insertErr` is the
error of the store, if it fails; a failed insert leaves the database as it was. -/
def MongoDB.InsertMonitor (m : MongoDB) (insertErr : Option Error) (monitors : List Monitor)
    (db : Database) : Database × Option Error :=
  match monitors with
  | [] => (db, none)
  | first :: _ =>
    match insertErr with
    | some e => (db, some e)
    | none =>
      (db.update (m.getMonitorCollectionName first.Time)
        (fun c => { c with monitors := c.monitors ++ monitors }), none)

/-- The loop of `DropMonitorCollectionsOlderThan` over the listed names: a collection is
dropped when its name starts with the prefix and sorts below the cutoff name; the first
failing drop ends the loop with its error. -/
def dropOlder (pre cutoffName : String) (dropErr : String → Option Error) :
    List String → Database → Database × Option Error
  | [], db => (db, none)
  | c :: cs, db =>
    if HasPrefix c pre && strLess c cutoffName then
      match dropErr c with
      | some e => (db, some e)
      | none => dropOlder pre cutoffName dropErr cs (db.Drop c)
    else dropOlder pre cutoffName dropErr cs db

/-- `DropMonitorCollectionsOlderThan(days)` run at the instant `now` (the value of
`time.Now()`): the cutoff is `now.UTC().AddDate(0, 0, -days)`. `listErr` is the error of
listing the collections, `dropErr` the error of dropping a collection, if they fail. -/
def MongoDB.DropMonitorCollectionsOlderThan (m : MongoDB) (now : Time) (listErr : Option Error)
    (dropErr : String → Option Error) (days : Int) (db : Database) : Database × Option Error :=
  let cutoffDate := now.AddDays (-days)
  let cutoffName := m.getMonitorCollectionName cutoffDate
  match listErr with
  | some e => (db, some e)
  | none => dropOlder m.MonitorConnPrefix cutoffName dropErr db.ListCollectionNames db

/-! ## Numbers: `float64` and `int64` -/

/-- The number of binary digits of a natural number (`fuel` bounds the loop). -/
def bitLengthAux : Nat → Nat → Nat
  | 0, _ => 0
  | fuel + 1, n => if n = 0 then 0 else bitLengthAux fuel (n / 2) + 1

/-- The number of binary digits of a natural number. -/
def bitLength (n : Nat) : Nat := bitLengthAux n n

/-- The quotient `n / d` rounded to the nearest natural number, a tie to the even one. -/
def divRoundEven (n d : Nat) : Nat :=
  if 2 * (n % d) < d then n / d
  else if d < 2 * (n % d) then n / d + 1
  else if n / d % 2 = 0 then n / d else n / d + 1

/-- A `float64` value: the finite number `mant * 2 ^ exp`, an infinity, or a NaN. The
values of the type are those with a mantissa below `2 ^ 53` in size and an exponent from
-1074 to 971; the sign of a zero is not kept. -/
inductive Float64 where
  | finite (mant : Int) (exp : Int)
  | inf (negative : Bool)
  | nan
deriving DecidableEq, Repr

/-- The `float64` nearest to the positive fraction `n / d`, a tie to the even mantissa:
the rounding of every `float64` operation. The exponent is that of a mantissa of 53 binary
digits, and -1074 where the fraction is too small for one; a result of `2 ^ 1024` or more
is the infinity. -/
def Float64.roundPos (n d : Nat) : Float64 :=
  let k : Int := (bitLength n : Int) - (bitLength d : Int)
  let k : Int := if d * 2 ^ k.toNat ≤ n * 2 ^ (-k).toNat then k else k - 1
  let e : Int := max (k - 52) (-1074)
  let mant := divRoundEven (n * 2 ^ (-e).toNat) (d * 2 ^ e.toNat)
  if 1025 ≤ (bitLength mant : Int) + e then Float64.inf false else Float64.finite mant e

/-- `-x` on a `float64`. -/
def Float64.neg : Float64 → Float64
  | Float64.finite m e => Float64.finite (-m) e
  | Float64.inf b => Float64.inf (!b)
  | Float64.nan => Float64.nan

/-- The `float64` of a constant written as the fraction `num / den`, as in
`UnitPrice: 2.237442922`: the nearest value of the type. -/
def Float64.ofRatio (num : Int) (den : Nat) : Float64 :=
  if den = 0 then Float64.nan
  else if num = 0 then Float64.finite 0 0
  else if 0 < num then Float64.roundPos num.natAbs den
  else (Float64.roundPos num.natAbs den).neg

/-- `float64(a)` of an `int64`: the nearest value of the type. -/
def Float64.ofInt (a : Int) : Float64 := Float64.ofRatio a 1

/-- `x > 0` on a `float64`. -/
def Float64.pos : Float64 → Bool
  | Float64.finite m _ => decide (0 < m)
  | Float64.inf b => !b
  | Float64.nan => false

/-- `x / y` on `float64` values: the exact quotient, rounded. -/
def Float64.div : Float64 → Float64 → Float64
  | Float64.finite m1 e1, Float64.finite m2 e2 =>
    if m2 = 0 then (if m1 = 0 then Float64.nan else Float64.inf (decide (m1 < 0)))
    else if m1 = 0 then Float64.finite 0 0
    else
      let q := Float64.roundPos (m1.natAbs * 2 ^ (e1 - e2).toNat) (m2.natAbs * 2 ^ (e2 - e1).toNat)
      if decide (m1 < 0) = decide (m2 < 0) then q else q.neg
  | Float64.finite _ _, Float64.inf _ => Float64.finite 0 0
  | Float64.inf b, Float64.finite m _ => Float64.inf (b != decide (m < 0))
  | _, _ => Float64.nan

/-- `x * y` on `float64` values: the exact product, rounded. -/
def Float64.mul : Float64 → Float64 → Float64
  | Float64.finite m1 e1, Float64.finite m2 e2 =>
    if m1 = 0 ∨ m2 = 0 then Float64.finite 0 0
    else
      let q := Float64.roundPos (m1.natAbs * m2.natAbs * 2 ^ (e1 + e2).toNat)
        (2 ^ (-(e1 + e2)).toNat)
      if decide (m1 < 0) = decide (m2 < 0) then q else q.neg
  | Float64.finite m _, Float64.inf b =>
    if m = 0 then Float64.nan else Float64.inf (b != decide (m < 0))
  | Float64.inf b, Float64.finite m _ =>
    if m = 0 then Float64.nan else Float64.inf (b != decide (m < 0))
  | Float64.inf a, Float64.inf b => Float64.inf (a != b)
  | _, _ => Float64.nan

/-- `math.Ceil(x)`: the least integer that is not below `x`, as a `float64`. -/
def Float64.ceil : Float64 → Float64
  | Float64.finite m e =>
    if 0 ≤ e then Float64.finite m e
    else if 0 ≤ m then
      Float64.finite ((m.natAbs + 2 ^ (-e).toNat - 1) / 2 ^ (-e).toNat : Nat) 0
    else Float64.finite (-((m.natAbs / 2 ^ (-e).toNat : Nat) : Int)) 0
  | x => x

/-- `int64(x)`: the fraction is cut off. For a value outside the range of `int64`, an
infinity or a NaN the result depends on the machine; it is the least `int64`, as on
amd64. -/
def Float64.toInt64 : Float64 → Int
  | Float64.finite m e =>
    let c : Int :=
      if 0 ≤ e then m * 2 ^ e.toNat
      else if 0 ≤ m then ((m.natAbs / 2 ^ (-e).toNat : Nat) : Int)
      else -((m.natAbs / 2 ^ (-e).toNat : Nat) : Int)
    if -9223372036854775808 ≤ c ∧ c ≤ 9223372036854775807 then c else -9223372036854775808
  | _ => -9223372036854775808

/-- `int64(math.Ceil(x))`: the least integer that is not below `x`. For a value outside
the range of `int64`, an infinity or a NaN the result of the conversion depends on the
machine; it is the least `int64`, as on amd64. -/
def Float64.ceilInt64 : Float64 → Int
  | Float64.finite m e =>
    let c : Int :=
      if 0 ≤ e then m * 2 ^ e.toNat
      else if 0 ≤ m then ((m.natAbs + 2 ^ (-e).toNat - 1) / 2 ^ (-e).toNat : Nat)
      else -((m.natAbs / 2 ^ (-e).toNat : Nat) : Int)
    if -9223372036854775808 ≤ c ∧ c ≤ 9223372036854775807 then c else -9223372036854775808
  | _ => -9223372036854775808

/-- `int64(math.Ceil(float64(a) / x))`. -/
def Float64.ceilQuot (a : Int) (x : Float64) : Int := ((Float64.ofInt a).div x).ceilInt64

/-- The value of a 64-bit signed integer (`int`, `int64`) after an operation whose exact
result is `x`: the result wraps around. -/
def wrapInt64 (x : Int) : Int :=
  (x + 9223372036854775808) % 18446744073709551616 - 9223372036854775808

/-! ## Metering -/

/-- `Price`: the price of one property (`Price_` is the field `Price`). -/
structure Price where
  Property : String
  Price_ : Int
  Detail : String
deriving DecidableEq, Repr

/-- A Go map with string keys. -/
abbrev StrMap (α : Type) := List (String × α)

/-- `v, ok := m[k]`. -/
def StrMap.get? {α : Type} (m : StrMap α) (k : String) : Option α :=
  (m.find? (fun p => p.1 == k)).map (fun p => p.2)

/-- `m[k] = v`. -/
def StrMap.set {α : Type} (m : StrMap α) (k : String) (v : α) : StrMap α :=
  if m.any (fun p => p.1 == k) then m.map (fun p => if p.1 == k then (k, v) else p)
  else m ++ [(k, v)]

/-- The later of two times. -/
def Time.max (t u : Time) : Time := if t.Before u then u else t

/-- `GetUpdateTimeForCategoryAndPropertyFromMetering`: the time of the latest metering
record of a category and property; the zero time when there is none, and the zero time
with the error when the lookup fails (`findErr`). -/
def MongoDB.GetUpdateTimeForCategoryAndPropertyFromMetering (m : MongoDB)
    (findErr : Option Error) (db : Database) (category property : String) :
    Time × Option Error :=
  match findErr with
  | some e => (Time.zero, some e)
  | none =>
    match (db.coll m.MeteringConn).meterings.filter
        (fun x => x.Category == category && x.Property == property) with
    | [] => (Time.zero, none)
    | x :: xs => (xs.foldl (fun t y => t.max y.Time) x.Time, none)

/-- The maps `GenerateMeteringData` keeps while it scans: totals, counts and the latest
metering times, each by category and then by property. -/
structure MeteringScan where
  meteringMap : StrMap (StrMap Int)
  countMap : StrMap (StrMap Int)
  updateTimeMap : StrMap (StrMap Time)
deriving DecidableEq, Repr

/-- The faults of the store during `GenerateMeteringData`: the error of the scan of the
monitor partition, of a lookup of the latest metering time, of the insert of a record. -/
structure MeteringFaults where
  findErr : Option Error
  updateTimeErr : String → String → Option Error
  insertErr : Metering → Option Error

/-- No fault. -/
def MeteringFaults.none : MeteringFaults :=
  { findErr := Option.none, updateTimeErr := fun _ _ => Option.none,
    insertErr := fun _ => Option.none }

/-- One turn of the scan loop of `GenerateMeteringData`. The latest metering time of the
sample's category and property is looked up once and kept (a failed lookup is logged and
its zero time kept). When that time is not after the start of the window, the maps of the
category are created if missing and the count of the property goes up by one; the line
that adds to the total of the property is commented out in the source. -/
def meteringStep (m : MongoDB) (faults : MeteringFaults) (db : Database) (startTime : Time)
    (s : MeteringScan) (monitor : Monitor) : MeteringScan :=
  let byProperty := (s.updateTimeMap.get? monitor.Category).getD []
  let byProperty :=
    match byProperty.get? monitor.Property with
    | some _ => byProperty
    | Option.none =>
      byProperty.set monitor.Property
        (m.GetUpdateTimeForCategoryAndPropertyFromMetering
          (faults.updateTimeErr monitor.Category monitor.Property) db
          monitor.Category monitor.Property).1
  let s := { s with updateTimeMap := s.updateTimeMap.set monitor.Category byProperty }
  let lastUpdateTime := (byProperty.get? monitor.Property).getD Time.zero
  if lastUpdateTime.Before startTime || lastUpdateTime.Equal startTime then
    let s :=
      match s.meteringMap.get? monitor.Category with
      | some _ => s
      | Option.none =>
        { s with meteringMap := s.meteringMap.set monitor.Category [],
                 countMap := s.countMap.set monitor.Category [] }
    let counts := (s.countMap.get? monitor.Category).getD []
    let counts := counts.set monitor.Property ((counts.get? monitor.Property).getD 0 + 1)
    { s with countMap := s.countMap.set monitor.Category counts }
  else s

/-- The samples the scan of `GenerateMeteringData` reads: those of the monitor partition of
the start time whose time is in `[startTime, endTime)`. -/
def MongoDB.windowMonitors (m : MongoDB) (db : Database) (startTime endTime : Time) :
    List Monitor :=
  (db.coll (m.getMonitorCollectionName startTime)).monitors.filter
    (fun x => !(x.Time.Before startTime) && x.Time.Before endTime)

/-- The least integer that is not below the quotient `a / b` of two integers, for `b > 0`:
`ceil(a / b)` as the specification writes it. -/
def ceilDiv (a b : Int) : Int := -((-a) / b)

/-- The records `GenerateMeteringData` builds after the scan: one for every property of
every category of `meteringMap`, with the count raised to 60 when it is lower. -/
def meteringRecords (s : MeteringScan) (endTime : Time) (prices : StrMap Price) :
    List Metering :=
  s.meteringMap.flatMap (fun cp =>
    cp.2.map (fun pt =>
      let count := (((s.countMap.get? cp.1).getD []).get? pt.1).getD 0
      let count := if count < 60 then 60 else count
      let unitValue := (Float64.div (Float64.ofInt pt.2) (Float64.ofInt count)).ceil
      { Category := cp.1, Property := pt.1, Time := endTime,
        Amount := (unitValue.mul
          (Float64.ofInt (((prices.get? pt.1).map (fun p => p.Price_)).getD 0))).toInt64,
        Value := unitValue.toInt64, Detail := "" }))

/-- The inserts of the task group: every record is tried; the records whose insert does
not fail are stored, and the first error is the result. -/
def insertMeterings (m : MongoDB) (insertErr : Metering → Option Error) :
    List Metering → Database → Database × Option Error
  | [], db => (db, Option.none)
  | x :: xs, db =>
    match insertErr x with
    | some e => ((insertMeterings m insertErr xs db).1, some e)
    | Option.none =>
      let r := insertMeterings m insertErr xs
        (db.update m.MeteringConn (fun c => { c with meterings := c.meterings ++ [x] }))
      r

/-- `GenerateMeteringData(startTime, endTime, prices)`. -/
def MongoDB.GenerateMeteringData (m : MongoDB) (faults : MeteringFaults)
    (startTime endTime : Time) (prices : StrMap Price) (db : Database) :
    Database × Option Error :=
  match faults.findErr with
  | some e => (db, some ("find monitors error: " ++ e))
  | Option.none =>
    let scan := (m.windowMonitors db startTime endTime).foldl
      (meteringStep m faults db startTime)
      { meteringMap := [], countMap := [], updateTimeMap := [] }
    insertMeterings m faults.insertErr (meteringRecords scan endTime prices) db

/-! ## The property registry (`resources.go`) -/

/-- `PropertyType`: one metered property (the parsed `Unit` quantity is left out). -/
structure PropertyType where
  Name : String
  Alias : String
  Enum : Nat
  PriceType : String
  UnitPrice : Float64
  EncryptUnitPrice : String
  UnitString : String
  UnitPeriod : String
deriving DecidableEq, Repr

/-- A Go map with `uint8` keys. -/
abbrev NatMap (α : Type) := List (Nat × α)

/-- `v, ok := m[k]`. -/
def NatMap.get? {α : Type} (m : NatMap α) (k : Nat) : Option α :=
  (m.find? (fun p => p.1 == k)).map (fun p => p.2)

/-- `m[k] = v`. -/
def NatMap.set {α : Type} (m : NatMap α) (k : Nat) (v : α) : NatMap α :=
  if m.any (fun p => p.1 == k) then m.map (fun p => if p.1 == k then (k, v) else p)
  else m ++ [(k, v)]

/-- `PropertyTypeLS`: the registry, with its indexes by name and by enum. -/
structure PropertyTypeLS where
  Types : List PropertyType
  StringMap : StrMap PropertyType
  EnumMap : NatMap PropertyType
deriving DecidableEq, Repr

/-- The price types. -/
def AVG : String := "AVG"

/-- The accumulated value. -/
def SUM : String := "SUM"

/-- The difference value. -/
def DIF : String := "DIF"

/-- `DefaultPropertyTypeList`. -/
def DefaultPropertyTypeList : List PropertyType :=
  [{ Name := "cpu", Alias := "", Enum := 0, PriceType := AVG,
     UnitPrice := Float64.ofRatio 2237442922 1000000000, EncryptUnitPrice := "", UnitString := "1m",
     UnitPeriod := "" },
   { Name := "memory", Alias := "", Enum := 1, PriceType := AVG,
     UnitPrice := Float64.ofRatio 1092501427 1000000000, EncryptUnitPrice := "", UnitString := "1Mi",
     UnitPeriod := "" },
   { Name := "storage", Alias := "", Enum := 2, PriceType := AVG,
     UnitPrice := Float64.ofRatio 0 1, EncryptUnitPrice := "", UnitString := "1Mi", UnitPeriod := "" },
   { Name := "network", Alias := "", Enum := 3, PriceType := DIF,
     UnitPrice := Float64.ofRatio 0 1, EncryptUnitPrice := "", UnitString := "1Mi", UnitPeriod := "" }]

/-- `newPropertyTypeLS`: the registry of a list of types, each type entered in both
indexes in list order: the registry that the function returns when it returns. The parsed
quantity `Unit` of a type is no field of the model, and the parse of the unit string
changes nothing else of the type; it panics on a string that is no quantity, and
`mustParseUnits` tells whether it does. -/
def newPropertyTypeLS (types : List PropertyType) : PropertyTypeLS :=
  types.foldl
    (fun ls t =>
      { ls with EnumMap := ls.EnumMap.set t.Enum t, StringMap := ls.StringMap.set t.Name t })
    { Types := types, StringMap := [], EnumMap := [] }

/-- `DefaultPropertyTypeLS`. -/
def DefaultPropertyTypeLS : PropertyTypeLS := newPropertyTypeLS DefaultPropertyTypeList

/-! ## Billing -/

/-- One row of the usage aggregation: what `GenerateBillingData` decodes from the cursor
(`Type_` is the field `Type`). -/
structure UsageRow where
  Type_ : Nat
  Namespace : String
  Name : String
  Used : EnumUsedMap
deriving DecidableEq, Repr

/-- Two samples belong to one group of the `$group` stage: same type, name and category. -/
def sameGroup (a b : Monitor) : Bool :=
  a.Type_ == b.Type_ && a.Name == b.Name && a.Category == b.Category

/-- Put a sample into its group, or open a group for it. -/
def addToGroups (groups : List (List Monitor)) (x : Monitor) : List (List Monitor) :=
  if groups.any (fun g => (g.head?.map (fun y => sameGroup y x)).getD false) then
    groups.map (fun g => if (g.head?.map (fun y => sameGroup y x)).getD false then g ++ [x] else g)
  else groups ++ [[x]]

/-- The groups of the `$group` stage, in the order of their first samples. -/
def groupMonitors (monitors : List Monitor) : List (List Monitor) :=
  monitors.foldl addToGroups []

/-- `$round` of the quotient `a / b` for `b > 0`: to the nearest integer, a tie to the
even one. -/
def roundHalfEven (a b : Int) : Int :=
  let q := a / b
  let r := a % b
  if 2 * r < b then q
  else if b < 2 * r then q + 1
  else if q % 2 = 0 then q else q + 1

/-- The `used` value the `$group` and `$project` stages compute for one property of one
group. `nanos` is the length of the window in nanoseconds, so that `minutes` is
`nanos / 60e9`. For a `DIF` property: the maximum of the values minus the minimum of the
values other than 0, and 0 (a null that decodes to 0) when either is missing. Otherwise: the
sum of the values divided by the larger of the count of the group and `minutes`, rounded. -/
def groupUsed (nanos : Int) (prop : PropertyType) (key : Nat) (group : List Monitor) : Int :=
  let values := group.filterMap (fun x => NatMap.get? x.Used key)
  if prop.PriceType == DIF then
    match values.max?, (values.filter (fun v => v != 0)).min? with
    | some hi, some lo => hi - lo
    | _, _ => 0
  else
    let count : Int := group.length
    if count * 60000000000 > nanos then roundHalfEven values.sum count
    else roundHalfEven (values.sum * 60000000000) nanos

/-- The rows of the aggregation pipeline of `GenerateBillingData` over the monitor
partition of the start time: the samples with time in `[startTime, endTime)` and category
among the namespaces, grouped by type, name and category, with one `used` value for every
property of the registry. -/
def MongoDB.billingRows (m : MongoDB) (db : Database) (startTime endTime : Time)
    (prols : PropertyTypeLS) (namespaces : List String) : List UsageRow :=
  let matched := (db.coll (m.getMonitorCollectionName startTime)).monitors.filter
    (fun x => !(x.Time.Before startTime) && x.Time.Before endTime &&
      namespaces.contains x.Category)
  (groupMonitors matched).filterMap (fun g =>
    g.head?.map (fun first =>
      { Type_ := first.Type_, Namespace := first.Category, Name := first.Name,
        Used := prols.EnumMap.map (fun kp =>
          (kp.1, groupUsed (endTime.unixNano - startTime.unixNano) kp.2 kp.1 g)) }))

/-- `strconv.Itoa` of a `uint8`. -/
def Itoa (n : Nat) : String := String.mk (Nat.toDigits 10 n)

/-- One turn of the loop over the properties of a row: when the registry holds the
property with a unit price above 0, the used amount of the property is its used value
divided by the unit price in `float64`, rounded up, and it is added to the amount of the
app cost, an `int64`. -/
def appCostStep (prols : PropertyTypeLS) (row : UsageRow) (appCost : AppCost)
    (kv : Nat × Int) : AppCost :=
  match prols.EnumMap.get? kv.1 with
  | some prop =>
    if prop.UnitPrice.pos then
      let usedAmount := prop.UnitPrice.ceilQuot ((NatMap.get? row.Used kv.1).getD 0)
      { appCost with UsedAmount := NatMap.set appCost.UsedAmount kv.1 usedAmount,
                     Amount := wrapInt64 (appCost.Amount + usedAmount) }
    else appCost
  | Option.none => appCost

/-- The app cost `GenerateBillingData` builds for a row. -/
def appCostOf (prols : PropertyTypeLS) (row : UsageRow) : AppCost :=
  row.Used.foldl (appCostStep prols row)
    { Used := row.Used, Name := row.Name, UsedAmount := [], Amount := 0 }

/-- The maps `GenerateBillingData` fills while it reads the rows: the app costs by
namespace and type, and the amounts by the key `namespace + Itoa(type)`. -/
structure BillingScan where
  appCostsMap : StrMap (NatMap (List AppCost))
  nsTypeAmount : StrMap Int
deriving DecidableEq, Repr

/-- One turn of the loop over the rows. -/
def billingStep (prols : PropertyTypeLS) (s : BillingScan) (row : UsageRow) : BillingScan :=
  let byType := (s.appCostsMap.get? row.Namespace).getD []
  let byType :=
    match byType.get? row.Type_ with
    | some _ => byType
    | Option.none => byType.set row.Type_ []
  let appCost := appCostOf prols row
  if appCost.Amount = 0 then
    { s with appCostsMap := s.appCostsMap.set row.Namespace byType }
  else
    let key := row.Namespace ++ Itoa row.Type_
    { appCostsMap := s.appCostsMap.set row.Namespace
        (byType.set row.Type_ ((byType.get? row.Type_).getD [] ++ [appCost])),
      nsTypeAmount := s.nsTypeAmount.set key ((s.nsTypeAmount.get? key).getD 0 + appCost.Amount) }

/-- The faults during `GenerateBillingData`: the error of the aggregation, the result of
the `n`-th call of `gonanoid.New(12)`, the error of the insert of an order. -/
structure BillingFaults where
  aggregateErr : Option Error
  newID : Nat → Except Error String
  insertErr : Billing → Option Error

/-- What `GenerateBillingData` returns, with the database it leaves. -/
structure BillingResult where
  db : Database
  orderID : List String
  amount : Int
  err : Option Error

/-- The loop over the groups: a group whose amount under its key is 0 is passed over; for
any other an id is made and an order built and inserted. The first error ends the loop. -/
def insertOrders (m : MongoDB) (faults : BillingFaults) (nsTypeAmount : StrMap Int)
    (owner : String) (endTime : Time) :
    List (String × Nat × List AppCost) → Nat → Database → List String → Int → BillingResult
  | [], _, db, orderID, amount => ⟨db, orderID, amount, Option.none⟩
  | (ns, tp, appCost) :: rest, n, db, orderID, amount =>
    let amountt := (nsTypeAmount.get? (ns ++ Itoa tp)).getD 0
    if amountt = 0 then insertOrders m faults nsTypeAmount owner endTime rest n db orderID amount
    else
      match faults.newID n with
      | Except.error e => ⟨db, [], 0, some ("generate billing id error: " ++ e)⟩
      | Except.ok id =>
        let billing : Billing :=
          { OrderID := id, Type_ := BillingType.Consumption, Namespace := ns, AppType := tp,
            AppCosts := appCost, Amount := amountt, Owner := owner, Time := endTime,
            Status := BillingStatus.Settled }
        match faults.insertErr billing with
        | some e => ⟨db, [], 0, some ("insert error: " ++ e)⟩
        | Option.none =>
          insertOrders m faults nsTypeAmount owner endTime rest (n + 1)
            (db.update m.BillingConn (fun c => { c with billings := c.billings ++ [billing] }))
            (orderID ++ [id]) (amount + amountt)

/-- The groups of `appCostsMap`, namespace by namespace and type by type. -/
def BillingScan.groups (s : BillingScan) : List (String × Nat × List AppCost) :=
  s.appCostsMap.flatMap (fun nsTypes => nsTypes.2.map (fun tpCosts => (nsTypes.1, tpCosts)))

/-- `GenerateBillingData(startTime, endTime, prols, namespaces, owner)`. -/
def MongoDB.GenerateBillingData (m : MongoDB) (faults : BillingFaults)
    (startTime endTime : Time) (prols : PropertyTypeLS) (namespaces : List String)
    (owner : String) (db : Database) : BillingResult :=
  match faults.aggregateErr with
  | some e => ⟨db, [], 0, some ("aggregate error: " ++ e)⟩
  | Option.none =>
    let scan := (m.billingRows db startTime endTime prols namespaces).foldl
      (billingStep prols) { appCostsMap := [], nsTypeAmount := [] }
    insertOrders m faults scan.nsTypeAmount owner endTime scan.groups 0 db [] 0

/-- No fault, and the ids `id0`, `id1`, ... -/
def BillingFaults.none : BillingFaults :=
  { aggregateErr := Option.none, newID := fun n => Except.ok ("id" ++ Itoa n),
    insertErr := fun _ => Option.none }

/-! ## Sample inputs -/

/-- 2020-12-01T12:00:00Z, the start of the hour of the scenarios. -/
def noon : Time := ⟨1606824000000000000⟩

/-- 2020-12-01T13:00:00Z, the end of the hour of the scenarios. -/
def onePm : Time := ⟨1606827600000000000⟩

/-- Samples of property `cpu` (enum 0) of the application `web` of namespace `ns-a`: `n`
of them from noon on, `step` nanoseconds apart, each with the value `used`. -/
def cpuSamples (n : Nat) (step used : Int) : List Monitor :=
  (List.range n).map (fun (i : Nat) =>
    { Time := ⟨noon.unixNano + (i : Int) * step⟩, Category := "ns-a", Type_ := 2, Name := "web",
      Used := [(0, used)], Property := "cpu" })

/-- A database that holds only the monitor partition of 2020-12-01 with the given samples. -/
def monitorOnly (samples : List Monitor) : Database :=
  [{ name := "monitor_20201201", monitors := samples, meterings := [], billings := [] }]

/-- The price map of the scenarios: `cpu` at 67. -/
def cpuPrices : StrMap Price := [("cpu", { Property := "cpu", Price_ := 67, Detail := "" })]

/-- Two namespaces of one owner, `ns1` with an application of type 1 and `ns` with an
application of type 11, each with one sample at noon: 60000 and 120000 of cpu. -/
def twoNamespaces : Database :=
  monitorOnly
    [{ Time := noon, Category := "ns1", Type_ := 1, Name := "db", Used := [(0, 60000)],
       Property := "" },
     { Time := noon, Category := "ns", Type_ := 11, Name := "job", Used := [(0, 120000)],
       Property := "" }]

/-- As `twoNamespaces`, but the application of `ns1` used nothing. -/
def idleNamespace : Database :=
  monitorOnly
    [{ Time := noon, Category := "ns1", Type_ := 1, Name := "db", Used := [(0, 0)],
       Property := "" },
     { Time := noon, Category := "ns", Type_ := 11, Name := "job", Used := [(0, 120000)],
       Property := "" }]

/-- The orders `GenerateBillingData` leaves in the billing collection when run without
faults over [12:00, 13:00) with the default registry for the owner `owner`. -/
def ordersOf (namespaces : List String) (db : Database) : List Billing :=
  ((defaultMongoDB.GenerateBillingData BillingFaults.none noon onePm DefaultPropertyTypeLS
    namespaces "owner" db).db.coll defaultMongoDB.BillingConn).billings

/-! ## Auxiliary notions of the proofs -/

/-- What the loop over the properties charges for a property: the used value divided by
the unit price, rounded up, when the registry holds the property with a unit price above 0. -/
def charge (prols : PropertyTypeLS) (row : UsageRow) (p : Nat) : Option Int :=
  match prols.EnumMap.get? p with
  | some prop =>
    if prop.UnitPrice.pos then some (prop.UnitPrice.ceilQuot ((NatMap.get? row.Used p).getD 0))
    else Option.none
  | Option.none => Option.none


/-- A day count `d`, its year `y` and its day of the year `yday` are related by the
numbers of whole 400-year, 100-year, 4-year and 1-year cycles before the day. -/
def Cycles (d y yday : Int) : Prop :=
  ∃ n400 n100 n4 n1 : Int,
    y = 1 + 400 * n400 + 100 * n100 + 4 * n4 + n1 ∧
    d = 146097 * n400 + 36524 * n100 + 1461 * n4 + 365 * n1 + yday ∧
    0 ≤ n100 ∧ n100 ≤ 3 ∧ 0 ≤ n4 ∧ n4 ≤ 24 ∧ 0 ≤ n1 ∧ n1 ≤ 3 ∧ 0 ≤ yday ∧ yday ≤ 365 ∧
    (n1 < 3 → yday ≤ 364) ∧ 365 * n1 + yday ≤ 1460 ∧
    (n100 < 3 → 1461 * n4 + 365 * n1 + yday ≤ 36523) ∧
    1461 * n4 + 365 * n1 + yday ≤ 36524

/-- The key of a month and day: `month * 100 + day`. -/
def monthDayKey (leap : Bool) (yday : Int) : Int :=
  (monthDay leap yday).1 * 100 + (monthDay leap yday).2

/-- What the month and day of the `n`-th day of a year satisfy: they are in range, and
the next day of the year has a larger key. -/
def monthDayOk (leap : Bool) (n : Nat) : Bool :=
  decide (1 ≤ (monthDay leap n).1) && decide ((monthDay leap n).1 ≤ 12) &&
  decide (1 ≤ (monthDay leap n).2) && decide ((monthDay leap n).2 ≤ 31) &&
  decide (monthDayKey leap n < monthDayKey leap (n + 1) ∨
    (n : Int) + 1 = (if leap then 366 else 365))

/-- The key of a date: `year * 10000 + month * 100 + day`. -/
def Date.key (d : Date) : Int := d.year * 10000 + d.month * 100 + d.day

/-- The value of a sequence of decimal digits, most significant first. -/
def digitsVal : List Nat → Nat
  | [] => 0
  | d :: ds => d * 10 ^ ds.length + digitsVal ds

/-- The `w` low decimal digits of `n`, most significant first: `n` zero-padded to `w`
digits when `n < 10 ^ w`. -/
def zeroPad : Nat → Nat → List Char
  | 0, _ => []
  | w + 1, n => digit (n / 10 ^ w % 10) :: zeroPad w n

/-- The `YYYYMMDD` rendering of a date: the year zero-padded to four digits, the month and
the day zero-padded to two digits each. -/
def renderYYYYMMDD (d : Date) : String :=
  String.mk (zeroPad 4 d.year.toNat ++ zeroPad 2 d.month.toNat ++ zeroPad 2 d.day.toNat)

/-- The decimal digits of a date whose year has four digits. -/
def dateDigits (d : Date) : List Nat :=
  [d.year.toNat / 1000 % 10, d.year.toNat / 100 % 10, d.year.toNat / 10 % 10, d.year.toNat % 10,
    d.month.toNat / 10 % 10, d.month.toNat % 10, d.day.toNat / 10 % 10, d.day.toNat % 10]

/-- The order the loop over the groups builds for a group. -/
def orderOf (id ns : String) (tp : Nat) (appCost : List AppCost) (amountt : Int)
    (owner : String) (endTime : Time) : Billing :=
  { OrderID := id, Type_ := BillingType.Consumption, Namespace := ns, AppType := tp,
    AppCosts := appCost, Amount := amountt, Owner := owner, Time := endTime,
    Status := BillingStatus.Settled }

/-- What the maps of the scan satisfy with respect to the rows read so far: the namespaces
of `appCostsMap` are distinct, the types of every namespace are distinct, and every app
cost kept under a namespace and a type is the app cost of a row of that namespace and
type. -/
def ScanInv (prols : PropertyTypeLS) (rows : List UsageRow) (s : BillingScan) : Prop :=
  (s.appCostsMap.map Prod.fst).Nodup ∧
  ∀ nsTypes ∈ s.appCostsMap, (nsTypes.2.map Prod.fst).Nodup ∧
    ∀ tpCosts ∈ nsTypes.2, ∀ c ∈ tpCosts.2,
      ∃ row ∈ rows, row.Namespace = nsTypes.1 ∧ row.Type_ = tpCosts.1 ∧ c = appCostOf prols row

/-! ## Decrypted registries -/

/-- `decryptPrice`: the unit price of every type is replaced by the decrypted value of its
encrypted unit price, in list order; the first type whose encrypted unit price is empty or
does not decrypt ends the loop with an error, the types before it changed and the others
not. `DecryptFloat64` is the function of that name of package `crypto`, which is not among
the sources. -/
def decryptPrice (DecryptFloat64 : String → Except Error Float64) :
    List PropertyType → List PropertyType × Option Error
  | [] => ([], none)
  | t :: ts =>
    if t.EncryptUnitPrice == "" then
      (t :: ts, some ("encrypt " ++ t.Name ++ " unit price is empty"))
    else
      match DecryptFloat64 t.EncryptUnitPrice with
      | Except.error e =>
        (t :: ts, some ("failed to decrypt " ++ t.Name ++ " unit price : " ++ e))
      | Except.ok price =>
        (({ t with UnitPrice := price } : PropertyType) ::
          (decryptPrice DecryptFloat64 ts).1, (decryptPrice DecryptFloat64 ts).2)

/-- A decimal digit. -/
def isDigitChar (c : Char) : Bool := decide (48 ≤ c.toNat) && decide (c.toNat ≤ 57)

/-- What follows a `<number>` at the start of a list of characters (`<digits>`,
`<digits>.<digits>`, `<digits>.` or `.<digits>`), when a number starts it. -/
def afterNumber (cs : List Char) : Option (List Char) :=
  let rest := cs.dropWhile isDigitChar
  match rest with
  | [] => if rest.length < cs.length then some rest else none
  | c :: frac =>
    if c = '.' then
      if rest.length < cs.length || (frac.dropWhile isDigitChar).length < frac.length then
        some (frac.dropWhile isDigitChar)
      else none
    else if rest.length < cs.length then some rest else none

/-- What follows a `<signedNumber>` at the start of a list of characters. -/
def afterSignedNumber (cs : List Char) : Option (List Char) :=
  match cs with
  | [] => none
  | c :: rest => if c = '+' ∨ c = '-' then afterNumber rest else afterNumber (c :: rest)

/-- A `<suffix>`: a `<binarySI>`, a `<decimalSI>` or a `<decimalExponent>`. -/
def isSuffix (cs : List Char) : Bool :=
  ["Ki", "Mi", "Gi", "Ti", "Pi", "Ei"].contains (String.mk cs) ||
  ["m", "", "k", "M", "G", "T", "P", "E"].contains (String.mk cs) ||
  (match cs with
    | [] => false
    | c :: rest => (c = 'e' ∨ c = 'E') && afterSignedNumber rest == some [])

/-- A string is a `<quantity>`, a `<signedNumber>` followed by a `<suffix>`, by the grammar
that the comment of the field `UnitString` gives for the strings that
`resource.MustParse` parses. -/
def quantityGrammar (s : String) : Bool :=
  match afterSignedNumber s.data with
  | some rest => isSuffix rest
  | Option.none => false

/-- The calls of `resource.MustParse` in the loop of `newPropertyTypeLS` all return: every
unit string that is not empty is a quantity (`isQuantity`). The types of the model are
those whose `Unit` is not set yet, as it is for every type decoded from the store. -/
def mustParseUnits (isQuantity : String → Bool) (types : List PropertyType) : Bool :=
  types.all (fun t => t.UnitString == "" || isQuantity t.UnitString)

/-- `NewPropertyTypeLS`: the registry of the types with their prices decrypted, or of the
default list when the decryption fails; `none` when `resource.MustParse` panics on the
unit string of a type in `newPropertyTypeLS`. Package `resource` is not among the sources:
`isQuantity` tells the strings it parses. The default list was parsed when the package
started (`DefaultPropertyTypeLS`), so its units are set and are not parsed again. -/
def NewPropertyTypeLS (DecryptFloat64 : String → Except Error Float64)
    (isQuantity : String → Bool) (types : List PropertyType) : Option PropertyTypeLS :=
  match decryptPrice DecryptFloat64 types with
  | (_, some _) => some (newPropertyTypeLS DefaultPropertyTypeList)
  | (types, Option.none) =>
    if mustParseUnits isQuantity types then some (newPropertyTypeLS types) else Option.none

/-- A type has an encrypted unit price that decrypts. -/
def decrypts (DecryptFloat64 : String → Except Error Float64) (t : PropertyType) : Bool :=
  !(t.EncryptUnitPrice == "") &&
    (match DecryptFloat64 t.EncryptUnitPrice with
      | Except.ok _ => true
      | Except.error _ => false)

/-- A type with its unit price replaced by the decrypted value of its encrypted unit
price. -/
def withDecryptedPrice (DecryptFloat64 : String → Except Error Float64) (t : PropertyType) :
    PropertyType :=
  match DecryptFloat64 t.EncryptUnitPrice with
  | Except.ok price => { t with UnitPrice := price }
  | Except.error _ => t

/-! ## Billing queries -/

/-- Modelled from the spec: the integer of a billing type. The declaration of
`accountv1.Type` is not among the sources; the spec lists the types in this order, and
`QueryBillingRecords` compares the type of a consumption with 0. -/
def BillingType.code : BillingType → Int
  | BillingType.Consumption => 0
  | BillingType.Recharge => 1
  | BillingType.TransferIn => 2
  | BillingType.TransferOut => 3

/-- `AppType`: the app type of a name. -/
def AppType : StrMap Nat := [("DB", 1), ("APP", 2), ("TERMINAL", 3), ("JOB", 4), ("OTHER", 5)]

/-- `AppTypeReverse`: the name of an app type. -/
def AppTypeReverse : NatMap String :=
  [(1, "DB"), (2, "APP"), (3, "TERMINAL"), (4, "JOB"), (5, "OTHER")]

/-- The upper case of a character, as far as a look-up in `AppType` can tell: an ASCII
letter, and the two other letters whose upper case is an ASCII letter (U+0131 and U+017F),
are mapped to it; any other character is kept, and is no character of a key of the table
before or after. -/
def upperChar (c : Char) : Char :=
  if c.toNat = 305 then 'I' else if c.toNat = 383 then 'S' else c.toUpper

/-- `strings.ToUpper`. -/
def ToUpper (s : String) : String := String.mk (s.data.map upperChar)

/-- Modelled from the spec: `accountv1.BillingRecordQuerySpec`, whose declaration is not
among the sources, with the fields `QueryBillingRecords` reads (`Type_` is the field
`Type`, an integer: -1 stands for any type). -/
structure BillingRecordQuerySpec where
  Page : Int
  PageSize : Int
  Namespace : String
  StartTime : Time
  EndTime : Time
  OrderID : String
  Type_ : Int
  AppType : String
deriving DecidableEq, Repr

/-- Modelled from the spec: `accountv1.BillingRecordQueryItem`, whose declaration is not
among the sources, with the fields `QueryBillingRecords` writes (`Payment` is the amount of
the `PaymentForQuery`, if there is one; a nil map of costs is the empty one). -/
structure BillingRecordQueryItem where
  Time : Time
  OrderID : String
  Type_ : BillingType
  Namespace : String
  AppType : String
  Costs : StrMap Int
  Amount : Int
  Name : String
  Payment : Option Int
deriving DecidableEq, Repr

/-- Modelled from the spec: `accountv1.BillingRecordQueryStatus`, whose declaration is not
among the sources, with the fields `QueryBillingRecords` writes. -/
structure BillingRecordQueryStatus where
  Items : List BillingRecordQueryItem
  PageLength : Int
  TotalCount : Int
  RechargeAmount : Int
  DeductionAmount : StrMap Int
deriving DecidableEq, Repr

/-- Modelled from the spec: `accountv1.BillingRecordQuery`, a query and its status. -/
structure BillingRecordQuery where
  Spec : BillingRecordQuerySpec
  Status : BillingRecordQueryStatus
deriving DecidableEq, Repr

/-- The name of the property of an enum in a registry: `ls.EnumMap[k].Name`, the empty
string for an enum the registry does not hold. -/
def PropertyTypeLS.nameOf (ls : PropertyTypeLS) (k : Nat) : String :=
  ((ls.EnumMap.get? k).map (fun t => t.Name)).getD ""

/-- `ConvertEnumUsedToString`, with `reg` the value of `DefaultPropertyTypeLS` at the time
of the call. -/
def ConvertEnumUsedToString (reg : PropertyTypeLS) (costs : EnumUsedMap) : StrMap Int :=
  costs.foldl (fun costsMap kv => costsMap.set (reg.nameOf kv.1) kv.2) []

/-- The match on `owner`: the field is written with `omitempty`, so a document has no
owner field when the owner is empty, and no document has the empty owner. -/
def matchOwner (owner : String) (b : Billing) : Bool :=
  !(owner == "") && b.Owner == owner

/-- The match on `time`: `$gte` the start time and `$lte` the end time of the query. -/
def timeMatch (spec : BillingRecordQuerySpec) (b : Billing) : Bool :=
  !(b.Time.Before spec.StartTime) && !(spec.EndTime.Before b.Time)

/-- The match stage of a range query: the time window and the owner, and, when they are
given, the type, the namespace and the app type. The app type of a document is written
with `omitempty`: no document has the app type 0, which is what an unknown name maps to. -/
def matchStage (spec : BillingRecordQuerySpec) (owner : String) (b : Billing) : Bool :=
  timeMatch spec b && matchOwner owner b &&
  (spec.Type_ == -1 || b.Type_.code == spec.Type_) &&
  (spec.Namespace == "" || b.Namespace == spec.Namespace) &&
  (spec.AppType == "" ||
    (!((AppType.get? (ToUpper spec.AppType)).getD 0 == 0) &&
      b.AppType == (AppType.get? (ToUpper spec.AppType)).getD 0))

/-- Put an order into a list that is sorted by time, latest first, and by rank among the
orders of one time: after the orders that are later than it, and after those of its time
that have a lower rank. -/
def insertByTime (rank : Billing → Int) (b : Billing) : List Billing → List Billing
  | [] => [b]
  | c :: cs =>
    if b.Time.Before c.Time || (b.Time.Equal c.Time && decide (rank c < rank b)) then
      c :: insertByTime rank b cs
    else b :: c :: cs

/-- The stage `$sort` by `time` descending. The pipeline gives no second key, and the store
promises no order among documents of equal time, not even the same order in two runs:
`rank` is the order the store gives them in this run (documents of equal time and rank
keep the order of the collection). -/
def sortByTimeDesc (rank : Billing → Int) : List Billing → List Billing
  | [] => []
  | b :: bs => insertByTime rank b (sortByTimeDesc rank bs)

/-- The store rejects a pipeline with a negative `$skip`. -/
def errNegativeSkip : Error := "$skip: the argument cannot be negative"

/-- The store rejects a pipeline with a `$limit` that is not positive. -/
def errLimit : Error := "$limit: the limit must be positive"

/-- The page pipeline of a range query over the documents of the billing collection:
match, sort by time descending, skip `(Page - 1) * PageSize`, limit `PageSize`. The page
and the page size are of type `int`, of 64 bits, and their product wraps around. -/
def pagePipeline (rank : Billing → Int) (spec : BillingRecordQuerySpec) (owner : String)
    (docs : List Billing) : Except Error (List Billing) :=
  if wrapInt64 ((spec.Page - 1) * spec.PageSize) < 0 then Except.error errNegativeSkip
  else if spec.PageSize ≤ 0 then Except.error errLimit
  else Except.ok (((sortByTimeDesc rank (docs.filter (matchStage spec owner))).drop
    (wrapInt64 ((spec.Page - 1) * spec.PageSize)).toNat).take spec.PageSize.toNat)

/-- The costs of an order by property name: the used amounts of its app costs, added up
under the name the registry gives to their enum. -/
def orderCosts (reg : PropertyTypeLS) (appCosts : List AppCost) : StrMap Int :=
  appCosts.foldl (fun costs appCost =>
    appCost.UsedAmount.foldl (fun costs kv =>
      costs.set (reg.nameOf kv.1) ((costs.get? (reg.nameOf kv.1)).getD 0 + kv.2)) costs) []

/-- The amount of the payment of a recharge: that of its payload, or else the given one. -/
def paymentAmount (b : Billing) (amount : Int) : Int :=
  match b.Payment with
  | some p => p.Amount
  | Option.none => amount

/-- The item a range query returns for an order. -/
def rangeItem (reg : PropertyTypeLS) (b : Billing) : BillingRecordQueryItem :=
  { Time := b.Time, OrderID := b.OrderID, Namespace := b.Namespace, Type_ := b.Type_,
    AppType := (AppTypeReverse.get? b.AppType).getD "", Amount := b.Amount, Name := "",
    Costs := if b.AppCosts.length ≠ 0 then orderCosts reg b.AppCosts else [],
    Payment := if b.Type_ = BillingType.Recharge then some (paymentAmount b b.Amount)
      else Option.none }

/-- The count pipeline: match, then one group that counts the documents. There is no row
when no document matches. -/
def countPipeline (spec : BillingRecordQuerySpec) (owner : String) (docs : List Billing) :
    List Int :=
  if (docs.filter (matchStage spec owner)).isEmpty then []
  else [((docs.filter (matchStage spec owner)).length : Int)]

/-- Add a value to the total of a group, or open the group. -/
def addToTotal (totals : List ((BillingType × String) × Int)) (x : (BillingType × String) × Int) :
    List ((BillingType × String) × Int) :=
  if totals.any (fun g => g.1 == x.1) then
    totals.map (fun g => if g.1 == x.1 then (g.1, g.2 + x.2) else g)
  else totals ++ [x]

/-- The deduction pipeline: match the time window, the owner and the type `Consumption`;
turn the object `costs` of a document into the array of its entries; unwind that array,
which passes over a document without `costs`; group by type and key, adding up the values. -/
def deductionPipeline (spec : BillingRecordQuerySpec) (owner : String) (docs : List Billing) :
    List ((BillingType × String) × Int) :=
  let matched := docs.filter (fun b =>
    timeMatch spec b && matchOwner owner b && b.Type_ == BillingType.Consumption)
  let unwound := matched.flatMap (fun b =>
    match b.Costs with
    | some costs => costs.map (fun kv => ((b.Type_, kv.1), kv.2))
    | Option.none => [])
  unwound.foldl addToTotal []

/-- The recharge pipeline: match the time window, the owner and the type `Recharge`, then
one group that adds up the amounts. There is no row when no document matches. -/
def rechargePipeline (spec : BillingRecordQuerySpec) (owner : String) (docs : List Billing) :
    List Int :=
  let matched := docs.filter (fun b =>
    timeMatch spec b && matchOwner owner b && b.Type_ == BillingType.Recharge)
  if matched.isEmpty then [] else [(matched.map (fun b => b.Amount)).sum]

/-- What the store is free to do during a query: the errors of the aggregations, if they
fail, and the order `tieRank` that the sort of the page pipeline gives to documents of equal
time. -/
structure QueryFaults where
  orderErr : Option Error
  pageErr : Option Error
  countErr : Option Error
  deductionErr : Option Error
  rechargeErr : Option Error
  tieRank : Billing → Int := fun _ => 0

/-- No fault, and documents of equal time in the order of the collection. -/
def QueryFaults.none : QueryFaults :=
  { orderErr := Option.none, pageErr := Option.none, countErr := Option.none,
    deductionErr := Option.none, rechargeErr := Option.none, tieRank := fun _ => 0 }

/-- The rows `queryBillingRecordsByOrderID` makes of a matching order: one for a recharge,
with its payment; one for a transfer; for any other order one for each of its app costs. -/
def orderItems (reg : PropertyTypeLS) (b : Billing) : List BillingRecordQueryItem :=
  let billingRecord : BillingRecordQueryItem :=
    { Time := b.Time, OrderID := b.OrderID, Type_ := b.Type_, Amount := b.Amount,
      Namespace := b.Namespace, AppType := "", Costs := [], Name := "",
      Payment := Option.none }
  match b.Type_ with
  | BillingType.Recharge =>
    [{ billingRecord with Payment := some (paymentAmount b billingRecord.Amount) }]
  | BillingType.TransferOut => [billingRecord]
  | BillingType.TransferIn => [billingRecord]
  | BillingType.Consumption =>
    b.AppCosts.map (fun cost =>
      { Time := b.Time, OrderID := b.OrderID, Type_ := b.Type_, Namespace := b.Namespace,
        AppType := (AppTypeReverse.get? b.AppType).getD "",
        Costs := ConvertEnumUsedToString reg cost.UsedAmount, Amount := cost.Amount,
        Name := cost.Name, Payment := Option.none })

/-- `queryBillingRecordsByOrderID(billingRecordQuery, owner)`: the query with its status
filled, and the error. `reg` is the value of `DefaultPropertyTypeLS` at the time of the
call. -/
def MongoDB.queryBillingRecordsByOrderID (m : MongoDB) (reg : PropertyTypeLS)
    (faults : QueryFaults) (billingRecordQuery : BillingRecordQuery) (owner : String)
    (db : Database) : BillingRecordQuery × Option Error :=
  if billingRecordQuery.Spec.OrderID == "" then
    (billingRecordQuery, some "order id is empty")
  else
    match faults.orderErr with
    | some e => (billingRecordQuery, some ("failed to execute aggregate query: " ++ e))
    | Option.none =>
      let billingRecords := ((db.coll m.BillingConn).billings.filter (fun b =>
        b.OrderID == billingRecordQuery.Spec.OrderID && matchOwner owner b)).flatMap
          (orderItems reg)
      ({ billingRecordQuery with
          Status := { billingRecordQuery.Status with
            Items := billingRecords, PageLength := 1,
            TotalCount := billingRecords.length } }, Option.none)

/-- The deduction totals `QueryBillingRecords` keeps of the rows of the deduction
pipeline: those of the type with the integer 0. -/
def deductionTotals (rows : List ((BillingType × String) × Int)) : StrMap Int :=
  rows.foldl (fun totals row =>
    if row.1.1.code == 0 then totals.set row.1.2 row.2 else totals) []

/-- `QueryBillingRecords(billingRecordQuery, owner)`: the query with its status filled, and
the error. `reg` is the value of `DefaultPropertyTypeLS` at the time of the call. The
count, the page and the page size are of type `int`, of 64 bits: the sum that the number of
pages is taken from wraps around. -/
def MongoDB.QueryBillingRecords (m : MongoDB) (reg : PropertyTypeLS) (faults : QueryFaults)
    (billingRecordQuery : BillingRecordQuery) (owner : String) (db : Database) :
    BillingRecordQuery × Option Error :=
  if billingRecordQuery.Spec.OrderID != "" then
    m.queryBillingRecordsByOrderID reg faults billingRecordQuery owner db
  else if owner == "" then (billingRecordQuery, some "owner is empty")
  else
    let docs := (db.coll m.BillingConn).billings
    let page :=
      match faults.pageErr with
      | some e => Except.error e
      | Option.none => pagePipeline faults.tieRank billingRecordQuery.Spec owner docs
    match page with
    | Except.error e => (billingRecordQuery, some ("failed to execute aggregate query: " ++ e))
    | Except.ok rows =>
      let billingRecords := rows.map (rangeItem reg)
      match faults.countErr with
      | some e =>
        (billingRecordQuery, some ("failed to execute aggregate all query: " ++ e))
      | Option.none =>
        let totalCount := (countPipeline billingRecordQuery.Spec owner docs).foldl
          (fun _ result => result) 0
        match faults.deductionErr with
        | some e =>
          (billingRecordQuery,
            some ("failed to execute aggregate query for count and amount: " ++ e))
        | Option.none =>
          let totalDeductionAmount :=
            deductionTotals (deductionPipeline billingRecordQuery.Spec owner docs)
          match faults.rechargeErr with
          | some e =>
            (billingRecordQuery,
              some ("failed to execute aggregate query for recharge amount: " ++ e))
          | Option.none =>
            let totalRechargeAmount :=
              (rechargePipeline billingRecordQuery.Spec owner docs).foldl
                (fun _ result => result) 0
            let totalPages :=
              (wrapInt64 (totalCount + billingRecordQuery.Spec.PageSize - 1)).tdiv
                billingRecordQuery.Spec.PageSize
            let status : BillingRecordQueryStatus :=
              if totalCount == 0 then
                { Items := billingRecords, PageLength := 1,
                  TotalCount := billingRecords.length,
                  RechargeAmount := totalRechargeAmount,
                  DeductionAmount := totalDeductionAmount }
              else
                { Items := billingRecords, PageLength := totalPages,
                  TotalCount := totalCount,
                  RechargeAmount := totalRechargeAmount,
                  DeductionAmount := totalDeductionAmount }
            ({ billingRecordQuery with Status := status }, Option.none)

/-! ## Sample billing stores -/

/-- The query for page `k` of a range query. -/
def pageQuery (query : BillingRecordQuery) (k : Nat) : BillingRecordQuery :=
  { query with Spec := { query.Spec with Page := (k : Int) } }

/-- A database that holds only the billing collection, with the given orders. -/
def billingOnly (orders : List Billing) : Database :=
  [{ name := "billing", monitors := [], meterings := [], billings := orders }]

/-- A settled recharge of the owner `owner`. -/
def rechargeOf (id : String) (t : Time) (amount : Int) : Billing :=
  { Time := t, OrderID := id, Type_ := BillingType.Recharge, Namespace := "", AppCosts := [],
    AppType := 0, Amount := amount, Owner := "owner", Status := BillingStatus.Settled }

/-- The recharges `r0`, `r1`, ... of 100 each, one millisecond apart from noon on. -/
def recharges (n : Nat) : List Billing :=
  (List.range n).map (fun (i : Nat) =>
    rechargeOf ("r" ++ Itoa i) ⟨noon.unixNano + (i : Int) * 1000000⟩ 100)

/-- Two recharges `a` and `b` of the owner, both at noon. -/
def twins : List Billing := [rechargeOf "a" noon 100, rechargeOf "b" noon 100]

/-- An order of the store among documents of equal time that puts the order `a` last. -/
def rankLast : Billing → Int := fun b => if b.OrderID = "a" then 1 else 0

/-- A consumption of the owner `owner` in `ns-a` at 13:00 with two app costs, `web` of 447
and `db` of 894. -/
def webAndDb : Billing :=
  { Time := onePm, OrderID := "o1", Type_ := BillingType.Consumption, Namespace := "ns-a",
    AppCosts := [{ Used := [(0, 1000)], UsedAmount := [(0, 447)], Amount := 447, Name := "web" },
                 { Used := [(0, 2000)], UsedAmount := [(0, 894)], Amount := 894, Name := "db" }],
    AppType := 2, Amount := 1341, Owner := "owner", Status := BillingStatus.Settled }

/-- A status with nothing in it. -/
def emptyStatus : BillingRecordQueryStatus :=
  { Items := [], PageLength := 0, TotalCount := 0, RechargeAmount := 0, DeductionAmount := [] }

/-- The range query over [12:00, 13:00] for the orders of every type, namespace and app
type, with the given page and page size. -/
def hourQuery (page pageSize : Int) : BillingRecordQuery :=
  { Spec := { Page := page, PageSize := pageSize, Namespace := "", StartTime := noon,
              EndTime := onePm, OrderID := "", Type_ := -1, AppType := "" },
    Status := emptyStatus }

/-- The query for the order of an id. -/
def orderQuery (id : String) : BillingRecordQuery :=
  { Spec := { Page := 0, PageSize := 0, Namespace := "", StartTime := Time.zero,
              EndTime := Time.zero, OrderID := id, Type_ := 0, AppType := "" },
    Status := emptyStatus }

/-- The store after the run of `GenerateBillingData` over [12:00, 13:00) on three samples of
20000 of cpu of the application `web` of `ns-a`: it holds one order of the amount 447. -/
def billedStore : Database :=
  (defaultMongoDB.GenerateBillingData BillingFaults.none noon onePm DefaultPropertyTypeLS
    ["ns-a"] "owner" (monitorOnly (cpuSamples 3 60000000000 20000))).db

/-- The query over [12:00, 13:00] of the given type, namespace, app type, page and page
size. -/
def filteredQuery (type : Int) (ns appType : String) (page pageSize : Int) :
    BillingRecordQuery :=
  { Spec := { Page := page, PageSize := pageSize, Namespace := ns, StartTime := noon,
              EndTime := onePm, OrderID := "", Type_ := type, AppType := appType },
    Status := emptyStatus }

/-- The samples the match stage of `GenerateBillingData` lets through: those of the monitor
partition of the start time with a time in `[startTime, endTime)` and a category among the
namespaces. -/
def MongoDB.billingWindow (m : MongoDB) (db : Database) (startTime endTime : Time)
    (namespaces : List String) : List Monitor :=
  (db.coll (m.getMonitorCollectionName startTime)).monitors.filter
    (fun x => !(x.Time.Before startTime) && x.Time.Before endTime &&
      namespaces.contains x.Category)

/-- The row the project stage makes of a group with the first sample `first`. -/
def rowOfGroup (prols : PropertyTypeLS) (nanos : Int) (first : Monitor) (g : List Monitor) :
    UsageRow :=
  { Type_ := first.Type_, Namespace := first.Category, Name := first.Name,
    Used := prols.EnumMap.map (fun kp => (kp.1, groupUsed nanos kp.2 kp.1 g)) }

/-- What the groups are after the samples `p` have been put into them. -/
def GroupsOf (p : List Monitor) (groups : List (List Monitor)) : Prop :=
  (∀ g ∈ groups, ∃ y ∈ p, g.head? = some y ∧ g = p.filter (sameGroup y)) ∧
  (∀ x ∈ p, ∃ g ∈ groups, ∃ y, g.head? = some y ∧ sameGroup y x = true)

/-- A rational number rounded to the nearest integer, a tie to the even one: what the stage
`$round` makes of an exact quotient, the `round` of the specification. -/
def roundToEven (q : ℚ) : Int :=
  if q - ⌊q⌋ < 1 / 2 then ⌊q⌋
  else if 1 / 2 < q - ⌊q⌋ then ⌊q⌋ + 1
  else if ⌊q⌋ % 2 = 0 then ⌊q⌋ else ⌊q⌋ + 1

/-! ## The status of an order, and the operations that write -/

/-- What `UpdateOne` with the filter `order_id` and the update `$set status` makes of the
orders of the collection: the first order with the id gets the status, every other order
is kept. -/
def setFirstStatus (orderID : String) (status : BillingStatus) : List Billing → List Billing
  | [] => []
  | b :: bs =>
    if b.OrderID == orderID then { b with Status := status } :: bs
    else b :: setFirstStatus orderID status bs

/-- `UpdateBillingStatus(orderID, status)`. `updateErr` is the error of the store, if it
fails; an update that finds no order, or no billing collection, is no error and changes
nothing. -/
def MongoDB.UpdateBillingStatus (m : MongoDB) (updateErr : Option Error) (orderID : String)
    (status : BillingStatus) (db : Database) : Database × Option Error :=
  match updateErr with
  | some e => (db, some ("update error: " ++ e))
  | Option.none =>
    (db.map (fun c =>
      if c.name == m.BillingConn then
        { c with billings := setFirstStatus orderID status c.billings }
      else c), Option.none)

/-- `SaveBillings(billing...)`: one `InsertMany` into the billing collection, which the
driver refuses for no document at all. `insertErr` is the error of the store, if it fails;
a failed insert leaves the database as it was. -/
def MongoDB.SaveBillings (m : MongoDB) (insertErr : Option Error) (billing : List Billing)
    (db : Database) : Database × Option Error :=
  match billing with
  | [] => (db, some "must provide at least one element in input slice")
  | _ :: _ =>
    match insertErr with
    | some e => (db, some e)
    | Option.none =>
      (db.update m.BillingConn (fun c => { c with billings := c.billings ++ billing }),
        Option.none)

/-- The operations of the core that write to the database, with their arguments and the
faults they meet. The queries and the registry write nothing. -/
inductive CoreOp where
  | insertMonitor (insertErr : Option Error) (monitors : List Monitor)
  | dropMonitorCollectionsOlderThan (now : Time) (listErr : Option Error)
      (dropErr : String → Option Error) (days : Int)
  | generateMeteringData (faults : MeteringFaults) (startTime endTime : Time)
      (prices : StrMap Price)
  | generateBillingData (faults : BillingFaults) (startTime endTime : Time)
      (prols : PropertyTypeLS) (namespaces : List String) (owner : String)
  | saveBillings (insertErr : Option Error) (billing : List Billing)
  | updateBillingStatus (updateErr : Option Error) (orderID : String) (status : BillingStatus)

/-- The database an operation leaves. -/
def CoreOp.run (m : MongoDB) : CoreOp → Database → Database
  | CoreOp.insertMonitor insertErr monitors, db => (m.InsertMonitor insertErr monitors db).1
  | CoreOp.dropMonitorCollectionsOlderThan now listErr dropErr days, db =>
    (m.DropMonitorCollectionsOlderThan now listErr dropErr days db).1
  | CoreOp.generateMeteringData faults startTime endTime prices, db =>
    (m.GenerateMeteringData faults startTime endTime prices db).1
  | CoreOp.generateBillingData faults startTime endTime prols namespaces owner, db =>
    (m.GenerateBillingData faults startTime endTime prols namespaces owner db).db
  | CoreOp.saveBillings insertErr billing, db => (m.SaveBillings insertErr billing db).1
  | CoreOp.updateBillingStatus updateErr orderID status, db =>
    (m.UpdateBillingStatus updateErr orderID status db).1

/-- An operation is `UpdateBillingStatus` with the status `Unsettled`. -/
def CoreOp.unsettles : CoreOp → Bool
  | CoreOp.updateBillingStatus _ _ BillingStatus.Unsettled => true
  | _ => false

/-- An unsettled recharge of an owner. -/
def pendingRecharge (id owner : String) (amount : Int) : Billing :=
  { Time := noon, OrderID := id, Type_ := BillingType.Recharge, Namespace := "", AppCosts := [],
    AppType := 0, Amount := amount, Owner := owner, Status := BillingStatus.Unsettled }

/-- A sample of the application `web` (type 2) of `ns-a` at the given instant with the given
value of `network` (enum 3). -/
def networkSample (t : Int) (v : Int) : Monitor :=
  { Time := ⟨t⟩, Category := "ns-a", Type_ := 2, Name := "web", Used := [(3, v)],
    Property := "" }

/-- Samples of `network`, one minute apart from the given instant on, with the given
values. -/
def networkSamplesFrom (t : Int) : List Int → List Monitor
  | [] => []
  | v :: vs => networkSample t v :: networkSamplesFrom (t + 60000000000) vs

/-- The property `network` of the default list, with its enum. -/
def networkProperty : Nat × PropertyType :=
  (3, { Name := "network", Alias := "", Enum := 3, PriceType := DIF, UnitPrice := Float64.ofRatio 0 1,
        EncryptUnitPrice := "", UnitString := "1Mi", UnitPeriod := "" })

/-- The property `cpu` of the default list, with its enum. -/
def cpuProperty : Nat × PropertyType :=
  (0, { Name := "cpu", Alias := "", Enum := 0, PriceType := AVG,
        UnitPrice := Float64.ofRatio 2237442922 1000000000, EncryptUnitPrice := "", UnitString := "1m",
        UnitPeriod := "" })

/-- One sample of the application `web` of `ns-a` at noon with the given value of `cpu`. -/
def cpuSample (used : Int) : Monitor :=
  { Time := noon, Category := "ns-a", Type_ := 2, Name := "web", Used := [(0, used)],
    Property := "" }

/-- The latest metering time that the scan of `GenerateMeteringData` uses for a sample: the
time kept in `updateTimeMap` for the sample's category and property, and the time the
lookup in the metering collection gives when none is kept yet. -/
def scanWatermark (m : MongoDB) (faults : MeteringFaults) (db : Database)
    (s : MeteringScan) (monitor : Monitor) : Time :=
  match ((s.updateTimeMap.get? monitor.Category).getD []).get? monitor.Property with
  | some t => t
  | Option.none =>
    (m.GetUpdateTimeForCategoryAndPropertyFromMetering
      (faults.updateTimeErr monitor.Category monitor.Property) db
      monitor.Category monitor.Property).1

/-- A decryption that gives the price 1 for every encrypted price. -/
def decryptOne : String → Except Error Float64 := fun _ => Except.ok (Float64.ofRatio 1 1)

/-- A type `gpu` with an encrypted price and a unit string that is no quantity. -/
def gpuType : PropertyType :=
  { Name := "gpu", Alias := "", Enum := 4, PriceType := AVG, UnitPrice := Float64.ofRatio 0 1,
    EncryptUnitPrice := "secret", UnitString := "core", UnitPeriod := "" }

/-! # Properties -/

/-! ## The calendar -/

theorem cutCycles_century (d1 : Int) (h0 : 0 ≤ d1) (h1 : d1 < 146097) :
    0 ≤ (cutCycles 36524 d1).1 ∧ (cutCycles 36524 d1).1 ≤ 3 ∧
    0 ≤ (cutCycles 36524 d1).2 ∧ (cutCycles 36524 d1).2 ≤ 36524 ∧
    ((cutCycles 36524 d1).1 < 3 → (cutCycles 36524 d1).2 ≤ 36523) ∧
    d1 = 36524 * (cutCycles 36524 d1).1 + (cutCycles 36524 d1).2 := by
  simp only [cutCycles]
  omega

theorem cutCycles_year (d3 : Int) (h0 : 0 ≤ d3) (h1 : d3 < 1461) :
    0 ≤ (cutCycles 365 d3).1 ∧ (cutCycles 365 d3).1 ≤ 3 ∧
    0 ≤ (cutCycles 365 d3).2 ∧ (cutCycles 365 d3).2 ≤ 365 ∧
    ((cutCycles 365 d3).1 < 3 → (cutCycles 365 d3).2 ≤ 364) ∧
    d3 = 365 * (cutCycles 365 d3).1 + (cutCycles 365 d3).2 := by
  simp only [cutCycles]
  omega

theorem yearDay_cycles (d : Int) : Cycles d (yearDay d).1 (yearDay d).2 := by
  have hd1 : 0 ≤ d - 146097 * (d / 146097) ∧ d - 146097 * (d / 146097) < 146097 := by omega
  obtain ⟨a1, a2, a3, a4, a5, a6⟩ := cutCycles_century _ hd1.1 hd1.2
  have hd3 : 0 ≤ (cutCycles 36524 (d - 146097 * (d / 146097))).2 -
        1461 * ((cutCycles 36524 (d - 146097 * (d / 146097))).2 / 1461) ∧
      (cutCycles 36524 (d - 146097 * (d / 146097))).2 -
        1461 * ((cutCycles 36524 (d - 146097 * (d / 146097))).2 / 1461) < 1461 := by omega
  obtain ⟨b1, b2, b3, b4, b5, b6⟩ := cutCycles_year _ hd3.1 hd3.2
  refine ⟨d / 146097, (cutCycles 36524 (d - 146097 * (d / 146097))).1,
    (cutCycles 36524 (d - 146097 * (d / 146097))).2 / 1461,
    (cutCycles 365 ((cutCycles 36524 (d - 146097 * (d / 146097))).2 -
        1461 * ((cutCycles 36524 (d - 146097 * (d / 146097))).2 / 1461))).1, ?_⟩
  simp only [yearDay]
  generalize (cutCycles 365 ((cutCycles 36524 (d - 146097 * (d / 146097))).2 -
        1461 * ((cutCycles 36524 (d - 146097 * (d / 146097))).2 / 1461))) = c1 at *
  generalize (cutCycles 36524 (d - 146097 * (d / 146097))) = c100 at *
  refine ⟨trivial, ?_, a1, a2, ?_, ?_, b1, b2, b3, b4, b5, ?_, ?_, ?_⟩ <;> omega

theorem Cycles.mono {a b ya da yb db : Int} (ha : Cycles a ya da) (hb : Cycles b yb db)
    (h : a < b) : ya < yb ∨ (ya = yb ∧ da < db) := by
  obtain ⟨p400, p100, p4, p1, h1, h2, h3⟩ := ha
  obtain ⟨q400, q100, q4, q1, k1, k2, k3⟩ := hb
  rcases lt_trichotomy p400 q400 with c | c | c
  · left; omega
  · rcases lt_trichotomy p100 q100 with e | e | e
    · left; omega
    · rcases lt_trichotomy p4 q4 with f | f | f
      · left; omega
      · rcases lt_trichotomy p1 q1 with g | g | g
        · left; omega
        · right; omega
        · omega
      · omega
    · omega
  · omega

theorem Cycles.yday_range {d y yday : Int} (h : Cycles d y yday) :
    0 ≤ yday ∧ yday < (if isLeap y then 366 else 365) := by
  obtain ⟨p400, p100, p4, p1, h1, h2, h3⟩ := h
  by_cases hl : isLeap y = true
  · rw [if_pos hl]; omega
  · rw [if_neg hl]
    simp only [isLeap, Bool.and_eq_true, Bool.or_eq_true, decide_eq_true_eq] at hl
    omega

set_option maxRecDepth 100000 in
theorem monthDayOk_all :
    ∀ leap : Bool, ∀ n : Nat, n < (if leap then 366 else 365) → monthDayOk leap n = true := by
  decide

theorem monthDay_range (leap : Bool) (yday : Int) (h0 : 0 ≤ yday)
    (h1 : yday < (if leap then 366 else 365)) :
    1 ≤ (monthDay leap yday).1 ∧ (monthDay leap yday).1 ≤ 12 ∧
    1 ≤ (monthDay leap yday).2 ∧ (monthDay leap yday).2 ≤ 31 := by
  obtain ⟨n, rfl⟩ := Int.eq_ofNat_of_zero_le h0
  have hn : n < (if leap then 366 else 365) := by
    cases leap <;> simp at h1 ⊢ <;> omega
  have h := monthDayOk_all leap n hn
  simp only [monthDayOk, Bool.and_eq_true, decide_eq_true_eq] at h
  exact ⟨h.1.1.1.1, h.1.1.1.2, h.1.1.2, h.1.2⟩

theorem monthDayKey_succ (leap : Bool) (n : Nat) (h : n + 1 < (if leap then 366 else 365)) :
    monthDayKey leap n < monthDayKey leap (n + 1 : Nat) := by
  have hn : n < (if leap then 366 else 365) := by omega
  have h2 := monthDayOk_all leap n hn
  simp only [monthDayOk, Bool.and_eq_true, decide_eq_true_eq] at h2
  rcases h2.2 with h3 | h3
  · simpa using h3
  · cases leap <;> simp at h h3 <;> omega

theorem monthDayKey_mono (leap : Bool) (a b : Nat) (hab : a < b)
    (hb : b < (if leap then 366 else 365)) :
    monthDayKey leap a < monthDayKey leap b := by
  induction b with
  | zero => omega
  | succ b ih =>
    have step := monthDayKey_succ leap b hb
    rcases Nat.lt_succ_iff_lt_or_eq.mp hab with h | h
    · exact lt_trans (ih h (by omega)) step
    · subst h; exact step

theorem civilFromDays_range (z : Int) :
    1 ≤ (civilFromDays z).month ∧ (civilFromDays z).month ≤ 12 ∧
    1 ≤ (civilFromDays z).day ∧ (civilFromDays z).day ≤ 31 := by
  have hc := yearDay_cycles (z + 719162)
  have hr := hc.yday_range
  exact monthDay_range _ _ hr.1 hr.2

theorem civilFromDays_key_lt (a b : Int) (h : a < b) :
    (civilFromDays a).key < (civilFromDays b).key := by
  have ha := yearDay_cycles (a + 719162)
  have hb := yearDay_cycles (b + 719162)
  have ra := civilFromDays_range a
  have rb := civilFromDays_range b
  have hra := ha.yday_range
  have hrb := hb.yday_range
  rcases ha.mono hb (by omega) with hy | ⟨hy, hd⟩
  · simp only [Date.key]
    have : (civilFromDays a).year < (civilFromDays b).year := hy
    omega
  · have hy2 : (civilFromDays a).year = (civilFromDays b).year := hy
    obtain ⟨n, hn⟩ := Int.eq_ofNat_of_zero_le hra.1
    obtain ⟨k, hk⟩ := Int.eq_ofNat_of_zero_le hrb.1
    have hk2 : k < (if isLeap (yearDay (b + 719162)).1 then 366 else 365) := by
      have := hrb.2
      rw [hk] at this
      split at this <;> simp_all
    have hm := monthDayKey_mono (isLeap (yearDay (b + 719162)).1) n k (by omega) hk2
    have e1 : (civilFromDays a).month * 100 + (civilFromDays a).day =
        monthDayKey (isLeap (yearDay (b + 719162)).1) n := by
      simp only [civilFromDays, monthDayKey, hy, hn]
    have e2 : (civilFromDays b).month * 100 + (civilFromDays b).day =
        monthDayKey (isLeap (yearDay (b + 719162)).1) k := by
      simp only [civilFromDays, monthDayKey, hk]
    simp only [Date.key]
    omega

theorem civilFromDays_key_lt_iff (a b : Int) :
    (civilFromDays a).key < (civilFromDays b).key ↔ a < b := by
  constructor
  · intro h
    by_contra hn
    rcases lt_or_eq_of_le (not_lt.mp hn) with h2 | h2
    · have := civilFromDays_key_lt b a h2
      omega
    · subst h2; omega
  · exact civilFromDays_key_lt a b

theorem civilFromDays_key_eq_iff (a b : Int) :
    (civilFromDays a).key = (civilFromDays b).key ↔ a = b := by
  constructor
  · intro h
    rcases lt_trichotomy a b with h2 | h2 | h2
    · have := civilFromDays_key_lt a b h2; omega
    · exact h2
    · have := civilFromDays_key_lt b a h2; omega
  · rintro rfl; rfl

/-! ## Strings and digits -/

theorem digit_lt_iff {a b : Nat} (ha : a < 10) (hb : b < 10) : digit a < digit b ↔ a < b := by
  interval_cases a <;> interval_cases b <;> decide

theorem digit_inj {a b : Nat} (ha : a < 10) (hb : b < 10) (h : digit a = digit b) : a = b := by
  interval_cases a <;> interval_cases b <;> first | rfl | (exact absurd h (by decide))

theorem lexLess_irrefl (l : List Char) : lexLess l l = false := by
  induction l with
  | nil => rfl
  | cons c l ih => simp [lexLess, ih]

theorem lexLess_append_left (l as bs : List Char) :
    lexLess (l ++ as) (l ++ bs) = lexLess as bs := by
  induction l with
  | nil => rfl
  | cons c l ih => simp [lexLess, ih]

theorem digitsVal_lt (ds : List Nat) (h : ∀ d ∈ ds, d < 10) :
    digitsVal ds < 10 ^ ds.length := by
  induction ds with
  | nil => simp [digitsVal]
  | cons d ds ih =>
    have h1 : d < 10 := h d (List.mem_cons_self _ _)
    have h2 := ih (fun x hx => h x (List.mem_cons_of_mem _ hx))
    simp only [digitsVal, List.length_cons, pow_succ]
    nlinarith

theorem lexLess_digits (as bs : List Nat) (hlen : as.length = bs.length)
    (ha : ∀ d ∈ as, d < 10) (hb : ∀ d ∈ bs, d < 10) :
    lexLess (as.map digit) (bs.map digit) = true ↔ digitsVal as < digitsVal bs := by
  induction as generalizing bs with
  | nil =>
    cases bs with
    | nil => simp [digitsVal, lexLess]
    | cons b bs => simp at hlen
  | cons a as ih =>
    cases bs with
    | nil => simp at hlen
    | cons b bs =>
      have hlen2 : as.length = bs.length := by simpa using hlen
      have ha1 : a < 10 := ha a (List.mem_cons_self _ _)
      have hb1 : b < 10 := hb b (List.mem_cons_self _ _)
      have ha2 : ∀ d ∈ as, d < 10 := fun x hx => ha x (List.mem_cons_of_mem _ hx)
      have hb2 : ∀ d ∈ bs, d < 10 := fun x hx => hb x (List.mem_cons_of_mem _ hx)
      have va := digitsVal_lt as ha2
      have vb := digitsVal_lt bs hb2
      have ih2 := ih bs hlen2 ha2 hb2
      simp only [List.map_cons, lexLess, digitsVal, hlen2]
      rw [hlen2] at va
      rcases lt_trichotomy a b with c | c | c
      · have : digit a < digit b := (digit_lt_iff ha1 hb1).mpr c
        simp only [this, if_true, true_iff]
        nlinarith
      · subst c
        simp only [lt_irrefl, if_false, ih2]
        omega
      · have h1 : digit b < digit a := (digit_lt_iff hb1 ha1).mpr c
        have h2 : ¬ digit a < digit b := not_lt_of_lt h1
        simp only [h2, h1, if_false, if_true]
        constructor
        · intro h; cases h
        · intro h; exfalso; nlinarith

theorem appendInt_four (n : Nat) (h : n < 10000) :
    appendInt (n : Int) 4 =
      [digit (n / 1000 % 10), digit (n / 100 % 10), digit (n / 10 % 10), digit (n % 10)] := by
  have e1 : n / 100 / 10 = n / 1000 % 10 := by omega
  have e2 : n / 100 % 10 = n / 100 % 10 := rfl
  have e3 : n % 100 / 10 = n / 10 % 10 := by omega
  have e4 : n % 100 % 10 = n % 10 := by omega
  have hneg : ¬ ((n : Int) < 0) := by omega
  simp only [appendInt, Int.natAbs_ofNat, h, hneg, if_false, and_true, false_and,
    Nat.reduceEqDiff, List.nil_append, if_true, e1, e3, e4]

theorem appendInt_two (n : Nat) (h : n < 100) :
    appendInt (n : Int) 2 = [digit (n / 10 % 10), digit (n % 10)] := by
  have e1 : n / 10 = n / 10 % 10 := by omega
  have hneg : ¬ ((n : Int) < 0) := by omega
  simp only [appendInt, Int.natAbs_ofNat, h, hneg, if_false, and_true, if_true,
    List.nil_append]
  rw [← e1]

theorem renderYYYYMMDD_eq (d : Date) :
    renderYYYYMMDD d = String.mk ((dateDigits d).map digit) := by
  simp [renderYYYYMMDD, zeroPad, dateDigits]

theorem format_eq_digits (t : Time) (hy0 : 0 ≤ t.Date.year) (hy1 : t.Date.year ≤ 9999) :
    t.Format20060102 = String.mk ((dateDigits t.Date).map digit) := by
  have hr := civilFromDays_range t.dayNumber
  obtain ⟨y, hy⟩ := Int.eq_ofNat_of_zero_le hy0
  obtain ⟨mo, hmo⟩ := Int.eq_ofNat_of_zero_le (show 0 ≤ t.Date.month by
    have := hr.1; simp only [Time.Date]; omega)
  obtain ⟨dd, hdd⟩ := Int.eq_ofNat_of_zero_le (show 0 ≤ t.Date.day by
    have := hr.2.2.1; simp only [Time.Date]; omega)
  have h1 : y < 10000 := by omega
  have h2 : mo < 100 := by
    have := hr.2.1; simp only [Time.Date] at hmo; omega
  have h3 : dd < 100 := by
    have := hr.2.2.2; simp only [Time.Date] at hdd; omega
  simp only [Time.Format20060102, dateDigits, hy, hmo, hdd, appendInt_four y h1,
    appendInt_two mo h2, appendInt_two dd h3, Int.toNat_ofNat, List.map_cons, List.map_nil,
    List.cons_append, List.nil_append]

theorem dateDigits_lt (d : Date) : ∀ x ∈ dateDigits d, x < 10 := by
  intro x hx
  simp only [dateDigits, List.mem_cons, List.mem_singleton, List.not_mem_nil, or_false] at hx
  omega

theorem dateDigits_val (d : Date) (hy0 : 0 ≤ d.year) (hy1 : d.year ≤ 9999)
    (hm0 : 0 ≤ d.month) (hm1 : d.month ≤ 99) (hd0 : 0 ≤ d.day) (hd1 : d.day ≤ 99) :
    (digitsVal (dateDigits d) : Int) = d.key := by
  simp only [dateDigits, digitsVal, Date.key, List.length_cons, List.length_nil]
  omega

theorem Time.Date_range (t : Time) :
    1 ≤ t.Date.month ∧ t.Date.month ≤ 12 ∧ 1 ≤ t.Date.day ∧ t.Date.day ≤ 31 :=
  civilFromDays_range t.dayNumber

theorem Time.Date_key_lt_iff (t u : Time) : t.Date.key < u.Date.key ↔ t.dayNumber < u.dayNumber :=
  civilFromDays_key_lt_iff t.dayNumber u.dayNumber

theorem Time.Date_key_eq_iff (t u : Time) : t.Date.key = u.Date.key ↔ t.dayNumber = u.dayNumber :=
  civilFromDays_key_eq_iff t.dayNumber u.dayNumber

theorem getMonitorCollectionName_data (m : MongoDB) (t : Time) (hy0 : 0 ≤ t.Date.year)
    (hy1 : t.Date.year ≤ 9999) :
    (m.getMonitorCollectionName t).data =
      (m.MonitorConnPrefix.data ++ ['_']) ++ (dateDigits t.Date).map digit := by
  simp only [MongoDB.getMonitorCollectionName, format_eq_digits t hy0 hy1, String.data_append]

theorem dateDigits_val_date (t : Time) (hy0 : 0 ≤ t.Date.year) (hy1 : t.Date.year ≤ 9999) :
    (digitsVal (dateDigits t.Date) : Int) = t.Date.key := by
  have hr := t.Date_range
  exact dateDigits_val _ hy0 hy1 (by omega) (by omega) (by omega) (by omega)

theorem strLess_getMonitorCollectionName (m : MongoDB) (t1 t2 : Time)
    (h1 : 0 ≤ t1.Date.year ∧ t1.Date.year ≤ 9999)
    (h2 : 0 ≤ t2.Date.year ∧ t2.Date.year ≤ 9999) :
    strLess (m.getMonitorCollectionName t1) (m.getMonitorCollectionName t2) = true ↔
      t1.dayNumber < t2.dayNumber := by
  have v1 := dateDigits_val_date t1 h1.1 h1.2
  have v2 := dateDigits_val_date t2 h2.1 h2.2
  rw [strLess, getMonitorCollectionName_data m t1 h1.1 h1.2,
    getMonitorCollectionName_data m t2 h2.1 h2.2, lexLess_append_left,
    lexLess_digits _ _ (by simp [dateDigits]) (dateDigits_lt _) (dateDigits_lt _),
    ← t1.Date_key_lt_iff t2]
  omega

/-! ## Partition names -/

/-- C6, amended: for every prefix and every UTC time whose year is between 0 and 9999,
`getMonitorCollectionName` is the prefix, an underscore and the `YYYYMMDD` rendering of the
date of the time (year zero-padded to four digits, month and day to two), and that
rendering has exactly eight characters. -/
theorem getMonitorCollectionName_eq_render (m : MongoDB) (t : Time)
    (hy0 : 0 ≤ t.Date.year) (hy1 : t.Date.year ≤ 9999) :
    m.getMonitorCollectionName t = m.MonitorConnPrefix ++ "_" ++ renderYYYYMMDD t.Date ∧
      (renderYYYYMMDD t.Date).length = 8 := by
  constructor
  · simp only [MongoDB.getMonitorCollectionName, format_eq_digits t hy0 hy1, renderYYYYMMDD_eq]
  · simp [renderYYYYMMDD_eq, dateDigits, String.length]

/-- The amended C6 at 2020-12-01: the name is `monitor_20201201`. -/
theorem getMonitorCollectionName_eq_render_witness :
    (0 ≤ (Time.ofDay 18597).Date.year ∧ (Time.ofDay 18597).Date.year ≤ 9999) ∧
      (defaultMongoDB.getMonitorCollectionName (Time.ofDay 18597) =
        defaultMongoDB.MonitorConnPrefix ++ "_" ++ renderYYYYMMDD (Time.ofDay 18597).Date ∧
      (renderYYYYMMDD (Time.ofDay 18597).Date).length = 8) :=
  ⟨by decide, getMonitorCollectionName_eq_render defaultMongoDB (Time.ofDay 18597)
    (by decide) (by decide)⟩

/-- C6 fails in the year 10000: on 10000-01-01 the name is `monitor_100000101`, which is
not the prefix, an underscore and the eight-digit rendering, nor any eight characters. -/
theorem getMonitorCollectionName_year_10000 :
    (Time.ofDay 2932897).Date = ⟨10000, 1, 1⟩ ∧
      defaultMongoDB.getMonitorCollectionName (Time.ofDay 2932897) = "monitor_100000101" ∧
      defaultMongoDB.getMonitorCollectionName (Time.ofDay 2932897) ≠
        defaultMongoDB.MonitorConnPrefix ++ "_" ++ renderYYYYMMDD (Time.ofDay 2932897).Date ∧
      ¬ ∃ s : String, s.length = 8 ∧
        defaultMongoDB.getMonitorCollectionName (Time.ofDay 2932897) =
          defaultMongoDB.MonitorConnPrefix ++ "_" ++ s := by
  refine ⟨by decide, by decide, by decide, ?_⟩
  rintro ⟨s, hs, h⟩
  have h2 := congrArg String.length h
  have h3 : (defaultMongoDB.getMonitorCollectionName (Time.ofDay 2932897)).length = 17 := by
    decide
  rw [h3, String.length_append, hs] at h2
  have h4 : (defaultMongoDB.MonitorConnPrefix ++ "_").length = 8 := by decide
  omega

/-- C7: for two UTC times with four-digit years (0 to 9999) and one prefix, the name of
the first sorts below the name of the second exactly when the first falls on an earlier
day, and the names are equal exactly when the days are equal. -/
theorem getMonitorCollectionName_order (m : MongoDB) (t1 t2 : Time)
    (h1 : 0 ≤ t1.Date.year ∧ t1.Date.year ≤ 9999)
    (h2 : 0 ≤ t2.Date.year ∧ t2.Date.year ≤ 9999) :
    (strLess (m.getMonitorCollectionName t1) (m.getMonitorCollectionName t2) = true ↔
        t1.dayNumber < t2.dayNumber) ∧
      (m.getMonitorCollectionName t1 = m.getMonitorCollectionName t2 ↔
        t1.dayNumber = t2.dayNumber) := by
  have a := strLess_getMonitorCollectionName m t1 t2 h1 h2
  have b := strLess_getMonitorCollectionName m t2 t1 h2 h1
  refine ⟨a, ?_, ?_⟩
  · intro h
    have c : strLess (m.getMonitorCollectionName t1) (m.getMonitorCollectionName t2) = false := by
      rw [h]; exact lexLess_irrefl _
    have d : strLess (m.getMonitorCollectionName t2) (m.getMonitorCollectionName t1) = false := by
      rw [h]; exact lexLess_irrefl _
    rw [c] at a
    rw [d] at b
    have := a.not.mp (by simp)
    have := b.not.mp (by simp)
    omega
  · intro h
    simp only [MongoDB.getMonitorCollectionName, Time.Format20060102, Time.Date, h]

/-- C7 at 2020-12-01 and 2020-12-02: `monitor_20201201` sorts below `monitor_20201202`. -/
theorem getMonitorCollectionName_order_witness :
    ((0 ≤ (Time.ofDay 18597).Date.year ∧ (Time.ofDay 18597).Date.year ≤ 9999) ∧
      (0 ≤ (Time.ofDay 18598).Date.year ∧ (Time.ofDay 18598).Date.year ≤ 9999)) ∧
    ((strLess (defaultMongoDB.getMonitorCollectionName (Time.ofDay 18597))
        (defaultMongoDB.getMonitorCollectionName (Time.ofDay 18598)) = true ↔
        (Time.ofDay 18597).dayNumber < (Time.ofDay 18598).dayNumber) ∧
      (defaultMongoDB.getMonitorCollectionName (Time.ofDay 18597) =
          defaultMongoDB.getMonitorCollectionName (Time.ofDay 18598) ↔
        (Time.ofDay 18597).dayNumber = (Time.ofDay 18598).dayNumber)) :=
  ⟨⟨by decide, by decide⟩,
    getMonitorCollectionName_order defaultMongoDB (Time.ofDay 18597) (Time.ofDay 18598)
      (by decide) (by decide)⟩

/-! ## Retention -/

theorem mem_Drop (db : Database) (name : String) (x : Collection) :
    x ∈ db.Drop name ↔ x ∈ db ∧ x.name ≠ name := by
  simp [Database.Drop]

/-- What a run of the loop without error leaves: the collections it started with, apart
from those whose name is in the list, starts with the prefix and sorts below the cutoff. -/
theorem dropOlder_mem (pre cutoffName : String) (dropErr : String → Option Error)
    (names : List String) (db db' : Database)
    (h : dropOlder pre cutoffName dropErr names db = (db', none)) (x : Collection) :
    x ∈ db' ↔ x ∈ db ∧
      ¬ (x.name ∈ names ∧ HasPrefix x.name pre = true ∧ strLess x.name cutoffName = true) := by
  induction names generalizing db with
  | nil =>
    simp only [dropOlder, Prod.mk.injEq, and_true] at h
    subst h
    simp
  | cons c cs ih =>
    simp only [dropOlder] at h
    by_cases hc : (HasPrefix c pre && strLess c cutoffName) = true
    · rw [if_pos hc] at h
      cases he : dropErr c with
      | some e => rw [he] at h; simp at h
      | none =>
        rw [he] at h
        rw [ih _ h, mem_Drop]
        simp only [Bool.and_eq_true] at hc
        constructor
        · rintro ⟨⟨h1, h2⟩, h3⟩
          refine ⟨h1, ?_⟩
          rintro ⟨h4, h5⟩
          rcases List.mem_cons.mp h4 with h6 | h6
          · exact h2 h6
          · exact h3 ⟨h6, h5⟩
        · rintro ⟨h1, h2⟩
          refine ⟨⟨h1, ?_⟩, ?_⟩
          · intro h3
            exact h2 ⟨by rw [h3]; exact List.mem_cons_self _ _, by rw [h3]; exact hc⟩
          · rintro ⟨h4, h5⟩
            exact h2 ⟨List.mem_cons_of_mem _ h4, h5⟩
    · rw [if_neg hc] at h
      rw [ih _ h]
      simp only [Bool.and_eq_true] at hc
      constructor
      · rintro ⟨h1, h3⟩
        refine ⟨h1, ?_⟩
        rintro ⟨h4, h5⟩
        rcases List.mem_cons.mp h4 with h6 | h6
        · rw [h6] at h5; exact hc h5
        · exact h3 ⟨h6, h5⟩
      · rintro ⟨h1, h2⟩
        refine ⟨h1, ?_⟩
        rintro ⟨h4, h5⟩
        exact h2 ⟨List.mem_cons_of_mem _ h4, h5⟩

theorem DropMonitorCollectionsOlderThan_mem (m : MongoDB) (now : Time) (listErr : Option Error)
    (dropErr : String → Option Error) (days : Int) (db : Database)
    (hok : (m.DropMonitorCollectionsOlderThan now listErr dropErr days db).2 = none)
    (x : Collection) :
    x ∈ (m.DropMonitorCollectionsOlderThan now listErr dropErr days db).1 ↔
      x ∈ db ∧ ¬ (HasPrefix x.name m.MonitorConnPrefix = true ∧
        strLess x.name (m.getMonitorCollectionName (now.AddDays (-days))) = true) := by
  simp only [MongoDB.DropMonitorCollectionsOlderThan] at hok ⊢
  cases hl : listErr with
  | some e => rw [hl] at hok; simp at hok
  | none =>
    rw [hl] at hok
    simp only at hok ⊢
    have h := dropOlder_mem m.MonitorConnPrefix
      (m.getMonitorCollectionName (now.AddDays (-days))) dropErr db.ListCollectionNames db _
      (Prod.ext rfl hok) x
    rw [h]
    constructor
    · rintro ⟨h1, h2⟩
      exact ⟨h1, fun h3 => h2 ⟨List.mem_map_of_mem _ h1, h3⟩⟩
    · rintro ⟨h1, h2⟩
      exact ⟨h1, fun h3 => h2 h3.2⟩

theorem HasPrefix_getMonitorCollectionName (m : MongoDB) (t : Time) :
    HasPrefix (m.getMonitorCollectionName t) m.MonitorConnPrefix = true := by
  simp [HasPrefix, MongoDB.getMonitorCollectionName, String.data_append]

/-- C8, amended: after `DropMonitorCollectionsOlderThan` returns without error, no
collection is left whose name starts with the prefix and sorts below the cutoff name; and
when the cutoff date (the date of `now` minus `days` days) has a year between 0 and 9999,
no collection is left that is named for a day with such a year that is strictly earlier
than the cutoff date. -/
theorem DropMonitorCollectionsOlderThan_retention (m : MongoDB) (now : Time)
    (listErr : Option Error) (dropErr : String → Option Error) (days : Int) (db : Database)
    (hok : (m.DropMonitorCollectionsOlderThan now listErr dropErr days db).2 = none) :
    (∀ x ∈ (m.DropMonitorCollectionsOlderThan now listErr dropErr days db).1,
        ¬ (HasPrefix x.name m.MonitorConnPrefix = true ∧
          strLess x.name (m.getMonitorCollectionName (now.AddDays (-days))) = true)) ∧
      ((0 ≤ (now.AddDays (-days)).Date.year ∧ (now.AddDays (-days)).Date.year ≤ 9999) →
        ∀ t : Time, 0 ≤ t.Date.year ∧ t.Date.year ≤ 9999 →
          t.dayNumber < (now.AddDays (-days)).dayNumber →
          ∀ x ∈ (m.DropMonitorCollectionsOlderThan now listErr dropErr days db).1,
            x.name ≠ m.getMonitorCollectionName t) := by
  have key := DropMonitorCollectionsOlderThan_mem m now listErr dropErr days db hok
  refine ⟨fun x hx => ((key x).mp hx).2, ?_⟩
  intro hc t ht hlt x hx hname
  apply ((key x).mp hx).2
  rw [hname]
  exact ⟨HasPrefix_getMonitorCollectionName m t,
    (strLess_getMonitorCollectionName m t _ ht hc).mpr hlt⟩

/-- The amended C8 on 2021-01-01 with 30 days of retention, over the partitions of
2020-12-01 and 2020-12-15: the run succeeds. -/
theorem DropMonitorCollectionsOlderThan_retention_witness :
    (defaultMongoDB.DropMonitorCollectionsOlderThan (Time.ofDay 18628) none (fun _ => none) 30
        [Collection.empty "monitor_20201201", Collection.empty "monitor_20201215"]).2 = none ∧
    ((∀ x ∈ (defaultMongoDB.DropMonitorCollectionsOlderThan (Time.ofDay 18628) none
          (fun _ => none) 30
          [Collection.empty "monitor_20201201", Collection.empty "monitor_20201215"]).1,
        ¬ (HasPrefix x.name defaultMongoDB.MonitorConnPrefix = true ∧
          strLess x.name
            (defaultMongoDB.getMonitorCollectionName ((Time.ofDay 18628).AddDays (-30))) =
              true)) ∧
      ((0 ≤ ((Time.ofDay 18628).AddDays (-30)).Date.year ∧
          ((Time.ofDay 18628).AddDays (-30)).Date.year ≤ 9999) →
        ∀ t : Time, 0 ≤ t.Date.year ∧ t.Date.year ≤ 9999 →
          t.dayNumber < ((Time.ofDay 18628).AddDays (-30)).dayNumber →
          ∀ x ∈ (defaultMongoDB.DropMonitorCollectionsOlderThan (Time.ofDay 18628) none
              (fun _ => none) 30
              [Collection.empty "monitor_20201201", Collection.empty "monitor_20201215"]).1,
            x.name ≠ defaultMongoDB.getMonitorCollectionName t)) :=
  ⟨by decide,
    DropMonitorCollectionsOlderThan_retention defaultMongoDB (Time.ofDay 18628) none
      (fun _ => none) 30
      [Collection.empty "monitor_20201201", Collection.empty "monitor_20201215"] (by decide)⟩

/-- C8 fails when the cutoff date is past the year 9999: run on 10000-02-15 with 30 days
of retention, the cutoff name is `monitor_100000116`, the run succeeds, and the partition
of 9999-12-31, a day before the cutoff date, is still there. -/
theorem DropMonitorCollectionsOlderThan_year_10000 :
    (defaultMongoDB.DropMonitorCollectionsOlderThan (Time.ofDay 2932942) none (fun _ => none) 30
        [Collection.empty "monitor_99991231"]).2 = none ∧
      defaultMongoDB.getMonitorCollectionName ((Time.ofDay 2932942).AddDays (-30)) =
        "monitor_100000116" ∧
      defaultMongoDB.getMonitorCollectionName (Time.ofDay 2932896) = "monitor_99991231" ∧
      (Time.ofDay 2932896).dayNumber < ((Time.ofDay 2932942).AddDays (-30)).dayNumber ∧
      Collection.empty "monitor_99991231" ∈
        (defaultMongoDB.DropMonitorCollectionsOlderThan (Time.ofDay 2932942) none
          (fun _ => none) 30 [Collection.empty "monitor_99991231"]).1 := by
  decide

/-! ## Sample store -/

/-- Every sample of a batch that `InsertMonitor` stores is in the partition of the first
sample of the batch. -/
theorem InsertMonitor_first_partition (m : MongoDB) (first : Monitor) (rest : List Monitor)
    (db : Database) (x : Monitor) (hx : x ∈ first :: rest) :
    x ∈ ((m.InsertMonitor none (first :: rest) db).1.coll
      (m.getMonitorCollectionName first.Time)).monitors := by
  simp only [MongoDB.InsertMonitor, Database.update, Database.coll]
  split
  · rename_i h
    obtain ⟨c, hc, hn⟩ := List.any_eq_true.mp h
    induction db with
    | nil => simp at hc
    | cons d ds ih =>
      by_cases hd : (d.name == m.getMonitorCollectionName first.Time) = true
      · simp [List.find?, hd, hx]
      · simp only [List.map_cons, hd, List.find?, if_false]
        simp only [Bool.not_eq_true] at hd
        simp only [Bool.false_eq_true, if_false, hd]
        rcases List.mem_cons.mp hc with h1 | h1
        · subst h1; rw [hn] at hd; cases hd
        · exact ih (List.any_eq_true.mpr ⟨c, h1, hn⟩) h1
  · rename_i h
    have hnone : List.find? (fun c => c.name == m.getMonitorCollectionName first.Time) db =
        none := by
      rw [List.find?_eq_none]
      intro c hc hn
      exact h (List.any_eq_true.mpr ⟨c, hc, hn⟩)
    simp [List.find?_append, hnone, Collection.empty, hx]

/-- C5 at a batch that spans midnight: a sample of 2020-12-01 23:59:59 followed by a
sample of 2020-12-02 00:00:01. Both are stored in `monitor_20201201`; the partition of
the second sample's own day, `monitor_20201202`, does not get it. -/
theorem InsertMonitor_mixed_days :
    defaultMongoDB.getMonitorCollectionName ⟨1606867201000000000⟩ = "monitor_20201202" ∧
      ((defaultMongoDB.InsertMonitor none
          [⟨⟨1606867199000000000⟩, "ns-a", 2, "web", [(0, 100)], ""⟩,
            ⟨⟨1606867201000000000⟩, "ns-a", 2, "web", [(0, 100)], ""⟩] []).1.coll
        "monitor_20201201").monitors =
        [⟨⟨1606867199000000000⟩, "ns-a", 2, "web", [(0, 100)], ""⟩,
          ⟨⟨1606867201000000000⟩, "ns-a", 2, "web", [(0, 100)], ""⟩] ∧
      ((defaultMongoDB.InsertMonitor none
          [⟨⟨1606867199000000000⟩, "ns-a", 2, "web", [(0, 100)], ""⟩,
            ⟨⟨1606867201000000000⟩, "ns-a", 2, "web", [(0, 100)], ""⟩] []).1.coll
        "monitor_20201202").monitors = [] := by
  decide

/-! ## Metering -/

theorem StrMap.mem_set {α : Type} (m : StrMap α) (k : String) (v : α) (p : String × α)
    (h : p ∈ m.set k v) : p ∈ m ∨ p = (k, v) := by
  unfold StrMap.set at h
  split at h
  · obtain ⟨q, hq, rfl⟩ := List.mem_map.mp h
    by_cases hk : (q.1 == k) = true
    · simp [hk]
    · simp [hk, hq]
  · rcases List.mem_append.mp h with h1 | h1
    · exact Or.inl h1
    · exact Or.inr (by simpa using h1)

/-- The totals of every category stay empty through the scan: no turn of the loop adds a
property to them. -/
theorem meteringStep_totals_empty (m : MongoDB) (faults : MeteringFaults) (db : Database)
    (startTime : Time) (s : MeteringScan) (monitor : Monitor)
    (h : ∀ p ∈ s.meteringMap, p.2 = []) :
    ∀ p ∈ (meteringStep m faults db startTime s monitor).meteringMap, p.2 = [] := by
  intro p hp
  unfold meteringStep at hp
  simp only at hp
  split at hp
  · split at hp
    · exact h p hp
    · rcases StrMap.mem_set _ _ _ _ hp with h1 | h1
      · exact h p h1
      · rw [h1]
  · exact h p hp

theorem scan_totals_empty (m : MongoDB) (faults : MeteringFaults) (db : Database)
    (startTime : Time) (monitors : List Monitor) (s : MeteringScan)
    (h : ∀ p ∈ s.meteringMap, p.2 = []) :
    ∀ p ∈ (monitors.foldl (meteringStep m faults db startTime) s).meteringMap, p.2 = [] := by
  induction monitors generalizing s with
  | nil => exact h
  | cons x xs ih => exact ih _ (meteringStep_totals_empty m faults db startTime s x h)

theorem meteringRecords_nil (s : MeteringScan) (endTime : Time) (prices : StrMap Price)
    (h : ∀ p ∈ s.meteringMap, p.2 = []) : meteringRecords s endTime prices = [] := by
  unfold meteringRecords
  rw [List.flatMap_eq_nil_iff]
  intro p hp
  rw [h p hp]
  rfl

/-- `GenerateMeteringData` never changes the database: the records it would insert come
from totals that the scan leaves empty. -/
theorem GenerateMeteringData_database (m : MongoDB) (faults : MeteringFaults)
    (startTime endTime : Time) (prices : StrMap Price) (db : Database) :
    (m.GenerateMeteringData faults startTime endTime prices db).1 = db := by
  unfold MongoDB.GenerateMeteringData
  cases faults.findErr with
  | some e => rfl
  | none =>
    simp only
    rw [meteringRecords_nil _ _ _ (scan_totals_empty m faults db startTime _ _ (by simp))]
    rfl

theorem GenerateMeteringData_ok (m : MongoDB) (faults : MeteringFaults)
    (startTime endTime : Time) (prices : StrMap Price) (db : Database)
    (h : faults.findErr = none) :
    (m.GenerateMeteringData faults startTime endTime prices db).2 = none := by
  unfold MongoDB.GenerateMeteringData
  rw [h]
  simp only
  rw [meteringRecords_nil _ _ _ (scan_totals_empty m faults db startTime _ _ (by simp))]
  rfl

theorem windowMonitors_cpuSamples (n : Nat) (step used : Int) (h0 : 0 ≤ step)
    (h1 : n * step ≤ 3600000000000) :
    defaultMongoDB.windowMonitors (monitorOnly (cpuSamples n step used)) noon onePm =
      cpuSamples n step used := by
  have hname : defaultMongoDB.getMonitorCollectionName noon = "monitor_20201201" := by decide
  unfold MongoDB.windowMonitors
  rw [hname]
  simp only [monitorOnly, Database.coll, List.find?, beq_self_eq_true, Option.getD_some]
  rw [List.filter_eq_self]
  intro x hx
  obtain ⟨i, hi, rfl⟩ := List.mem_map.mp hx
  have hi2 : i < n := List.mem_range.mp hi
  have hi3 : (i : Int) * step ≤ n * step :=
    Int.mul_le_mul_of_nonneg_right (by exact_mod_cast hi2.le) h0
  have hi4 : (i : Int) + 1 ≤ n := by exact_mod_cast hi2
  have hi5 : ((i : Int) + 1) * step ≤ n * step := Int.mul_le_mul_of_nonneg_right hi4 h0
  have hi6 : 0 ≤ (i : Int) * step := Int.mul_nonneg (by omega) h0
  simp only [Time.Before, noon, onePm, Bool.and_eq_true, Bool.not_eq_true', decide_eq_false_iff_not,
    decide_eq_true_eq]
  by_cases hs : step = 0
  · subst hs; simp
  · have : 0 < step := by omega
    constructor
    · omega
    · nlinarith

/-- C2 on scenario S1: 120 samples of (`ns-a`, `cpu`) over [12:00, 13:00), no metering
record yet. The scan sees the 120 samples, the latest metering time of the key is the zero
time, before the window, the run succeeds, and no metering record is stored. -/
theorem GenerateMeteringData_inserts_no_record :
    (defaultMongoDB.windowMonitors (monitorOnly (cpuSamples 120 30000000000 100))
        noon onePm).length = 120 ∧
      (defaultMongoDB.GetUpdateTimeForCategoryAndPropertyFromMetering none
        (monitorOnly (cpuSamples 120 30000000000 100)) "ns-a" "cpu").1 = Time.zero ∧
      Time.zero.Before noon = true ∧
      (defaultMongoDB.GenerateMeteringData MeteringFaults.none noon onePm cpuPrices
        (monitorOnly (cpuSamples 120 30000000000 100))).2 = none ∧
      ((defaultMongoDB.GenerateMeteringData MeteringFaults.none noon onePm cpuPrices
        (monitorOnly (cpuSamples 120 30000000000 100))).1.coll
          defaultMongoDB.MeteringConn).meterings = [] := by
  refine ⟨?_, rfl, by decide, GenerateMeteringData_ok _ _ _ _ _ _ rfl, ?_⟩
  · rw [windowMonitors_cpuSamples _ _ _ (by decide) (by decide)]
    simp [cpuSamples]
  · rw [GenerateMeteringData_database]
    rfl

/-- C3 on scenarios S1 and S2: with 120 samples of 100 at price 67 the record of value 100
and amount 6700 is not stored, and with 30 samples of 100 (sum 3000) the record of value
50 is not stored: the scan builds no record at all. -/
theorem GenerateMeteringData_value_missing :
    (∀ x ∈ ((defaultMongoDB.GenerateMeteringData MeteringFaults.none noon onePm cpuPrices
        (monitorOnly (cpuSamples 120 30000000000 100))).1.coll
          defaultMongoDB.MeteringConn).meterings, ¬ (x.Value = 100 ∧ x.Amount = 6700)) ∧
      (∀ x ∈ ((defaultMongoDB.GenerateMeteringData MeteringFaults.none noon onePm cpuPrices
        (monitorOnly (cpuSamples 30 120000000000 100))).1.coll
          defaultMongoDB.MeteringConn).meterings, x.Value ≠ 50) ∧
      meteringRecords
        ((defaultMongoDB.windowMonitors (monitorOnly (cpuSamples 30 120000000000 100))
            noon onePm).foldl
          (meteringStep defaultMongoDB MeteringFaults.none
            (monitorOnly (cpuSamples 30 120000000000 100)) noon)
          { meteringMap := [], countMap := [], updateTimeMap := [] })
        onePm cpuPrices = [] := by
  refine ⟨?_, ?_, ?_⟩
  · rw [GenerateMeteringData_database]
    intro x hx
    simp [monitorOnly, Database.coll, Collection.empty, defaultMongoDB] at hx
  · rw [GenerateMeteringData_database]
    intro x hx
    simp [monitorOnly, Database.coll, Collection.empty, defaultMongoDB] at hx
  · exact meteringRecords_nil _ _ _ (scan_totals_empty _ _ _ _ _ _ (by simp))

/-- On scenario S1, after a first successful run over [12:00, 13:00) the latest metering
time of (`ns-a`, `cpu`) is still the zero time, which is before 13:00 and not after 12:00:
the run stored no record that could move it. -/
theorem GenerateMeteringData_watermark_unchanged :
    (defaultMongoDB.GenerateMeteringData MeteringFaults.none noon onePm cpuPrices
        (monitorOnly (cpuSamples 120 30000000000 100))).2 = none ∧
      (defaultMongoDB.GetUpdateTimeForCategoryAndPropertyFromMetering none
        (defaultMongoDB.GenerateMeteringData MeteringFaults.none noon onePm cpuPrices
          (monitorOnly (cpuSamples 120 30000000000 100))).1 "ns-a" "cpu").1 = Time.zero ∧
      Time.zero.Before onePm = true ∧
      (Time.zero.Before noon || Time.zero.Equal noon) = true := by
  refine ⟨GenerateMeteringData_ok _ _ _ _ _ _ rfl, ?_, by decide, by decide⟩
  rw [GenerateMeteringData_database]
  rfl

/-! ## Billing -/

/-- C1 on two namespaces whose keys collide: `ns1` with type 1 and `ns` with type 11 both
get the key `ns11`. The rows price to 447 and 894; both orders are stored with the amount
1341, while their app costs sum to 447 and to 894. -/
theorem GenerateBillingData_amount_collision :
    "ns1" ++ Itoa 1 = "ns" ++ Itoa 11 ∧
      (ordersOf ["ns", "ns1"] twoNamespaces).map
          (fun b => (b.Namespace, b.AppType, b.Amount, (b.AppCosts.map (fun c => c.Amount)).sum)) =
        [("ns1", 1, 1341, 447), ("ns", 11, 1341, 894)] := by
  decide

/-- C10 on the same collision with an idle `ns1`: the only row of (`ns1`, 1) prices to 0
and is skipped, so the group keeps no app cost, yet an order is stored for it, with the
amount 894 of the group (`ns`, 11) and an empty list of app costs. -/
theorem GenerateBillingData_empty_order :
    defaultMongoDB.billingRows idleNamespace noon onePm DefaultPropertyTypeLS ["ns", "ns1"] =
        [{ Type_ := 1, Namespace := "ns1", Name := "db", Used := [(0, 0), (1, 0), (2, 0), (3, 0)] },
         { Type_ := 11, Namespace := "ns", Name := "job",
           Used := [(0, 2000), (1, 0), (2, 0), (3, 0)] }] ∧
      (ordersOf ["ns", "ns1"] idleNamespace).map
          (fun b => (b.Namespace, b.AppType, b.Amount, b.AppCosts.length)) =
        [("ns1", 1, 894, 0), ("ns", 11, 894, 1)] := by
  decide

theorem find?_cons_pos {α : Type} (f : α → Bool) (a : α) (l : List α) (h : f a = true) :
    List.find? f (a :: l) = some a := by
  simp [List.find?, h]

theorem find?_cons_neg {α : Type} (f : α → Bool) (a : α) (l : List α) (h : f a = false) :
    List.find? f (a :: l) = List.find? f l := by
  simp [List.find?, h]

theorem NatMap.find?_map_set {α : Type} (m : NatMap α) (k p : Nat) (v : α) :
    (m.map (fun q => if q.1 == k then (k, v) else q)).find? (fun q => q.1 == p) =
      if p = k then (if m.any (fun q => q.1 == k) then some (k, v) else none)
      else m.find? (fun q => q.1 == p) := by
  induction m with
  | nil => simp
  | cons q qs ih =>
    rw [List.map_cons, List.any_cons]
    by_cases hq : q.1 = k
    · have hqb : (q.1 == k) = true := by simpa using hq
      rw [if_pos hqb]
      by_cases hp : p = k
      · subst hp
        rw [find?_cons_pos (fun q => q.1 == p) (p, v) _ (by simp)]
        simp [hqb]
      · have hkp : (k == p) = false := by simpa using fun h => hp h.symm
        have hqp : (q.1 == p) = false := by rw [hq]; exact hkp
        rw [find?_cons_neg (fun q => q.1 == p) (k, v) _ hkp,
          find?_cons_neg (fun q => q.1 == p) q _ hqp, ih]
        simp [hp]
    · have hqb : (q.1 == k) = false := by simpa using hq
      rw [if_neg (by simp [hqb])]
      by_cases hp : p = k
      · subst hp
        rw [find?_cons_neg (fun q => q.1 == p) q _ hqb, ih]
        rw [hqb, Bool.false_or, if_pos rfl, if_pos rfl]
      · by_cases hqp : (q.1 == p) = true
        · rw [find?_cons_pos (fun q => q.1 == p) q _ hqp,
            find?_cons_pos (fun q => q.1 == p) q _ hqp]
          simp [hp]
        · have hqp2 : (q.1 == p) = false := by simpa using hqp
          rw [find?_cons_neg (fun q => q.1 == p) q _ hqp2,
            find?_cons_neg (fun q => q.1 == p) q _ hqp2, ih]
          simp [hp]

theorem NatMap.get?_set {α : Type} (m : NatMap α) (k p : Nat) (v : α) :
    NatMap.get? (NatMap.set m k v) p = if p = k then some v else NatMap.get? m p := by
  unfold NatMap.set NatMap.get?
  by_cases hany : m.any (fun q => q.1 == k) = true
  · rw [if_pos hany, NatMap.find?_map_set]
    by_cases hp : p = k
    · simp [hp, hany]
    · simp [hp]
  · rw [if_neg hany]
    have hnone : m.find? (fun q => q.1 == k) = none := by
      rw [List.find?_eq_none]
      intro q hq hqk
      exact hany (List.any_eq_true.mpr ⟨q, hq, hqk⟩)
    rw [List.find?_append]
    by_cases hp : p = k
    · subst hp
      simp [hnone]
    · have hkp : (k == p) = false := by simpa using fun h => hp h.symm
      simp [hp, hkp, List.find?_cons]

theorem NatMap.set_of_get?_none {α : Type} (m : NatMap α) (k : Nat) (v : α)
    (h : NatMap.get? m k = none) : NatMap.set m k v = m ++ [(k, v)] := by
  unfold NatMap.set
  unfold NatMap.get? at h
  have hany : ¬ m.any (fun q => q.1 == k) = true := by
    intro hany
    obtain ⟨q, hq, hqk⟩ := List.any_eq_true.mp hany
    simp only [Option.map_eq_none', List.find?_eq_none] at h
    exact h q hq hqk
  rw [if_neg hany]

theorem NatMap.get?_of_mem {α : Type} (m : NatMap α) (k : Nat) (v : α)
    (hnodup : (m.map Prod.fst).Nodup) (h : (k, v) ∈ m) : NatMap.get? m k = some v := by
  unfold NatMap.get?
  induction m with
  | nil => simp at h
  | cons q qs ih =>
    rw [List.map_cons, List.nodup_cons] at hnodup
    rcases List.mem_cons.mp h with h1 | h1
    · subst h1
      simp [List.find?]
    · have hne : ¬ q.1 = k := by
        intro hq
        apply hnodup.1
        rw [hq]
        exact List.mem_map.mpr ⟨(k, v), h1, rfl⟩
      have hqk : (q.1 == k) = false := by simpa using hne
      rw [find?_cons_neg (fun p => p.1 == k) q qs hqk]
      exact ih hnodup.2 h1

theorem NatMap.get?_none_of_not_mem {α : Type} (m : NatMap α) (k : Nat)
    (h : k ∉ m.map Prod.fst) : NatMap.get? m k = none := by
  unfold NatMap.get?
  simp only [Option.map_eq_none', List.find?_eq_none]
  intro q hq hqk
  apply h
  simp only [beq_iff_eq] at hqk
  rw [← hqk]
  exact List.mem_map.mpr ⟨q, hq, rfl⟩

theorem wrapInt64_add (a b : Int) : wrapInt64 (wrapInt64 a + b) = wrapInt64 (a + b) := by
  unfold wrapInt64
  omega

theorem wrapInt64_of_range (a : Int) (h1 : -9223372036854775808 ≤ a)
    (h2 : a ≤ 9223372036854775807) : wrapInt64 a = a := by
  unfold wrapInt64
  omega

theorem appCostStep_eq (prols : PropertyTypeLS) (row : UsageRow) (appCost : AppCost)
    (kv : Nat × Int) :
    appCostStep prols row appCost kv =
      match charge prols row kv.1 with
      | some usedAmount =>
        { appCost with UsedAmount := NatMap.set appCost.UsedAmount kv.1 usedAmount,
                       Amount := wrapInt64 (appCost.Amount + usedAmount) }
      | none => appCost := by
  unfold appCostStep charge
  cases prols.EnumMap.get? kv.1 with
  | none => rfl
  | some prop =>
    simp only
    by_cases hp : prop.UnitPrice.pos = true
    · simp [hp]
    · simp [hp]

theorem appCost_fold_get? (prols : PropertyTypeLS) (row : UsageRow) (l : List (Nat × Int))
    (ac : AppCost) (p : Nat) :
    NatMap.get? (l.foldl (appCostStep prols row) ac).UsedAmount p =
      if p ∈ l.map Prod.fst ∧ (charge prols row p).isSome = true then charge prols row p
      else NatMap.get? ac.UsedAmount p := by
  induction l generalizing ac with
  | nil => simp
  | cons kv l ih =>
    rw [List.foldl_cons, ih, appCostStep_eq]
    cases hc : charge prols row kv.1 with
    | none =>
      simp only
      by_cases hp : p = kv.1
      · subst hp
        simp [hc]
      · have hm : (p ∈ kv.1 :: List.map Prod.fst l) ↔ p ∈ List.map Prod.fst l := by
          rw [List.mem_cons]
          exact ⟨fun h => h.resolve_left hp, Or.inr⟩
        split_ifs with h1 h2 h2
        · rfl
        · exact absurd ⟨hm.mpr h1.1, h1.2⟩ h2
        · exact absurd ⟨hm.mp h2.1, h2.2⟩ h1
        · rfl
    | some ua =>
      simp only [NatMap.get?_set]
      by_cases hp : p = kv.1
      · subst hp
        simp [hc]
      · have hm : (p ∈ kv.1 :: List.map Prod.fst l) ↔ p ∈ List.map Prod.fst l := by
          rw [List.mem_cons]
          exact ⟨fun h => h.resolve_left hp, Or.inr⟩
        rw [if_neg hp]
        split_ifs with h1 h2 h2
        · rfl
        · exact absurd ⟨hm.mpr h1.1, h1.2⟩ h2
        · exact absurd ⟨hm.mp h2.1, h2.2⟩ h1
        · rfl

theorem appCost_fold_amount (prols : PropertyTypeLS) (row : UsageRow) (l : List (Nat × Int))
    (ac : AppCost) (hnodup : (l.map Prod.fst).Nodup)
    (hfresh : ∀ k ∈ l.map Prod.fst, NatMap.get? ac.UsedAmount k = none)
    (hac : ac.Amount = wrapInt64 (ac.UsedAmount.map Prod.snd).sum) :
    (l.foldl (appCostStep prols row) ac).Amount =
      wrapInt64 ((l.foldl (appCostStep prols row) ac).UsedAmount.map Prod.snd).sum := by
  induction l generalizing ac with
  | nil => exact hac
  | cons kv l ih =>
    rw [List.map_cons, List.nodup_cons] at hnodup
    rw [List.foldl_cons]
    have hk : NatMap.get? ac.UsedAmount kv.1 = none :=
      hfresh kv.1 (by rw [List.map_cons]; exact List.mem_cons_self _ _)
    apply ih _ hnodup.2
    · intro k hkl
      have hne : k ≠ kv.1 := fun h => hnodup.1 (h ▸ hkl)
      have hk2 : NatMap.get? ac.UsedAmount k = none :=
        hfresh k (by rw [List.map_cons]; exact List.mem_cons_of_mem _ hkl)
      rw [appCostStep_eq]
      cases charge prols row kv.1 with
      | none => exact hk2
      | some ua => simp only [NatMap.get?_set, if_neg hne, hk2]
    · rw [appCostStep_eq]
      cases charge prols row kv.1 with
      | none => exact hac
      | some ua =>
        simp only [NatMap.set_of_get?_none _ _ _ hk, List.map_append, List.sum_append,
          List.map_cons, List.map_nil, List.sum_cons, List.sum_nil, hac, Int.add_zero]
        exact wrapInt64_add _ _

set_option maxRecDepth 8000 in
/-- The division of `GenerateBillingData` on sample values: 1000 and 2000 at the default
price of cpu give 447 and 894; 21 and 7 at the price 0.35 give 61 and 20, where the exact
quotients are 60 and 20, since the `float64` of 0.35 is below 0.35 and the quotient is
rounded; 191001237 at the default price of cpu gives 85365859; a quotient above the range
of `int64` gives the least `int64`. -/
theorem ceilQuot_samples :
    Float64.ofRatio 2237442922 1000000000 = Float64.finite 5038273554890977 (-51) ∧
      Float64.ceilQuot 1000 (Float64.ofRatio 2237442922 1000000000) = 447 ∧
      Float64.ceilQuot 2000 (Float64.ofRatio 2237442922 1000000000) = 894 ∧
      Float64.ceilQuot 21 (Float64.ofRatio 35 100) = 61 ∧
      Float64.ceilQuot 7 (Float64.ofRatio 35 100) = 20 ∧
      Float64.ceilQuot 191001237 (Float64.ofRatio 2237442922 1000000000) = 85365859 ∧
      Float64.ceilQuot 9223372036854775807 (Float64.ofRatio 35 100) =
        -9223372036854775808 :=
  ⟨by decide, by decide, by decide, by decide, by decide, by decide, by decide⟩

/-- C9: for every usage row whose used map has distinct keys, the app cost that
`GenerateBillingData` builds for it has, for every property of the row that the registry
holds with a unit price above 0, the used amount `int64(math.Ceil(float64(used) /
unit_price))`, the quotient taken and rounded in `float64` as the code takes it; it has no
used amount for a property that the registry does not hold or holds with a unit price that
is not above 0; and its amount is the `int64` sum of its used amounts, which is their sum
whenever that is in the range of `int64`. -/
theorem appCostOf_usedAmount (prols : PropertyTypeLS) (row : UsageRow)
    (hnodup : (row.Used.map Prod.fst).Nodup) :
    (∀ p used prop, (p, used) ∈ row.Used → prols.EnumMap.get? p = some prop →
        prop.UnitPrice.pos = true →
        NatMap.get? (appCostOf prols row).UsedAmount p =
          some ((Float64.div (Float64.ofInt used) prop.UnitPrice).ceilInt64)) ∧
      (∀ p, (prols.EnumMap.get? p = none ∨
          ∃ prop, prols.EnumMap.get? p = some prop ∧ prop.UnitPrice.pos = false) →
        NatMap.get? (appCostOf prols row).UsedAmount p = none) ∧
      (appCostOf prols row).Amount =
        wrapInt64 ((appCostOf prols row).UsedAmount.map Prod.snd).sum ∧
      (-9223372036854775808 ≤ ((appCostOf prols row).UsedAmount.map Prod.snd).sum →
        ((appCostOf prols row).UsedAmount.map Prod.snd).sum ≤ 9223372036854775807 →
        (appCostOf prols row).Amount =
          ((appCostOf prols row).UsedAmount.map Prod.snd).sum) := by
  have hsum : (appCostOf prols row).Amount =
      wrapInt64 ((appCostOf prols row).UsedAmount.map Prod.snd).sum :=
    appCost_fold_amount prols row row.Used _ hnodup (fun k _ => by simp [NatMap.get?])
      (by simp [wrapInt64])
  refine ⟨?_, ?_, hsum, ?_⟩
  · intro p used prop hmem hprop hpos
    have hget := NatMap.get?_of_mem row.Used p used hnodup hmem
    have hc : charge prols row p = some (prop.UnitPrice.ceilQuot used) := by
      simp [charge, hprop, hpos, hget]
    have hin : p ∈ row.Used.map Prod.fst := List.mem_map.mpr ⟨(p, used), hmem, rfl⟩
    rw [appCostOf, appCost_fold_get?, hc]
    simp [hin, Float64.ceilQuot]
  · intro p hp
    have hc : charge prols row p = none := by
      rcases hp with h | ⟨prop, h, hpos⟩
      · simp [charge, h]
      · simp [charge, h, hpos]
    rw [appCostOf, appCost_fold_get?, hc]
    simp [NatMap.get?]
  · intro h1 h2
    rw [hsum, wrapInt64_of_range _ h1 h2]

/-- C9 on scenario S4: a row with `used[cpu] = 1000` under the default registry (cpu at
2.237442922) has the used amount 447 for cpu and the amount 447; the quotient of
`float64(1000)` by the price, rounded up, is 447. -/
theorem appCostOf_usedAmount_witness :
    (([(0, 1000), (1, 0), (2, 0), (3, 0)] : EnumUsedMap).map Prod.fst).Nodup ∧
      NatMap.get? (appCostOf DefaultPropertyTypeLS
        ⟨2, "ns-a", "web", [(0, 1000), (1, 0), (2, 0), (3, 0)]⟩).UsedAmount 0 = some 447 ∧
      (appCostOf DefaultPropertyTypeLS
        ⟨2, "ns-a", "web", [(0, 1000), (1, 0), (2, 0), (3, 0)]⟩).Amount = 447 ∧
      (Float64.div (Float64.ofInt 1000)
        (Float64.ofRatio 2237442922 1000000000)).ceilInt64 = 447 ∧
      ((∀ p used prop, (p, used) ∈ ([(0, 1000), (1, 0), (2, 0), (3, 0)] : EnumUsedMap) →
          DefaultPropertyTypeLS.EnumMap.get? p = some prop → prop.UnitPrice.pos = true →
          NatMap.get? (appCostOf DefaultPropertyTypeLS
              ⟨2, "ns-a", "web", [(0, 1000), (1, 0), (2, 0), (3, 0)]⟩).UsedAmount p =
            some ((Float64.div (Float64.ofInt used) prop.UnitPrice).ceilInt64)) ∧
        (∀ p, (DefaultPropertyTypeLS.EnumMap.get? p = none ∨
            ∃ prop, DefaultPropertyTypeLS.EnumMap.get? p = some prop ∧
              prop.UnitPrice.pos = false) →
          NatMap.get? (appCostOf DefaultPropertyTypeLS
            ⟨2, "ns-a", "web", [(0, 1000), (1, 0), (2, 0), (3, 0)]⟩).UsedAmount p = none) ∧
        (appCostOf DefaultPropertyTypeLS
            ⟨2, "ns-a", "web", [(0, 1000), (1, 0), (2, 0), (3, 0)]⟩).Amount =
          wrapInt64 ((appCostOf DefaultPropertyTypeLS
            ⟨2, "ns-a", "web", [(0, 1000), (1, 0), (2, 0), (3, 0)]⟩).UsedAmount.map
              Prod.snd).sum ∧
        (-9223372036854775808 ≤ ((appCostOf DefaultPropertyTypeLS
            ⟨2, "ns-a", "web", [(0, 1000), (1, 0), (2, 0), (3, 0)]⟩).UsedAmount.map
              Prod.snd).sum →
          ((appCostOf DefaultPropertyTypeLS
            ⟨2, "ns-a", "web", [(0, 1000), (1, 0), (2, 0), (3, 0)]⟩).UsedAmount.map
              Prod.snd).sum ≤ 9223372036854775807 →
          (appCostOf DefaultPropertyTypeLS
              ⟨2, "ns-a", "web", [(0, 1000), (1, 0), (2, 0), (3, 0)]⟩).Amount =
            ((appCostOf DefaultPropertyTypeLS
              ⟨2, "ns-a", "web", [(0, 1000), (1, 0), (2, 0), (3, 0)]⟩).UsedAmount.map
                Prod.snd).sum)) :=
  ⟨by decide, by decide, by decide, by decide,
    appCostOf_usedAmount DefaultPropertyTypeLS
      ⟨2, "ns-a", "web", [(0, 1000), (1, 0), (2, 0), (3, 0)]⟩ (by decide)⟩

/-! ## The orders of a run -/

theorem assoc_mem_set {κ α : Type} [BEq κ] [LawfulBEq κ] (m : List (κ × α)) (k : κ) (v : α)
    (p : κ × α)
    (h : p ∈ (if m.any (fun q => q.1 == k) then m.map (fun q => if q.1 == k then (k, v) else q)
      else m ++ [(k, v)])) : p ∈ m ∨ p = (k, v) := by
  split at h
  · obtain ⟨q, hq, rfl⟩ := List.mem_map.mp h
    by_cases hk : (q.1 == k) = true
    · simp [hk]
    · simp [hk, hq]
  · rcases List.mem_append.mp h with h1 | h1
    · exact Or.inl h1
    · exact Or.inr (by simpa using h1)

theorem assoc_keys_set {κ α : Type} [BEq κ] [LawfulBEq κ] (m : List (κ × α)) (k : κ) (v : α) :
    (if m.any (fun q => q.1 == k) then m.map (fun q => if q.1 == k then (k, v) else q)
      else m ++ [(k, v)]).map Prod.fst =
      if m.any (fun q => q.1 == k) then m.map Prod.fst else m.map Prod.fst ++ [k] := by
  split
  · rw [List.map_map]
    apply List.map_congr_left
    intro q _
    by_cases hk : (q.1 == k) = true
    · simp only [Function.comp, hk, if_true]
      exact (eq_of_beq hk).symm
    · simp [Function.comp, hk]
  · simp

theorem assoc_nodup_set {κ α : Type} [BEq κ] [LawfulBEq κ] (m : List (κ × α)) (k : κ) (v : α)
    (h : (m.map Prod.fst).Nodup) :
    ((if m.any (fun q => q.1 == k) then m.map (fun q => if q.1 == k then (k, v) else q)
      else m ++ [(k, v)]).map Prod.fst).Nodup := by
  rw [assoc_keys_set]
  split
  · exact h
  · rename_i hany
    refine List.Nodup.append h (List.nodup_singleton k) ?_
    intro x hx hx2
    rw [List.mem_singleton] at hx2
    subst hx2
    apply hany
    obtain ⟨q, hq, rfl⟩ := List.mem_map.mp hx
    exact List.any_eq_true.mpr ⟨q, hq, by simp⟩

theorem assoc_get?_mem {κ α : Type} [BEq κ] [LawfulBEq κ] (m : List (κ × α)) (k : κ) (v : α)
    (h : (m.find? (fun q => q.1 == k)).map (fun q => q.2) = some v) : (k, v) ∈ m := by
  obtain ⟨q, hq, rfl⟩ := Option.map_eq_some'.mp h
  have h1 := List.find?_some hq
  have h2 := List.mem_of_find?_eq_some hq
  have h3 : q.1 = k := eq_of_beq h1
  rw [← h3]
  exact h2

theorem StrMap.keys_nodup_set {α : Type} (m : StrMap α) (k : String) (v : α)
    (h : (m.map Prod.fst).Nodup) : ((m.set k v).map Prod.fst).Nodup :=
  assoc_nodup_set m k v h

theorem StrMap.entry_of_get? {α : Type} (m : StrMap α) (k : String) (v : α)
    (h : m.get? k = some v) : (k, v) ∈ m :=
  assoc_get?_mem m k v h

theorem NatMap.mem_of_mem_set {α : Type} (m : NatMap α) (k : Nat) (v : α) (p : Nat × α)
    (h : p ∈ NatMap.set m k v) : p ∈ m ∨ p = (k, v) :=
  assoc_mem_set m k v p h

theorem NatMap.enums_nodup_set {α : Type} (m : NatMap α) (k : Nat) (v : α)
    (h : (m.map Prod.fst).Nodup) : ((NatMap.set m k v).map Prod.fst).Nodup :=
  assoc_nodup_set m k v h

theorem NatMap.mem_of_get? {α : Type} (m : NatMap α) (k : Nat) (v : α)
    (h : NatMap.get? m k = some v) : (k, v) ∈ m :=
  assoc_get?_mem m k v h

theorem Database.coll_update (db : Database) (name : String) (f : Collection → Collection)
    (hf : ∀ c, (f c).name = c.name) : (db.update name f).coll name = f (db.coll name) := by
  unfold Database.update Database.coll
  by_cases hany : db.any (fun c => c.name == name) = true
  · rw [if_pos hany]
    induction db with
    | nil => simp at hany
    | cons c cs ih =>
      by_cases hc : (c.name == name) = true
      · simp [List.find?, hc, hf]
      · have hc2 : ((f c).name == name) = false := by simpa [hf] using hc
        simp only [Bool.not_eq_true] at hc
        simp only [List.any_cons, hc, Bool.false_or] at hany
        simp only [List.map_cons, hc, Bool.false_eq_true, if_false, List.find?, hc2]
        exact ih hany
  · rw [if_neg hany]
    have hnone : db.find? (fun c => c.name == name) = none := by
      rw [List.find?_eq_none]
      intro x hx hxn
      exact hany (List.any_eq_true.mpr ⟨x, hx, hxn⟩)
    rw [List.find?_append, hnone]
    simp [List.find?, hf, Collection.empty]

theorem insertOrders_spec (m : MongoDB) (faults : BillingFaults) (nsTypeAmount : StrMap Int)
    (owner : String) (endTime : Time) (gs : List (String × Nat × List AppCost)) :
    ∀ (n : Nat) (db : Database) (orderID : List String) (amount : Int),
    ∃ inserted : List Billing,
      ((insertOrders m faults nsTypeAmount owner endTime gs n db orderID amount).db.coll
          m.BillingConn).billings = (db.coll m.BillingConn).billings ++ inserted ∧
      (inserted.map (fun b => (b.Namespace, b.AppType, b.AppCosts))).Sublist gs ∧
      (∀ b ∈ inserted, b.Type_ = BillingType.Consumption ∧ b.Status = BillingStatus.Settled ∧
        b.Time = endTime ∧ b.Owner = owner ∧
        b.Amount = (nsTypeAmount.get? (b.Namespace ++ Itoa b.AppType)).getD 0 ∧ b.Amount ≠ 0) ∧
      ((insertOrders m faults nsTypeAmount owner endTime gs n db orderID amount).err = none →
        (insertOrders m faults nsTypeAmount owner endTime gs n db orderID amount).orderID =
          orderID ++ inserted.map (fun b => b.OrderID) ∧
        (insertOrders m faults nsTypeAmount owner endTime gs n db orderID amount).amount =
          amount + (inserted.map (fun b => b.Amount)).sum) := by
  induction gs with
  | nil =>
    intro n db orderID amount
    exact ⟨[], by simp [insertOrders], by simp, by simp, by simp [insertOrders]⟩
  | cons g rest ih =>
    obtain ⟨ns, tp, appCost⟩ := g
    intro n db orderID amount
    by_cases h0 : (nsTypeAmount.get? (ns ++ Itoa tp)).getD 0 = 0
    · obtain ⟨ins, h1, h2, h3, h4⟩ := ih n db orderID amount
      refine ⟨ins, ?_, ?_, h3, ?_⟩
      · simp only [insertOrders, h0, if_true]
        exact h1
      · exact List.Sublist.cons _ h2
      · simp only [insertOrders, h0, if_true]
        exact h4
    · cases hid : faults.newID n with
      | error e =>
        exact ⟨[], by simp [insertOrders, h0, hid], by simp, by simp,
          by simp [insertOrders, h0, hid]⟩
      | ok id =>
        cases hins : faults.insertErr
            (orderOf id ns tp appCost ((nsTypeAmount.get? (ns ++ Itoa tp)).getD 0) owner endTime) with
        | some e =>
          simp only [orderOf] at hins
          exact ⟨[], by simp [insertOrders, h0, hid, hins], by simp, by simp,
            by simp [insertOrders, h0, hid, hins]⟩
        | none =>
          simp only [orderOf] at hins
          obtain ⟨ins, h1, h2, h3, h4⟩ := ih (n + 1)
            (db.update m.BillingConn (fun c => { c with billings := c.billings ++
              [orderOf id ns tp appCost ((nsTypeAmount.get? (ns ++ Itoa tp)).getD 0) owner
                endTime] }))
            (orderID ++ [id]) (amount + (nsTypeAmount.get? (ns ++ Itoa tp)).getD 0)
          have hc := Database.coll_update db m.BillingConn
            (fun c => { c with billings := c.billings ++
              [orderOf id ns tp appCost ((nsTypeAmount.get? (ns ++ Itoa tp)).getD 0) owner
                endTime] })
            (fun c => rfl)
          rw [hc] at h1
          simp only [orderOf] at h1 h4
          refine ⟨orderOf id ns tp appCost ((nsTypeAmount.get? (ns ++ Itoa tp)).getD 0) owner
            endTime :: ins, ?_, ?_, ?_, ?_⟩
          · simp only [insertOrders, h0, if_false, hid, hins, orderOf]
            rw [h1]
            simp
          · simp only [List.map_cons]
            exact List.Sublist.cons₂ _ h2
          · intro b hb
            rcases List.mem_cons.mp hb with rfl | hb
            · exact ⟨rfl, rfl, rfl, rfl, rfl, h0⟩
            · exact h3 b hb
          · simp only [insertOrders, h0, if_false, hid, hins, orderOf]
            intro herr
            obtain ⟨h5, h6⟩ := h4 herr
            rw [h5, h6]
            simp only [List.map_cons, List.sum_cons, List.append_assoc, List.singleton_append,
              true_and]
            omega

theorem billingStep_inv (prols : PropertyTypeLS) (rows : List UsageRow) (s : BillingScan)
    (row : UsageRow) (hrow : row ∈ rows) (h : ScanInv prols rows s) :
    ScanInv prols rows (billingStep prols s row) := by
  obtain ⟨hk, hv⟩ := h
  -- the types kept for the namespace of the row
  have h0 : (((s.appCostsMap.get? row.Namespace).getD []).map Prod.fst).Nodup ∧
      ∀ tpCosts ∈ (s.appCostsMap.get? row.Namespace).getD [], ∀ c ∈ tpCosts.2,
        ∃ r ∈ rows, r.Namespace = row.Namespace ∧ r.Type_ = tpCosts.1 ∧
          c = appCostOf prols r := by
    cases hg : s.appCostsMap.get? row.Namespace with
    | none => simp
    | some v => exact hv _ (StrMap.entry_of_get? _ _ _ hg)
  -- the same after the type of the row is entered
  have h1 : ∀ byType : NatMap (List AppCost),
      (byType = (s.appCostsMap.get? row.Namespace).getD [] ∨
        byType = NatMap.set ((s.appCostsMap.get? row.Namespace).getD []) row.Type_ []) →
      (byType.map Prod.fst).Nodup ∧
      ∀ tpCosts ∈ byType, ∀ c ∈ tpCosts.2,
        ∃ r ∈ rows, r.Namespace = row.Namespace ∧ r.Type_ = tpCosts.1 ∧
          c = appCostOf prols r := by
    intro byType hb
    rcases hb with hb | hb
    · subst hb
      exact h0
    · subst hb
      refine ⟨NatMap.enums_nodup_set _ _ _ h0.1, ?_⟩
      intro tpCosts htc c hc
      rcases NatMap.mem_of_mem_set _ _ _ _ htc with h2 | h2
      · exact h0.2 _ h2 c hc
      · subst h2
        simp at hc
  -- the two outcomes of a turn, for either value of `byType`
  have h2 : ∀ byType : NatMap (List AppCost),
      ((byType.map Prod.fst).Nodup ∧
      ∀ tpCosts ∈ byType, ∀ c ∈ tpCosts.2,
        ∃ r ∈ rows, r.Namespace = row.Namespace ∧ r.Type_ = tpCosts.1 ∧
          c = appCostOf prols r) →
      ScanInv prols rows
        (if (appCostOf prols row).Amount = 0 then
          { s with appCostsMap := s.appCostsMap.set row.Namespace byType }
        else
          { appCostsMap := s.appCostsMap.set row.Namespace
              (NatMap.set byType row.Type_
                ((NatMap.get? byType row.Type_).getD [] ++ [appCostOf prols row])),
            nsTypeAmount := s.nsTypeAmount.set (row.Namespace ++ Itoa row.Type_)
              ((s.nsTypeAmount.get? (row.Namespace ++ Itoa row.Type_)).getD 0 +
                (appCostOf prols row).Amount) }) := by
    intro byType hb
    obtain ⟨hb1, hb2⟩ := hb
    split
    · refine ⟨StrMap.keys_nodup_set _ _ _ hk, ?_⟩
      intro nsTypes hmem
      rcases StrMap.mem_set _ _ _ _ hmem with h2 | h2
      · exact hv _ h2
      · subst h2
        exact ⟨hb1, hb2⟩
    · refine ⟨StrMap.keys_nodup_set _ _ _ hk, ?_⟩
      intro nsTypes hmem
      rcases StrMap.mem_set _ _ _ _ hmem with h2 | h2
      · exact hv _ h2
      · subst h2
        refine ⟨NatMap.enums_nodup_set _ _ _ hb1, ?_⟩
        intro tpCosts htc c hc
        rcases NatMap.mem_of_mem_set _ _ _ _ htc with h3 | h3
        · exact hb2 _ h3 c hc
        · subst h3
          rcases List.mem_append.mp hc with h4 | h4
          · cases hg : NatMap.get? byType row.Type_ with
            | none => simp [hg] at h4
            | some old =>
              simp only [hg, Option.getD_some] at h4
              exact hb2 _ (NatMap.mem_of_get? _ _ _ hg) c h4
          · simp only [List.mem_singleton] at h4
            exact ⟨row, hrow, rfl, rfl, h4⟩
  cases hg0 : NatMap.get? ((s.appCostsMap.get? row.Namespace).getD []) row.Type_ with
  | some old =>
    have := h2 _ (h1 _ (Or.inl rfl))
    simpa only [billingStep, hg0] using this
  | none =>
    have := h2 _ (h1 _ (Or.inr rfl))
    simpa only [billingStep, hg0] using this

theorem scan_inv (prols : PropertyTypeLS) (rows : List UsageRow) :
    ScanInv prols rows
      (rows.foldl (billingStep prols) { appCostsMap := [], nsTypeAmount := [] }) := by
  have key : ∀ (l : List UsageRow) (s : BillingScan), (∀ r ∈ l, r ∈ rows) →
      ScanInv prols rows s → ScanInv prols rows (l.foldl (billingStep prols) s) := by
    intro l
    induction l with
    | nil => intro s _ hs; exact hs
    | cons r l ih =>
      intro s hl hs
      exact ih _ (fun x hx => hl x (List.mem_cons_of_mem _ hx))
        (billingStep_inv prols rows s r (hl r (List.mem_cons_self _ _)) hs)
  exact key rows _ (fun r hr => hr) ⟨by simp, by simp⟩

theorem groups_pairs_nodup (ac : StrMap (NatMap (List AppCost)))
    (hk : (ac.map Prod.fst).Nodup) (hv : ∀ nsTypes ∈ ac, (nsTypes.2.map Prod.fst).Nodup) :
    ((ac.flatMap (fun nsTypes => nsTypes.2.map (fun tpCosts => (nsTypes.1, tpCosts)))).map
      (fun g => (g.1, g.2.1))).Nodup := by
  induction ac with
  | nil => simp
  | cons a rest ih =>
    rw [List.map_cons, List.nodup_cons] at hk
    have ih2 := ih hk.2 (fun x hx => hv x (List.mem_cons_of_mem _ hx))
    rw [List.flatMap_cons, List.map_append]
    refine List.Nodup.append ?_ ih2 ?_
    · rw [List.map_map]
      have ha := hv a (List.mem_cons_self _ _)
      have : (List.map ((fun g : String × Nat × List AppCost => (g.1, g.2.1)) ∘
          fun tpCosts => (a.1, tpCosts)) a.2) = (a.2.map Prod.fst).map (fun t => (a.1, t)) := by
        rw [List.map_map]
        rfl
      rw [this]
      exact ha.map (fun x y hxy => by simpa using hxy)
    · intro p hp1 hp2
      simp only [List.mem_map, List.mem_flatMap] at hp1 hp2
      obtain ⟨g1, ⟨t1, _, rfl⟩, rfl⟩ := hp1
      obtain ⟨g2, ⟨b, hb, t2, _, rfl⟩, h⟩ := hp2
      simp only [Prod.mk.injEq] at h
      apply hk.1
      rw [← h.1]
      exact List.mem_map.mpr ⟨b, hb, rfl⟩

theorem ScanInv.groups_nodup {prols : PropertyTypeLS} {rows : List UsageRow} {s : BillingScan}
    (h : ScanInv prols rows s) : (s.groups.map (fun g => (g.1, g.2.1))).Nodup :=
  groups_pairs_nodup s.appCostsMap h.1 (fun x hx => (h.2 x hx).1)

theorem ScanInv.groups_rows {prols : PropertyTypeLS} {rows : List UsageRow} {s : BillingScan}
    (h : ScanInv prols rows s) (g : String × Nat × List AppCost) (hg : g ∈ s.groups) :
    ∀ c ∈ g.2.2, ∃ row ∈ rows, row.Namespace = g.1 ∧ row.Type_ = g.2.1 ∧
      c = appCostOf prols row := by
  unfold BillingScan.groups at hg
  simp only [List.mem_flatMap, List.mem_map] at hg
  obtain ⟨a, ha, t, ht, rfl⟩ := hg
  exact (h.2 a ha).2 t ht

/-- C11: when `GenerateBillingData` succeeds, the orders it has added to the billing
collection are inserted one after the other, the returned list holds their order ids, one
for each and in that order, and the returned amount is the sum of their amounts; when it
has added none, the list is empty and the amount is 0. -/
theorem GenerateBillingData_returns (m : MongoDB) (faults : BillingFaults)
    (startTime endTime : Time) (prols : PropertyTypeLS) (namespaces : List String)
    (owner : String) (db : Database)
    (hok : (m.GenerateBillingData faults startTime endTime prols namespaces owner db).err =
      none) :
    ∃ inserted : List Billing,
      ((m.GenerateBillingData faults startTime endTime prols namespaces owner db).db.coll
          m.BillingConn).billings = (db.coll m.BillingConn).billings ++ inserted ∧
      (m.GenerateBillingData faults startTime endTime prols namespaces owner db).orderID =
        inserted.map (fun b => b.OrderID) ∧
      (m.GenerateBillingData faults startTime endTime prols namespaces owner db).amount =
        (inserted.map (fun b => b.Amount)).sum ∧
      (inserted = [] →
        (m.GenerateBillingData faults startTime endTime prols namespaces owner db).orderID = [] ∧
        (m.GenerateBillingData faults startTime endTime prols namespaces owner db).amount = 0) := by
  unfold MongoDB.GenerateBillingData at hok ⊢
  cases hagg : faults.aggregateErr with
  | some e => simp [hagg] at hok
  | none =>
    simp only [hagg] at hok ⊢
    obtain ⟨inserted, h1, _, _, h4⟩ := insertOrders_spec m faults
      ((m.billingRows db startTime endTime prols namespaces).foldl (billingStep prols)
        { appCostsMap := [], nsTypeAmount := [] }).nsTypeAmount owner endTime
      ((m.billingRows db startTime endTime prols namespaces).foldl (billingStep prols)
        { appCostsMap := [], nsTypeAmount := [] }).groups 0 db [] 0
    obtain ⟨h5, h6⟩ := h4 hok
    refine ⟨inserted, h1, by simpa using h5, by simpa using h6, ?_⟩
    intro hnil
    subst hnil
    exact ⟨by simpa using h5, by simpa using h6⟩

/-- C11 on scenario S4: three samples of 20000 of cpu in the hour give the used value 1000;
the run succeeds, adds one order and returns its id and the amount 447. -/
theorem GenerateBillingData_returns_witness :
    (defaultMongoDB.GenerateBillingData BillingFaults.none noon onePm DefaultPropertyTypeLS
        ["ns-a"] "owner" (monitorOnly (cpuSamples 3 60000000000 20000))).err = none ∧
      (defaultMongoDB.GenerateBillingData BillingFaults.none noon onePm DefaultPropertyTypeLS
        ["ns-a"] "owner" (monitorOnly (cpuSamples 3 60000000000 20000))).orderID = ["id0"] ∧
      (defaultMongoDB.GenerateBillingData BillingFaults.none noon onePm DefaultPropertyTypeLS
        ["ns-a"] "owner" (monitorOnly (cpuSamples 3 60000000000 20000))).amount = 447 ∧
      ∃ inserted : List Billing,
        ((defaultMongoDB.GenerateBillingData BillingFaults.none noon onePm
            DefaultPropertyTypeLS ["ns-a"] "owner"
            (monitorOnly (cpuSamples 3 60000000000 20000))).db.coll
              defaultMongoDB.BillingConn).billings =
          ((monitorOnly (cpuSamples 3 60000000000 20000)).coll
            defaultMongoDB.BillingConn).billings ++ inserted ∧
        (defaultMongoDB.GenerateBillingData BillingFaults.none noon onePm DefaultPropertyTypeLS
          ["ns-a"] "owner" (monitorOnly (cpuSamples 3 60000000000 20000))).orderID =
          inserted.map (fun b => b.OrderID) ∧
        (defaultMongoDB.GenerateBillingData BillingFaults.none noon onePm DefaultPropertyTypeLS
          ["ns-a"] "owner" (monitorOnly (cpuSamples 3 60000000000 20000))).amount =
          (inserted.map (fun b => b.Amount)).sum ∧
        (inserted = [] →
          (defaultMongoDB.GenerateBillingData BillingFaults.none noon onePm
            DefaultPropertyTypeLS ["ns-a"] "owner"
            (monitorOnly (cpuSamples 3 60000000000 20000))).orderID = [] ∧
          (defaultMongoDB.GenerateBillingData BillingFaults.none noon onePm
            DefaultPropertyTypeLS ["ns-a"] "owner"
            (monitorOnly (cpuSamples 3 60000000000 20000))).amount = 0) :=
  ⟨by decide, by decide, by decide,
    GenerateBillingData_returns defaultMongoDB BillingFaults.none noon onePm
      DefaultPropertyTypeLS ["ns-a"] "owner" (monitorOnly (cpuSamples 3 60000000000 20000))
      (by decide)⟩

/-- C12: every order that `GenerateBillingData(t0, t1, registry, namespaces, owner)` adds
to the billing collection has the type `Consumption`, the status `Settled`, the time `t1`
and the given owner, and each of its app costs is the app cost of a usage row whose
category and type are the namespace and app type of the order; no two of the orders added
have the same namespace and app type. -/
theorem GenerateBillingData_order_fields (m : MongoDB) (faults : BillingFaults)
    (startTime endTime : Time) (prols : PropertyTypeLS) (namespaces : List String)
    (owner : String) (db : Database) :
    ∃ inserted : List Billing,
      ((m.GenerateBillingData faults startTime endTime prols namespaces owner db).db.coll
          m.BillingConn).billings = (db.coll m.BillingConn).billings ++ inserted ∧
      (∀ b ∈ inserted, b.Type_ = BillingType.Consumption ∧ b.Status = BillingStatus.Settled ∧
        b.Time = endTime ∧ b.Owner = owner ∧
        ∀ c ∈ b.AppCosts, ∃ row ∈ m.billingRows db startTime endTime prols namespaces,
          row.Namespace = b.Namespace ∧ row.Type_ = b.AppType ∧ c = appCostOf prols row) ∧
      (inserted.map (fun b => (b.Namespace, b.AppType))).Nodup := by
  unfold MongoDB.GenerateBillingData
  cases hagg : faults.aggregateErr with
  | some e => exact ⟨[], by simp, by simp, by simp⟩
  | none =>
    simp only
    have hinv := scan_inv prols (m.billingRows db startTime endTime prols namespaces)
    obtain ⟨inserted, h1, h2, h3, _⟩ := insertOrders_spec m faults
      ((m.billingRows db startTime endTime prols namespaces).foldl (billingStep prols)
        { appCostsMap := [], nsTypeAmount := [] }).nsTypeAmount owner endTime
      ((m.billingRows db startTime endTime prols namespaces).foldl (billingStep prols)
        { appCostsMap := [], nsTypeAmount := [] }).groups 0 db [] 0
    refine ⟨inserted, h1, ?_, ?_⟩
    · intro b hb
      obtain ⟨t1, t2, t3, t4, _, _⟩ := h3 b hb
      refine ⟨t1, t2, t3, t4, ?_⟩
      have hg : (b.Namespace, b.AppType, b.AppCosts) ∈
          ((m.billingRows db startTime endTime prols namespaces).foldl (billingStep prols)
            { appCostsMap := [], nsTypeAmount := [] }).groups :=
        h2.subset (List.mem_map.mpr ⟨b, hb, rfl⟩)
      exact hinv.groups_rows _ hg
    · have h5 := (h2.map (fun g : String × Nat × List AppCost => (g.1, g.2.1)))
      rw [List.map_map] at h5
      exact hinv.groups_nodup.sublist h5

/-! ## Range queries -/

theorem insertByTime_perm (rank : Billing → Int) (b : Billing) (l : List Billing) :
    (insertByTime rank b l).Perm (b :: l) := by
  induction l with
  | nil => exact List.Perm.refl _
  | cons c cs ih =>
    unfold insertByTime
    split
    · exact ((List.Perm.cons c ih).trans (List.Perm.swap b c cs))
    · exact List.Perm.refl _

theorem sortByTimeDesc_perm (rank : Billing → Int) (l : List Billing) :
    (sortByTimeDesc rank l).Perm l := by
  induction l with
  | nil => exact List.Perm.refl _
  | cons b bs ih =>
    unfold sortByTimeDesc
    exact (insertByTime_perm rank b _).trans (List.Perm.cons b ih)

theorem insertByTime_sorted (rank : Billing → Int) (b : Billing) (l : List Billing)
    (h : l.Pairwise (fun x y => y.Time.unixNano ≤ x.Time.unixNano)) :
    (insertByTime rank b l).Pairwise (fun x y => y.Time.unixNano ≤ x.Time.unixNano) := by
  induction l with
  | nil => simp [insertByTime]
  | cons c cs ih =>
    rw [List.pairwise_cons] at h
    unfold insertByTime
    split
    · rename_i hlt
      have hle : b.Time.unixNano ≤ c.Time.unixNano := by
        simp only [Time.Before, Time.Equal, Bool.or_eq_true, Bool.and_eq_true,
          decide_eq_true_eq] at hlt
        rcases hlt with h1 | ⟨h1, _⟩ <;> omega
      rw [List.pairwise_cons]
      refine ⟨?_, ih h.2⟩
      intro y hy
      rcases List.mem_cons.mp ((insertByTime_perm rank b cs).subset hy) with rfl | hy2
      · exact hle
      · exact h.1 y hy2
    · rename_i hlt
      have hle : c.Time.unixNano ≤ b.Time.unixNano := by
        simp only [Time.Before, Time.Equal, Bool.or_eq_true, Bool.and_eq_true,
          decide_eq_true_eq, not_or, not_lt] at hlt
        exact hlt.1
      rw [List.pairwise_cons]
      refine ⟨?_, List.pairwise_cons.mpr h⟩
      intro y hy
      rcases List.mem_cons.mp hy with rfl | hy2
      · exact hle
      · have := h.1 y hy2
        omega

theorem sortByTimeDesc_sorted (rank : Billing → Int) (l : List Billing) :
    (sortByTimeDesc rank l).Pairwise (fun x y => y.Time.unixNano ≤ x.Time.unixNano) := by
  induction l with
  | nil => simp [sortByTimeDesc]
  | cons b bs ih =>
    unfold sortByTimeDesc
    exact insertByTime_sorted rank b _ ih

/-- The sort of orders whose times are pairwise distinct is strictly decreasing in time. -/
theorem sortByTimeDesc_strict (rank : Billing → Int) (l : List Billing)
    (h : (l.map (fun b => b.Time.unixNano)).Nodup) :
    (sortByTimeDesc rank l).Pairwise (fun x y => y.Time.unixNano < x.Time.unixNano) := by
  have hnodup : ((sortByTimeDesc rank l).map (fun b => b.Time.unixNano)).Nodup :=
    ((sortByTimeDesc_perm rank l).map _).nodup_iff.mpr h
  have hne : (sortByTimeDesc rank l).Pairwise
      (fun x y => x.Time.unixNano ≠ y.Time.unixNano) := by
    rw [List.Nodup, List.pairwise_map] at hnodup
    exact hnodup
  exact ((sortByTimeDesc_sorted rank l).and hne).imp (fun h => by omega)

/-- Orders whose times are pairwise distinct have one order by time: the sort gives the
same list whatever order the store gives to documents of equal time. -/
theorem sortByTimeDesc_unique (rank rank2 : Billing → Int) (l : List Billing)
    (h : (l.map (fun b => b.Time.unixNano)).Nodup) :
    sortByTimeDesc rank l = sortByTimeDesc rank2 l := by
  haveI : IsAntisymm Billing (fun x y => y.Time.unixNano < x.Time.unixNano) :=
    ⟨fun a b h1 h2 => by omega⟩
  exact List.eq_of_perm_of_sorted
    ((sortByTimeDesc_perm rank l).trans (sortByTimeDesc_perm rank2 l).symm)
    (sortByTimeDesc_strict rank l h) (sortByTimeDesc_strict rank2 l h)

/-- The pages of a list, one after the other, give the list. -/
theorem pages_concat {α : Type} (P : Nat) (n : Nat) :
    ∀ l : List α, l.length ≤ n * P →
      (List.range n).flatMap (fun i => (l.drop (i * P)).take P) = l := by
  induction n with
  | zero =>
    intro l hl
    simp only [Nat.zero_mul, Nat.le_zero_eq, List.length_eq_zero] at hl
    subst hl
    simp
  | succ n ih =>
    intro l hl
    rw [List.range_succ_eq_map, List.flatMap_cons, List.flatMap_map]
    simp only [Nat.zero_mul, List.drop_zero]
    have h2 : (List.range n).flatMap (fun i => ((l.drop P).drop (i * P)).take P) = l.drop P := by
      apply ih
      rw [List.length_drop]
      have : (n + 1) * P = n * P + P := by ring
      omega
    have h3 : (List.range n).flatMap (fun a => (l.drop (a.succ * P)).take P) =
        (List.range n).flatMap (fun i => ((l.drop P).drop (i * P)).take P) := by
      congr 1
      funext i
      simp only [List.drop_drop]
      congr 2
      rw [Nat.succ_mul]
      omega
    rw [h3, h2, List.take_append_drop]

theorem length_le_pages (N P : Nat) (hP : 1 ≤ P) : N ≤ (N + P - 1) / P * P := by
  have h1 := Nat.div_add_mod (N + P - 1) P
  have h2 := Nat.mod_lt (N + P - 1) (show 0 < P by omega)
  have h3 : (N + P - 1) / P * P = P * ((N + P - 1) / P) := Nat.mul_comm _ _
  omega

theorem countPipeline_total (spec : BillingRecordQuerySpec) (owner : String)
    (docs : List Billing) :
    (countPipeline spec owner docs).foldl (fun _ result => result) 0 =
      ((docs.filter (matchStage spec owner)).length : Int) := by
  unfold countPipeline
  cases h : docs.filter (matchStage spec owner) with
  | nil => simp
  | cons a l => simp

theorem ceilDiv_eq (N P : Int) (hN : 0 ≤ N) (hP : 1 ≤ P) :
    (N + P - 1).tdiv P = ceilDiv N P := by
  rw [Int.tdiv_eq_ediv (by omega) (by omega)]
  unfold ceilDiv
  have h1 := Int.emod_add_ediv (N + P - 1) P
  have h2 := Int.emod_nonneg (N + P - 1) (show P ≠ 0 by omega)
  have h3 := Int.emod_lt_of_pos (N + P - 1) (show 0 < P by omega)
  have h4 : (-N) / P = -((N + P - 1) / P) ∧ (-N) % P = P - 1 - (N + P - 1) % P := by
    rw [Int.ediv_emod_unique (show 0 < P by omega)]
    refine ⟨?_, by omega, by omega⟩
    rw [mul_neg]
    omega
  rw [h4.1]
  omega

/-- What a range query gives when no aggregation fails and the skip is not negative: no
error, as items the page of the matching orders sorted by time, the count of the matching
orders, the number of pages, the total of the recharge rows and the totals of the deduction
rows. -/
theorem QueryBillingRecords_range (m : MongoDB) (reg : PropertyTypeLS) (faults : QueryFaults)
    (query : BillingRecordQuery) (owner : String) (db : Database)
    (hid : query.Spec.OrderID = "") (howner : owner ≠ "")
    (hf : faults.pageErr = none ∧ faults.countErr = none ∧ faults.deductionErr = none ∧
      faults.rechargeErr = none)
    (hpage : 0 ≤ wrapInt64 ((query.Spec.Page - 1) * query.Spec.PageSize))
    (hsize : 1 ≤ query.Spec.PageSize) :
    (m.QueryBillingRecords reg faults query owner db).2 = none ∧
    (m.QueryBillingRecords reg faults query owner db).1.Spec = query.Spec ∧
    (m.QueryBillingRecords reg faults query owner db).1.Status.Items =
      (((sortByTimeDesc faults.tieRank ((db.coll m.BillingConn).billings.filter
          (matchStage query.Spec owner))).drop
        (wrapInt64 ((query.Spec.Page - 1) * query.Spec.PageSize)).toNat).take
          query.Spec.PageSize.toNat).map (rangeItem reg) ∧
    (m.QueryBillingRecords reg faults query owner db).1.Status.TotalCount =
      (((db.coll m.BillingConn).billings.filter (matchStage query.Spec owner)).length : Int) ∧
    (m.QueryBillingRecords reg faults query owner db).1.Status.PageLength =
      (if ((db.coll m.BillingConn).billings.filter (matchStage query.Spec owner)).length = 0
        then 1
        else (wrapInt64
          ((((db.coll m.BillingConn).billings.filter (matchStage query.Spec owner)).length : Int)
            + query.Spec.PageSize - 1)).tdiv query.Spec.PageSize) ∧
    (m.QueryBillingRecords reg faults query owner db).1.Status.RechargeAmount =
      (rechargePipeline query.Spec owner (db.coll m.BillingConn).billings).foldl
        (fun _ result => result) 0 ∧
    (m.QueryBillingRecords reg faults query owner db).1.Status.DeductionAmount =
      deductionTotals (deductionPipeline query.Spec owner (db.coll m.BillingConn).billings) := by
  have hskip : ¬ wrapInt64 ((query.Spec.Page - 1) * query.Spec.PageSize) < 0 := by omega
  have hlim : ¬ query.Spec.PageSize ≤ 0 := by omega
  have hown : (owner == "") = false := by simpa using howner
  unfold MongoDB.QueryBillingRecords
  simp only [hid, bne_self_eq_false, Bool.false_eq_true, if_false, hown, hf.1, hf.2.1,
    hf.2.2.1, hf.2.2.2, pagePipeline, hskip, hlim, countPipeline_total]
  by_cases hN : ((db.coll m.BillingConn).billings.filter (matchStage query.Spec owner)).length = 0
  · have hnil : (db.coll m.BillingConn).billings.filter (matchStage query.Spec owner) = [] :=
      List.length_eq_zero.mp hN
    simp [hnil, sortByTimeDesc]
  · have hne : ¬ (((db.coll m.BillingConn).billings.filter
        (matchStage query.Spec owner)).length : Int) = 0 := by omega
    simp only [beq_iff_eq, hne, if_false, hN, true_and]

/-- A range query that returns no error was given an owner, a skip that is not negative
and a page size of at least 1, and no aggregation failed. -/
theorem QueryBillingRecords_ok (m : MongoDB) (reg : PropertyTypeLS) (faults : QueryFaults)
    (query : BillingRecordQuery) (owner : String) (db : Database)
    (hid : query.Spec.OrderID = "")
    (hok : (m.QueryBillingRecords reg faults query owner db).2 = none) :
    owner ≠ "" ∧ 0 ≤ wrapInt64 ((query.Spec.Page - 1) * query.Spec.PageSize) ∧
    1 ≤ query.Spec.PageSize ∧
    (faults.pageErr = none ∧ faults.countErr = none ∧ faults.deductionErr = none ∧
      faults.rechargeErr = none) := by
  unfold MongoDB.QueryBillingRecords at hok
  simp only [hid, bne_self_eq_false, Bool.false_eq_true, if_false] at hok
  by_cases hown : (owner == "") = true
  · simp [hown] at hok
  simp only [hown, if_false] at hok
  cases h1 : faults.pageErr with
  | some e => simp [h1] at hok
  | none =>
    simp only [h1, pagePipeline] at hok
    by_cases hskip : wrapInt64 ((query.Spec.Page - 1) * query.Spec.PageSize) < 0
    · simp [hskip] at hok
    by_cases hlim : query.Spec.PageSize ≤ 0
    · simp [hskip, hlim] at hok
    simp only [hskip, hlim, if_false] at hok
    cases h2 : faults.countErr with
    | some e => simp [h2] at hok
    | none =>
      simp only [h2] at hok
      cases h3 : faults.deductionErr with
      | some e => simp [h3] at hok
      | none =>
        simp only [h3] at hok
        cases h4 : faults.rechargeErr with
        | some e => simp [h4] at hok
        | none =>
          exact ⟨by simpa using hown, by omega, by omega, rfl, rfl, rfl, rfl⟩

/-- C13 as the spec states it fails on orders of equal time: the recharges `a` and `b` of
the owner are both at noon and both match; with the page size 1, page 1 returns `a` in a
run in which the store sorts `a` before `b`, and page 2 returns `a` again in a run in which
it sorts `b` before `a`. Both runs succeed, `a` is returned twice and `b` never. -/
theorem QueryBillingRecords_pages_equal_times :
    ((billingOnly twins).coll defaultMongoDB.BillingConn).billings.filter
        (matchStage (hourQuery 1 1).Spec "owner") = twins ∧
      twins.map (fun b => (b.OrderID, b.Time)) = [("a", noon), ("b", noon)] ∧
      (sortByTimeDesc QueryFaults.none.tieRank twins).map (fun b => b.OrderID) = ["a", "b"] ∧
      (sortByTimeDesc rankLast twins).map (fun b => b.OrderID) = ["b", "a"] ∧
      (defaultMongoDB.QueryBillingRecords DefaultPropertyTypeLS QueryFaults.none
        (pageQuery (hourQuery 1 1) 1) "owner" (billingOnly twins)).2 = none ∧
      (defaultMongoDB.QueryBillingRecords DefaultPropertyTypeLS QueryFaults.none
        (pageQuery (hourQuery 1 1) 1) "owner"
        (billingOnly twins)).1.Status.Items.map (fun i => i.OrderID) = ["a"] ∧
      (defaultMongoDB.QueryBillingRecords DefaultPropertyTypeLS
        { QueryFaults.none with tieRank := rankLast }
        (pageQuery (hourQuery 1 1) 2) "owner" (billingOnly twins)).2 = none ∧
      (defaultMongoDB.QueryBillingRecords DefaultPropertyTypeLS
        { QueryFaults.none with tieRank := rankLast }
        (pageQuery (hourQuery 1 1) 2) "owner"
        (billingOnly twins)).1.Status.Items.map (fun i => i.OrderID) = ["a"] :=
  ⟨by decide, by decide, by decide, by decide, by decide, by decide, by decide, by decide⟩

/-- C13, amended: for a store, an owner and a range query with page size `P >= 1` whose
`N` matching orders have times that are pairwise distinct to the millisecond, with `N` in
the range of `int`: the matching orders sorted by time are a rearrangement of them in
decreasing order of time; every page `k` from 1 to `ceil(N/P)`, whatever order the store
gives to documents of equal time in the run of the page, succeeds when no aggregation
fails and returns the items of the orders ranked `(k-1)*P+1` to `min(k*P, N)`; and the
items of the pages 1 to `ceil(N/P)`, one after the other, are the items of all of them,
each once. -/
theorem QueryBillingRecords_pages (m : MongoDB) (reg : PropertyTypeLS)
    (faults : Nat → QueryFaults) (query : BillingRecordQuery) (owner : String)
    (db : Database) (P : Nat)
    (hid : query.Spec.OrderID = "") (howner : owner ≠ "") (hP : 1 ≤ P)
    (hsize : query.Spec.PageSize = P)
    (hfaults : ∀ k, (faults k).pageErr = none ∧ (faults k).countErr = none ∧
      (faults k).deductionErr = none ∧ (faults k).rechargeErr = none)
    (hint : (((db.coll m.BillingConn).billings.filter
      (matchStage query.Spec owner)).length : Int) ≤ 9223372036854775807)
    (htimes : (((db.coll m.BillingConn).billings.filter (matchStage query.Spec owner)).map
      (fun b => b.Time.unixNano / 1000000)).Nodup) :
    (sortByTimeDesc (fun _ => 0) ((db.coll m.BillingConn).billings.filter
        (matchStage query.Spec owner))).Perm
      ((db.coll m.BillingConn).billings.filter (matchStage query.Spec owner)) ∧
    (sortByTimeDesc (fun _ => 0) ((db.coll m.BillingConn).billings.filter
        (matchStage query.Spec owner))).Pairwise
      (fun x y => y.Time.unixNano < x.Time.unixNano) ∧
    (∀ k : Nat, 1 ≤ k →
      k ≤ (((db.coll m.BillingConn).billings.filter
        (matchStage query.Spec owner)).length + P - 1) / P →
      (m.QueryBillingRecords reg (faults k) (pageQuery query k) owner db).2 = none ∧
      (m.QueryBillingRecords reg (faults k) (pageQuery query k) owner db).1.Status.Items =
        (((sortByTimeDesc (fun _ => 0) ((db.coll m.BillingConn).billings.filter
          (matchStage query.Spec owner))).drop ((k - 1) * P)).take P).map (rangeItem reg)) ∧
    (List.range ((((db.coll m.BillingConn).billings.filter
        (matchStage query.Spec owner)).length + P - 1) / P)).flatMap
      (fun i => (m.QueryBillingRecords reg (faults (i + 1))
        (pageQuery query (i + 1)) owner db).1.Status.Items) =
      (sortByTimeDesc (fun _ => 0) ((db.coll m.BillingConn).billings.filter
        (matchStage query.Spec owner))).map (rangeItem reg) := by
  have hnodup : (((db.coll m.BillingConn).billings.filter (matchStage query.Spec owner)).map
      (fun b => b.Time.unixNano)).Nodup := by
    have h1 : ((((db.coll m.BillingConn).billings.filter (matchStage query.Spec owner)).map
        (fun b => b.Time.unixNano)).map (fun t => t / 1000000)).Nodup := by
      rw [List.map_map]
      exact htimes
    exact List.Nodup.of_map _ h1
  have hpages : ∀ k : Nat, 1 ≤ k →
      k ≤ (((db.coll m.BillingConn).billings.filter
        (matchStage query.Spec owner)).length + P - 1) / P →
      (m.QueryBillingRecords reg (faults k) (pageQuery query k) owner db).2 = none ∧
      (m.QueryBillingRecords reg (faults k) (pageQuery query k) owner db).1.Status.Items =
        (((sortByTimeDesc (fun _ => 0) ((db.coll m.BillingConn).billings.filter
          (matchStage query.Spec owner))).drop ((k - 1) * P)).take P).map (rangeItem reg) := by
    intro k hk hkN
    have h1 : k * P ≤ ((db.coll m.BillingConn).billings.filter
        (matchStage query.Spec owner)).length + P - 1 :=
      (Nat.le_div_iff_mul_le (by omega)).mp hkN
    have h2 : (k - 1) * P + P = k * P := by
      rw [← Nat.succ_mul, Nat.succ_eq_add_one, Nat.sub_add_cancel hk]
    have hcast : ((k : Int) - 1) * (P : Int) = (((k - 1) * P : Nat) : Int) := by
      push_cast [Nat.cast_sub hk]
      ring
    have hwrap : wrapInt64 (((pageQuery query k).Spec.Page - 1) *
        (pageQuery query k).Spec.PageSize) = (((k - 1) * P : Nat) : Int) := by
      show wrapInt64 (((k : Int) - 1) * query.Spec.PageSize) = _
      rw [hsize, hcast]
      apply wrapInt64_of_range <;> omega
    obtain ⟨h3, _, h5, _⟩ := QueryBillingRecords_range m reg (faults k)
      (pageQuery query k) owner db hid howner (hfaults k)
      (by rw [hwrap]; exact Int.natCast_nonneg _)
      (show 1 ≤ query.Spec.PageSize by omega)
    refine ⟨h3, ?_⟩
    rw [h5, hwrap, Int.toNat_ofNat]
    show (((sortByTimeDesc (faults k).tieRank ((db.coll m.BillingConn).billings.filter
      (matchStage query.Spec owner))).drop ((k - 1) * P)).take
        query.Spec.PageSize.toNat).map (rangeItem reg) = _
    rw [hsize, Int.toNat_ofNat, sortByTimeDesc_unique (faults k).tieRank (fun _ => 0) _ hnodup]
  refine ⟨sortByTimeDesc_perm _ _, sortByTimeDesc_strict _ _ hnodup, hpages, ?_⟩
  have hfun : ∀ i ∈ List.range ((((db.coll m.BillingConn).billings.filter
        (matchStage query.Spec owner)).length + P - 1) / P),
      (m.QueryBillingRecords reg (faults (i + 1))
        (pageQuery query (i + 1)) owner db).1.Status.Items =
      (((sortByTimeDesc (fun _ => 0) ((db.coll m.BillingConn).billings.filter
          (matchStage query.Spec owner))).map (rangeItem reg)).drop (i * P)).take P := by
    intro i hi
    rw [(hpages (i + 1) (by omega) (by have := List.mem_range.mp hi; omega)).2,
      List.map_take, List.map_drop, Nat.add_sub_cancel]
  rw [List.flatMap_congr hfun]
  apply pages_concat
  rw [List.length_map, (sortByTimeDesc_perm _ _).length_eq]
  exact length_le_pages _ _ hP

/-- The witness of the amended C13: three recharges one millisecond apart and the page
size 2; page 1 holds the two latest, page 2 the earliest, also when the store sorts
documents of equal time by `rankLast`. -/
theorem QueryBillingRecords_pages_witness :
    ((hourQuery 1 2).Spec.OrderID = "" ∧ "owner" ≠ "" ∧ 1 ≤ 2 ∧
      (hourQuery 1 2).Spec.PageSize = ((2 : Nat) : Int)) ∧
    (defaultMongoDB.QueryBillingRecords DefaultPropertyTypeLS
      { QueryFaults.none with tieRank := rankLast }
      (pageQuery (hourQuery 1 2) 1) "owner"
      (billingOnly (recharges 3))).1.Status.Items.map (fun i => i.OrderID) = ["r2", "r1"] ∧
    (defaultMongoDB.QueryBillingRecords DefaultPropertyTypeLS
      { QueryFaults.none with tieRank := rankLast }
      (pageQuery (hourQuery 1 2) 2) "owner"
      (billingOnly (recharges 3))).1.Status.Items.map (fun i => i.OrderID) = ["r0"] ∧
    (List.range (((((billingOnly (recharges 3)).coll defaultMongoDB.BillingConn).billings.filter
        (matchStage (hourQuery 1 2).Spec "owner")).length + 2 - 1) / 2)).flatMap
      (fun i => (defaultMongoDB.QueryBillingRecords DefaultPropertyTypeLS
        { QueryFaults.none with tieRank := rankLast }
        (pageQuery (hourQuery 1 2) (i + 1)) "owner"
        (billingOnly (recharges 3))).1.Status.Items) =
      (sortByTimeDesc (fun _ => 0) (((billingOnly (recharges 3)).coll
          defaultMongoDB.BillingConn).billings.filter
        (matchStage (hourQuery 1 2).Spec "owner"))).map (rangeItem DefaultPropertyTypeLS) :=
  ⟨⟨by decide, by decide, by decide, by decide⟩, by decide, by decide,
    (QueryBillingRecords_pages defaultMongoDB DefaultPropertyTypeLS
      (fun _ => { QueryFaults.none with tieRank := rankLast }) (hourQuery 1 2) "owner"
      (billingOnly (recharges 3)) 2 (by decide) (by decide) (by decide) (by decide)
      (fun _ => ⟨rfl, rfl, rfl, rfl⟩) (by decide) (by decide)).2.2.2⟩

/-- C14 as the spec states it fails where the sum `N + P - 1` leaves the range of `int`:
with 35 matching orders and the page size `2 ^ 63 - 1` the query succeeds and sets the page
length 0, where `ceil(35 / P)` is 1. -/
theorem QueryBillingRecords_totals_wrap :
    (defaultMongoDB.QueryBillingRecords DefaultPropertyTypeLS QueryFaults.none
        (hourQuery 1 9223372036854775807) "owner" (billingOnly (recharges 35))).2 = none ∧
      (((billingOnly (recharges 35)).coll defaultMongoDB.BillingConn).billings.filter
        (matchStage (hourQuery 1 9223372036854775807).Spec "owner")).length = 35 ∧
      (defaultMongoDB.QueryBillingRecords DefaultPropertyTypeLS QueryFaults.none
        (hourQuery 1 9223372036854775807) "owner"
        (billingOnly (recharges 35))).1.Status.TotalCount = 35 ∧
      (defaultMongoDB.QueryBillingRecords DefaultPropertyTypeLS QueryFaults.none
        (hourQuery 1 9223372036854775807) "owner"
        (billingOnly (recharges 35))).1.Status.PageLength = 0 ∧
      ceilDiv 35 9223372036854775807 = 1 :=
  ⟨by decide, by decide, by decide, by decide, by decide⟩

/-- C14, amended: a range query with a page size `P >= 1` that returns no error sets
`TotalCount` to the number `N` of orders that match its filter; it sets `PageLength` to 1
when `N = 0`, and to `ceil(N / P)` when `N + P - 1` is in the range of `int`. -/
theorem QueryBillingRecords_totals (m : MongoDB) (reg : PropertyTypeLS) (faults : QueryFaults)
    (query : BillingRecordQuery) (owner : String) (db : Database)
    (hid : query.Spec.OrderID = "") (hsize : 1 ≤ query.Spec.PageSize)
    (hok : (m.QueryBillingRecords reg faults query owner db).2 = none) :
    (m.QueryBillingRecords reg faults query owner db).1.Status.TotalCount =
      (((db.coll m.BillingConn).billings.filter (matchStage query.Spec owner)).length : Int) ∧
    (((db.coll m.BillingConn).billings.filter (matchStage query.Spec owner)).length = 0 →
      (m.QueryBillingRecords reg faults query owner db).1.Status.PageLength = 1) ∧
    ((((db.coll m.BillingConn).billings.filter (matchStage query.Spec owner)).length : Int) +
        query.Spec.PageSize - 1 ≤ 9223372036854775807 →
      (m.QueryBillingRecords reg faults query owner db).1.Status.PageLength =
        (if ((db.coll m.BillingConn).billings.filter (matchStage query.Spec owner)).length = 0
          then 1
          else ceilDiv
            (((db.coll m.BillingConn).billings.filter
              (matchStage query.Spec owner)).length : Int)
            query.Spec.PageSize)) := by
  obtain ⟨h1, h2, _, h4⟩ := QueryBillingRecords_ok m reg faults query owner db hid hok
  obtain ⟨_, _, _, h5, h6, _⟩ :=
    QueryBillingRecords_range m reg faults query owner db hid h1 h4 h2 hsize
  refine ⟨h5, ?_, ?_⟩
  · intro hN
    rw [h6, if_pos hN]
  · intro hint
    rw [h6]
    split
    · rfl
    · rw [wrapInt64_of_range _ (by omega) hint]
      exact ceilDiv_eq _ _ (Int.natCast_nonneg _) hsize

/-- The amended C14 on 35 matching orders and the page size 10: the total count is 35 and
the page length 4. -/
theorem QueryBillingRecords_totals_witness :
    ((hourQuery 1 10).Spec.OrderID = "" ∧ 1 ≤ (hourQuery 1 10).Spec.PageSize ∧
      (defaultMongoDB.QueryBillingRecords DefaultPropertyTypeLS QueryFaults.none
        (hourQuery 1 10) "owner" (billingOnly (recharges 35))).2 = none) ∧
    (((billingOnly (recharges 35)).coll defaultMongoDB.BillingConn).billings.filter
      (matchStage (hourQuery 1 10).Spec "owner")).length = 35 ∧
    ceilDiv 35 10 = 4 ∧
    (defaultMongoDB.QueryBillingRecords DefaultPropertyTypeLS QueryFaults.none
        (hourQuery 1 10) "owner" (billingOnly (recharges 35))).1.Status.TotalCount =
      ((((billingOnly (recharges 35)).coll defaultMongoDB.BillingConn).billings.filter
        (matchStage (hourQuery 1 10).Spec "owner")).length : Int) ∧
    (defaultMongoDB.QueryBillingRecords DefaultPropertyTypeLS QueryFaults.none
        (hourQuery 1 10) "owner" (billingOnly (recharges 35))).1.Status.PageLength =
      (if (((billingOnly (recharges 35)).coll defaultMongoDB.BillingConn).billings.filter
          (matchStage (hourQuery 1 10).Spec "owner")).length = 0
        then 1
        else ceilDiv
          ((((billingOnly (recharges 35)).coll defaultMongoDB.BillingConn).billings.filter
            (matchStage (hourQuery 1 10).Spec "owner")).length : Int)
          (hourQuery 1 10).Spec.PageSize) :=
  ⟨⟨by decide, by decide, by decide⟩, by decide, by decide,
    (QueryBillingRecords_totals defaultMongoDB DefaultPropertyTypeLS QueryFaults.none
      (hourQuery 1 10) "owner" (billingOnly (recharges 35)) (by decide) (by decide)
      (by decide)).1,
    (QueryBillingRecords_totals defaultMongoDB DefaultPropertyTypeLS QueryFaults.none
      (hourQuery 1 10) "owner" (billingOnly (recharges 35)) (by decide) (by decide)
      (by decide)).2.2 (by decide)⟩

theorem rechargePipeline_total (spec : BillingRecordQuerySpec) (owner : String)
    (docs : List Billing) :
    (rechargePipeline spec owner docs).foldl (fun _ result => result) 0 =
      ((docs.filter (fun b => timeMatch spec b && matchOwner owner b &&
        b.Type_ == BillingType.Recharge)).map (fun b => b.Amount)).sum := by
  unfold rechargePipeline
  cases h : docs.filter (fun b => timeMatch spec b && matchOwner owner b &&
      b.Type_ == BillingType.Recharge) with
  | nil => simp
  | cons a l => simp

/-- C15: a range query that returns no error sets `RechargeAmount` to the sum of the
amounts of the orders of the owner that have the type `Recharge` and a time from the start
time to the end time of the query, both included; the sum is 0 when there is none. -/
theorem QueryBillingRecords_rechargeAmount (m : MongoDB) (reg : PropertyTypeLS)
    (faults : QueryFaults) (query : BillingRecordQuery) (owner : String) (db : Database)
    (hid : query.Spec.OrderID = "")
    (hok : (m.QueryBillingRecords reg faults query owner db).2 = none) :
    (m.QueryBillingRecords reg faults query owner db).1.Status.RechargeAmount =
      (((db.coll m.BillingConn).billings.filter (fun b =>
        decide (b.Owner = owner ∧ b.Type_ = BillingType.Recharge ∧
          query.Spec.StartTime.unixNano ≤ b.Time.unixNano ∧
          b.Time.unixNano ≤ query.Spec.EndTime.unixNano))).map (fun b => b.Amount)).sum := by
  obtain ⟨h1, h2, h3, h4⟩ := QueryBillingRecords_ok m reg faults query owner db hid hok
  obtain ⟨_, _, _, _, _, h5, _⟩ :=
    QueryBillingRecords_range m reg faults query owner db hid h1 h4 h2 h3
  rw [h5, rechargePipeline_total]
  congr 2
  apply List.filter_congr
  intro b _
  have hown : (owner == "") = false := by simpa using h1
  simp only [timeMatch, matchOwner, Time.Before, hown, Bool.not_false, Bool.true_and]
  rw [Bool.eq_iff_iff]
  simp only [Bool.and_eq_true, Bool.not_eq_true', decide_eq_false_iff_not, not_lt,
    beq_iff_eq, decide_eq_true_eq]
  tauto

/-- C15 on scenario S6: two recharges of 500 and 700 of the owner give the recharge amount
1200. -/
theorem QueryBillingRecords_rechargeAmount_witness :
    ((hourQuery 1 10).Spec.OrderID = "" ∧
      (defaultMongoDB.QueryBillingRecords DefaultPropertyTypeLS QueryFaults.none
        (hourQuery 1 10) "owner"
        (billingOnly [rechargeOf "a" noon 500, rechargeOf "b" onePm 700])).2 = none) ∧
    (defaultMongoDB.QueryBillingRecords DefaultPropertyTypeLS QueryFaults.none
        (hourQuery 1 10) "owner"
        (billingOnly [rechargeOf "a" noon 500, rechargeOf "b" onePm 700])).1.Status.RechargeAmount
      = 1200 ∧
    (defaultMongoDB.QueryBillingRecords DefaultPropertyTypeLS QueryFaults.none
        (hourQuery 1 10) "owner"
        (billingOnly [rechargeOf "a" noon 500, rechargeOf "b" onePm 700])).1.Status.RechargeAmount
      = ((((billingOnly [rechargeOf "a" noon 500, rechargeOf "b" onePm 700]).coll
          defaultMongoDB.BillingConn).billings.filter (fun b =>
        decide (b.Owner = "owner" ∧ b.Type_ = BillingType.Recharge ∧
          (hourQuery 1 10).Spec.StartTime.unixNano ≤ b.Time.unixNano ∧
          b.Time.unixNano ≤ (hourQuery 1 10).Spec.EndTime.unixNano))).map
            (fun b => b.Amount)).sum :=
  ⟨⟨by decide, by decide⟩, by decide,
    QueryBillingRecords_rechargeAmount defaultMongoDB DefaultPropertyTypeLS QueryFaults.none
      (hourQuery 1 10) "owner" (billingOnly [rechargeOf "a" noon 500, rechargeOf "b" onePm 700])
      (by decide) (by decide)⟩

/-- Over documents without the field `costs` the deduction pipeline has no row. -/
theorem deductionPipeline_no_costs (spec : BillingRecordQuerySpec) (owner : String)
    (docs : List Billing) (h : ∀ b ∈ docs, b.Costs = none) :
    deductionPipeline spec owner docs = [] := by
  unfold deductionPipeline
  simp only
  rw [List.flatMap_eq_nil_iff.mpr]
  · rfl
  · intro b hb
    rw [h b (List.mem_of_mem_filter hb)]

theorem Database.coll_update_billings (db : Database) (name : String) (x : Billing) :
    ((db.update name (fun c => { c with billings := c.billings ++ [x] })).coll name).billings =
      (db.coll name).billings ++ [x] := by
  rw [Database.coll_update db name (fun c => { c with billings := c.billings ++ [x] })
    (fun c => rfl)]

/-- Every order `GenerateBillingData` adds is without the field `costs`. -/
theorem insertOrders_no_costs (m : MongoDB) (faults : BillingFaults) (nsTypeAmount : StrMap Int)
    (owner : String) (endTime : Time) (gs : List (String × Nat × List AppCost)) :
    ∀ (n : Nat) (db : Database) (orderID : List String) (amount : Int),
      (∀ b ∈ (db.coll m.BillingConn).billings, b.Costs = none) →
      ∀ b ∈ ((insertOrders m faults nsTypeAmount owner endTime gs n db orderID amount).db.coll
        m.BillingConn).billings, b.Costs = none := by
  induction gs with
  | nil => intro n db orderID amount h; simpa [insertOrders] using h
  | cons g rest ih =>
    obtain ⟨ns, tp, appCost⟩ := g
    intro n db orderID amount h
    unfold insertOrders
    simp only
    split
    · exact ih n db orderID amount h
    · split
      · exact h
      · split
        · exact h
        · apply ih
          intro b hb
          rw [Database.coll_update_billings] at hb
          rcases List.mem_append.mp hb with hb | hb
          · exact h b hb
          · simp only [List.mem_singleton] at hb
            rw [hb]

/-- C16 on the store that `GenerateBillingData` leaves on scenario S4: the order `id0` of
the owner, a consumption of 447 at 13:00, is in the window of the query; the query returns
it with the costs `cpu: 447` and `memory: 0`, taken from the used amounts of its app costs,
and leaves `DeductionAmount` empty. -/
theorem QueryBillingRecords_deduction_missing :
    (billedStore.coll defaultMongoDB.BillingConn).billings.map
      (fun b => (b.OrderID, b.Owner, b.Type_, b.Time, b.Amount)) =
      [("id0", "owner", BillingType.Consumption, onePm, 447)] ∧
    (billedStore.coll defaultMongoDB.BillingConn).billings.map
      (fun b => (b.AppCosts.map (fun c => c.UsedAmount), b.Costs)) =
      [([[(0, 447), (1, 0)]], none)] ∧
    (defaultMongoDB.QueryBillingRecords DefaultPropertyTypeLS QueryFaults.none
      (hourQuery 1 10) "owner" billedStore).2 = none ∧
    (defaultMongoDB.QueryBillingRecords DefaultPropertyTypeLS QueryFaults.none
      (hourQuery 1 10) "owner" billedStore).1.Status.Items.map
        (fun i => (i.OrderID, i.Amount, i.Costs)) =
      [("id0", 447, [("cpu", 447), ("memory", 0)])] ∧
    (defaultMongoDB.QueryBillingRecords DefaultPropertyTypeLS QueryFaults.none
      (hourQuery 1 10) "owner" billedStore).1.Status.DeductionAmount = [] :=
  ⟨by decide, by decide, by decide, by decide, by decide⟩

theorem append_ne_of_head (p e t : String) (c d : Char) (hp : p.data.head? = some c)
    (ht : t.data.head? = some d) (hcd : c ≠ d) : p ++ e ≠ t := by
  intro h
  have h2 := congrArg (fun s : String => s.data.head?) h
  simp only [String.data_append] at h2
  cases hpd : p.data with
  | nil => simp [hpd] at hp
  | cons x xs =>
    rw [hpd] at hp h2
    simp only [List.cons_append, List.head?_cons, Option.some.injEq] at hp h2
    rw [ht] at h2
    simp only [Option.some.injEq] at h2
    exact hcd (hp ▸ h2)

/-- The error of a range query with an owner is none of the two validation errors. -/
theorem QueryBillingRecords_error (m : MongoDB) (reg : PropertyTypeLS) (faults : QueryFaults)
    (query : BillingRecordQuery) (owner : String) (db : Database)
    (hid : query.Spec.OrderID = "") (howner : owner ≠ "") :
    (m.QueryBillingRecords reg faults query owner db).2 = none ∨
    ∃ p e : String, (m.QueryBillingRecords reg faults query owner db).2 = some (p ++ e) ∧
      p.data.head? = some 'f' := by
  have hown : (owner == "") = false := by simpa using howner
  unfold MongoDB.QueryBillingRecords
  simp only [hid, bne_self_eq_false, Bool.false_eq_true, if_false, hown]
  cases h1 : faults.pageErr with
  | some e => exact Or.inr ⟨_, e, rfl, rfl⟩
  | none =>
    simp only [pagePipeline]
    by_cases hskip : wrapInt64 ((query.Spec.Page - 1) * query.Spec.PageSize) < 0
    · simp only [hskip, if_true]
      exact Or.inr ⟨_, _, rfl, rfl⟩
    by_cases hlim : query.Spec.PageSize ≤ 0
    · simp only [hskip, hlim, if_true, if_false]
      exact Or.inr ⟨_, _, rfl, rfl⟩
    simp only [hskip, hlim, if_false]
    cases h2 : faults.countErr with
    | some e => exact Or.inr ⟨_, e, rfl, rfl⟩
    | none =>
      cases h3 : faults.deductionErr with
      | some e => exact Or.inr ⟨_, e, rfl, rfl⟩
      | none =>
        cases h4 : faults.rechargeErr with
        | some e => exact Or.inr ⟨_, e, rfl, rfl⟩
        | none => exact Or.inl rfl

/-- C17: a query with an empty order id and an empty owner returns the error
`owner is empty` and the query as it was given, whatever the store holds and whatever
faults it has; a query with an empty order id and an owner returns none of the two
validation errors, and no error at all when the page and the page size are at least 1,
the skip `(Page - 1) * PageSize` is in the range of `int` and the store has no fault. -/
theorem QueryBillingRecords_validation (m : MongoDB) (reg : PropertyTypeLS)
    (faults : QueryFaults) (query : BillingRecordQuery) (owner : String) (db : Database)
    (hid : query.Spec.OrderID = "") :
    (owner = "" →
      m.QueryBillingRecords reg faults query owner db = (query, some "owner is empty")) ∧
    (owner ≠ "" →
      (m.QueryBillingRecords reg faults query owner db).2 ≠ some "owner is empty" ∧
      (m.QueryBillingRecords reg faults query owner db).2 ≠ some "order id is empty" ∧
      (1 ≤ query.Spec.Page → 1 ≤ query.Spec.PageSize →
        (query.Spec.Page - 1) * query.Spec.PageSize ≤ 9223372036854775807 →
        (m.QueryBillingRecords reg QueryFaults.none query owner db).2 = none)) := by
  refine ⟨?_, ?_⟩
  · intro howner
    subst howner
    unfold MongoDB.QueryBillingRecords
    simp [hid]
  · intro howner
    refine ⟨?_, ?_, ?_⟩
    · rcases QueryBillingRecords_error m reg faults query owner db hid howner with h | ⟨p, e, h, hp⟩
      · rw [h]; simp
      · rw [h]
        intro h2
        exact append_ne_of_head p e "owner is empty" 'f' 'o' hp rfl (by decide)
          (Option.some.inj h2)
    · rcases QueryBillingRecords_error m reg faults query owner db hid howner with h | ⟨p, e, h, hp⟩
      · rw [h]; simp
      · rw [h]
        intro h2
        exact append_ne_of_head p e "order id is empty" 'f' 'o' hp rfl (by decide)
          (Option.some.inj h2)
    · intro hpage hsize hskip
      have h0 : 0 ≤ (query.Spec.Page - 1) * query.Spec.PageSize :=
        Int.mul_nonneg (by omega) (by omega)
      exact (QueryBillingRecords_range m reg QueryFaults.none query owner db hid howner
        ⟨rfl, rfl, rfl, rfl⟩ (by rw [wrapInt64_of_range _ (by omega) hskip]; exact h0)
        hsize).1

/-- C17 on the hour query: without an owner it fails with `owner is empty` on any store,
here one with a failing page aggregation; with the owner `owner` it succeeds. -/
theorem QueryBillingRecords_validation_witness :
    (hourQuery 1 10).Spec.OrderID = "" ∧
    defaultMongoDB.QueryBillingRecords DefaultPropertyTypeLS
        { QueryFaults.none with pageErr := some "connection lost" } (hourQuery 1 10) ""
        (billingOnly (recharges 3)) = (hourQuery 1 10, some "owner is empty") ∧
    (defaultMongoDB.QueryBillingRecords DefaultPropertyTypeLS QueryFaults.none (hourQuery 1 10)
        "owner" (billingOnly (recharges 3))).2 = none :=
  ⟨by decide,
    (QueryBillingRecords_validation defaultMongoDB DefaultPropertyTypeLS
      { QueryFaults.none with pageErr := some "connection lost" } (hourQuery 1 10) ""
      (billingOnly (recharges 3)) (by decide)).1 rfl,
    ((QueryBillingRecords_validation defaultMongoDB DefaultPropertyTypeLS QueryFaults.none
      (hourQuery 1 10) "owner" (billingOnly (recharges 3)) (by decide)).2 (by decide)).2.2
        (by decide) (by decide) (by decide)⟩

/-- C18: a query with an order id, run without a fault of the store, returns no error, the
page length 1 and as total count the number of its rows. When no order has the id and the
owner there is no row. When one order has them: a consumption with `k` app costs gives `k`
rows, row `i` with the name and the amount of app cost `i` and with the id, the namespace
and the time of the order; a recharge or a transfer gives one row, with the id, the
namespace, the time and the amount of the order. -/
theorem QueryBillingRecords_byOrderID (m : MongoDB) (reg : PropertyTypeLS)
    (query : BillingRecordQuery) (owner : String) (db : Database)
    (hid : query.Spec.OrderID ≠ "") :
    (m.QueryBillingRecords reg QueryFaults.none query owner db).2 = none ∧
    (m.QueryBillingRecords reg QueryFaults.none query owner db).1.Status.PageLength = 1 ∧
    (m.QueryBillingRecords reg QueryFaults.none query owner db).1.Status.TotalCount =
      (m.QueryBillingRecords reg QueryFaults.none query owner db).1.Status.Items.length ∧
    ((db.coll m.BillingConn).billings.filter (fun b =>
        b.OrderID == query.Spec.OrderID && matchOwner owner b) = [] →
      (m.QueryBillingRecords reg QueryFaults.none query owner db).1.Status.Items = [] ∧
      (m.QueryBillingRecords reg QueryFaults.none query owner db).1.Status.TotalCount = 0) ∧
    (∀ b : Billing, (db.coll m.BillingConn).billings.filter (fun b =>
        b.OrderID == query.Spec.OrderID && matchOwner owner b) = [b] →
      (b.Type_ = BillingType.Consumption →
        (m.QueryBillingRecords reg QueryFaults.none query owner db).1.Status.TotalCount =
          b.AppCosts.length ∧
        (m.QueryBillingRecords reg QueryFaults.none query owner db).1.Status.Items.map
            (fun i => (i.Name, i.Amount, i.OrderID, i.Namespace, i.Time)) =
          b.AppCosts.map (fun c => (c.Name, c.Amount, b.OrderID, b.Namespace, b.Time))) ∧
      (b.Type_ ≠ BillingType.Consumption →
        (m.QueryBillingRecords reg QueryFaults.none query owner db).1.Status.TotalCount = 1 ∧
        (m.QueryBillingRecords reg QueryFaults.none query owner db).1.Status.Items.map
            (fun i => (i.Amount, i.OrderID, i.Namespace, i.Time)) =
          [(b.Amount, b.OrderID, b.Namespace, b.Time)])) := by
  have hne : (query.Spec.OrderID != "") = true := by simpa using hid
  have hne2 : (query.Spec.OrderID == "") = false := by simpa using hid
  unfold MongoDB.QueryBillingRecords
  simp only [hne, if_true]
  unfold MongoDB.queryBillingRecordsByOrderID
  simp only [hne2, Bool.false_eq_true, if_false, QueryFaults.none, true_and]
  refine ⟨?_, ?_⟩
  · intro h
    simp [h]
  · intro b h
    rw [h]
    simp only [List.flatMap_cons, List.flatMap_nil, List.append_nil]
    refine ⟨?_, ?_⟩
    · intro ht
      simp [orderItems, ht]
    · intro ht
      cases hb : b.Type_ with
      | Consumption => exact absurd hb ht
      | Recharge => simp [orderItems, hb]
      | TransferIn => simp [orderItems, hb]
      | TransferOut => simp [orderItems, hb]

/-- C18 on a store with the consumption `o1` of two app costs and the recharge `r`: the
query for `o1` returns the two rows `web` of 447 and `db` of 894, the query for `r` one row
of 500, and the query for an id that no order has returns no row. -/
theorem QueryBillingRecords_byOrderID_witness :
    (orderQuery "o1").Spec.OrderID ≠ "" ∧
    (defaultMongoDB.QueryBillingRecords DefaultPropertyTypeLS QueryFaults.none
      (orderQuery "o1") "owner" (billingOnly [webAndDb, rechargeOf "r" noon 500])).2 = none ∧
    (defaultMongoDB.QueryBillingRecords DefaultPropertyTypeLS QueryFaults.none
      (orderQuery "o1") "owner"
      (billingOnly [webAndDb, rechargeOf "r" noon 500])).1.Status.PageLength = 1 ∧
    (defaultMongoDB.QueryBillingRecords DefaultPropertyTypeLS QueryFaults.none
      (orderQuery "o1") "owner"
      (billingOnly [webAndDb, rechargeOf "r" noon 500])).1.Status.TotalCount = 2 ∧
    (defaultMongoDB.QueryBillingRecords DefaultPropertyTypeLS QueryFaults.none
      (orderQuery "o1") "owner"
      (billingOnly [webAndDb, rechargeOf "r" noon 500])).1.Status.Items.map
        (fun i => (i.Name, i.Amount, i.OrderID, i.Namespace, i.Time)) =
      [("web", 447, "o1", "ns-a", onePm), ("db", 894, "o1", "ns-a", onePm)] ∧
    (defaultMongoDB.QueryBillingRecords DefaultPropertyTypeLS QueryFaults.none
      (orderQuery "r") "owner"
      (billingOnly [webAndDb, rechargeOf "r" noon 500])).1.Status.Items.map
        (fun i => (i.Amount, i.OrderID, i.Payment)) = [(500, "r", some 500)] ∧
    (defaultMongoDB.QueryBillingRecords DefaultPropertyTypeLS QueryFaults.none
      (orderQuery "none") "owner"
      (billingOnly [webAndDb, rechargeOf "r" noon 500])).1.Status.Items = [] :=
  ⟨by decide,
    (QueryBillingRecords_byOrderID defaultMongoDB DefaultPropertyTypeLS (orderQuery "o1")
      "owner" (billingOnly [webAndDb, rechargeOf "r" noon 500]) (by decide)).1,
    (QueryBillingRecords_byOrderID defaultMongoDB DefaultPropertyTypeLS (orderQuery "o1")
      "owner" (billingOnly [webAndDb, rechargeOf "r" noon 500]) (by decide)).2.1,
    by decide, by decide, by decide,
    ((QueryBillingRecords_byOrderID defaultMongoDB DefaultPropertyTypeLS (orderQuery "none")
      "owner" (billingOnly [webAndDb, rechargeOf "r" noon 500]) (by decide)).2.2.2.1
        (by decide)).1⟩

/-! ## The registry -/

theorem decryptPrice_ok (D : String → Except Error Float64) (types : List PropertyType)
    (h : types.all (decrypts D) = true) :
    decryptPrice D types = (types.map (withDecryptedPrice D), none) := by
  induction types with
  | nil => rfl
  | cons t ts ih =>
    simp only [List.all_cons, Bool.and_eq_true] at h
    obtain ⟨ht, hts⟩ := h
    unfold decrypts at ht
    simp only [Bool.and_eq_true, Bool.not_eq_true'] at ht
    obtain ⟨h1, h2⟩ := ht
    unfold decryptPrice
    rw [if_neg (by simp [h1])]
    cases hd : D t.EncryptUnitPrice with
    | error e => simp [hd] at h2
    | ok price =>
      simp only [ih hts, List.map_cons, withDecryptedPrice, hd]

theorem decryptPrice_error (D : String → Except Error Float64) (types : List PropertyType)
    (h : types.all (decrypts D) = false) :
    ∃ e, (decryptPrice D types).2 = some e := by
  induction types with
  | nil => simp at h
  | cons t ts ih =>
    unfold decryptPrice
    by_cases h1 : (t.EncryptUnitPrice == "") = true
    · rw [if_pos h1]
      exact ⟨_, rfl⟩
    · rw [if_neg h1]
      cases hd : D t.EncryptUnitPrice with
      | error e => exact ⟨_, rfl⟩
      | ok price =>
        simp only
        apply ih
        have ht : decrypts D t = true := by
          simp only [Bool.not_eq_true] at h1
          simp [decrypts, h1, hd]
        simpa [List.all_cons, ht] using h

theorem mustParseUnits_withDecryptedPrice (D : String → Except Error Float64)
    (Q : String → Bool) (types : List PropertyType) :
    mustParseUnits Q (types.map (withDecryptedPrice D)) = mustParseUnits Q types := by
  unfold mustParseUnits
  rw [List.all_map]
  congr 1
  funext t
  simp only [Function.comp, withDecryptedPrice]
  cases D t.EncryptUnitPrice <;> rfl

/-- C19 as the spec states it fails: the type `gpu` has an encrypted price that decrypts,
and its unit string `core` is no quantity, so `NewPropertyTypeLS` returns no registry (it
panics) where the claim has it return the registry of the given rows. -/
theorem NewPropertyTypeLS_invalid_unit :
    [gpuType].all (decrypts decryptOne) = true ∧
      quantityGrammar "core" = false ∧
      quantityGrammar "1m" = true ∧ quantityGrammar "1Mi" = true ∧
      NewPropertyTypeLS decryptOne quantityGrammar [gpuType] = none :=
  ⟨by decide, by decide, by decide, by decide, by decide⟩

/-- C19, amended: `NewPropertyTypeLS` gives the registry of the default list, which is cpu
(AVG, enum 0), memory (AVG, enum 1), storage (AVG, enum 2) and network (DIF, enum 3),
whenever some type has an empty encrypted unit price or one that does not decrypt;
otherwise, when every unit string that is not empty is a quantity, it gives the registry
of the given types, each with its unit price replaced by the decrypted value of its
encrypted unit price, and when some unit string is no quantity it returns nothing. -/
theorem NewPropertyTypeLS_eq (D : String → Except Error Float64) (Q : String → Bool)
    (types : List PropertyType) :
    NewPropertyTypeLS D Q types =
      (if types.all (decrypts D) then
        (if types.all (fun t => t.UnitString == "" || Q t.UnitString) then
          some (newPropertyTypeLS (types.map (withDecryptedPrice D)))
        else none)
      else some (newPropertyTypeLS DefaultPropertyTypeList)) ∧
    (∀ t ∈ types, decrypts D t = true ↔
      t.EncryptUnitPrice ≠ "" ∧ ∃ price, D t.EncryptUnitPrice = Except.ok price) ∧
    (∀ t ∈ types, ∀ price, D t.EncryptUnitPrice = Except.ok price →
      withDecryptedPrice D t = { t with UnitPrice := price }) ∧
    DefaultPropertyTypeList.map (fun t => (t.Name, t.PriceType, t.Enum)) =
      [("cpu", "AVG", 0), ("memory", "AVG", 1), ("storage", "AVG", 2), ("network", "DIF", 3)] := by
  refine ⟨?_, ?_, ?_, by decide⟩
  · unfold NewPropertyTypeLS
    by_cases h : types.all (decrypts D) = true
    · rw [if_pos h, decryptPrice_ok D types h]
      simp only [mustParseUnits_withDecryptedPrice]
      rfl
    · simp only [Bool.not_eq_true] at h
      obtain ⟨e, he⟩ := decryptPrice_error D types h
      rw [if_neg (by simp [h])]
      cases hp : decryptPrice D types with
      | mk l err =>
        rw [hp] at he
        simp only at he
        subst he
        rfl
  · intro t _
    unfold decrypts
    cases hd : D t.EncryptUnitPrice with
    | error e => simp
    | ok price => simp
  · intro t _ price hd
    simp [withDecryptedPrice, hd]

theorem assoc_get?_of_mem {κ α : Type} [BEq κ] [LawfulBEq κ] (m : List (κ × α)) (k : κ) (v : α)
    (hnodup : (m.map Prod.fst).Nodup) (h : (k, v) ∈ m) :
    (m.find? (fun q => q.1 == k)).map (fun q => q.2) = some v := by
  induction m with
  | nil => simp at h
  | cons q qs ih =>
    rw [List.map_cons, List.nodup_cons] at hnodup
    rcases List.mem_cons.mp h with h1 | h1
    · subst h1
      simp [List.find?]
    · have hne : ¬ q.1 = k := by
        intro hq
        apply hnodup.1
        rw [hq]
        exact List.mem_map.mpr ⟨(k, v), h1, rfl⟩
      have hqk : (q.1 == k) = false := by simpa using hne
      rw [find?_cons_neg (fun p => p.1 == k) q qs hqk]
      exact ih hnodup.2 h1

theorem assoc_set_of_not_mem {κ α : Type} [BEq κ] [LawfulBEq κ] (m : List (κ × α)) (k : κ)
    (v : α) (h : k ∉ m.map Prod.fst) :
    (if m.any (fun q => q.1 == k) then m.map (fun q => if q.1 == k then (k, v) else q)
      else m ++ [(k, v)]) = m ++ [(k, v)] := by
  rw [if_neg]
  intro hany
  obtain ⟨q, hq, hqk⟩ := List.any_eq_true.mp hany
  apply h
  have : q.1 = k := eq_of_beq hqk
  rw [← this]
  exact List.mem_map.mpr ⟨q, hq, rfl⟩

/-- The indexes after the loop of `newPropertyTypeLS` over types whose names and enums are
new and distinct: the entries before the loop, followed by one entry for every type. -/
theorem newPropertyTypeLS_fold (types : List PropertyType) :
    ∀ ls : PropertyTypeLS,
      (ls.EnumMap.map Prod.fst ++ types.map (fun t => t.Enum)).Nodup →
      (ls.StringMap.map Prod.fst ++ types.map (fun t => t.Name)).Nodup →
      (types.foldl (fun ls t =>
          { ls with EnumMap := ls.EnumMap.set t.Enum t,
                    StringMap := ls.StringMap.set t.Name t }) ls).EnumMap =
        ls.EnumMap ++ types.map (fun t => (t.Enum, t)) ∧
      (types.foldl (fun ls t =>
          { ls with EnumMap := ls.EnumMap.set t.Enum t,
                    StringMap := ls.StringMap.set t.Name t }) ls).StringMap =
        ls.StringMap ++ types.map (fun t => (t.Name, t)) ∧
      (types.foldl (fun ls t =>
          { ls with EnumMap := ls.EnumMap.set t.Enum t,
                    StringMap := ls.StringMap.set t.Name t }) ls).Types = ls.Types := by
  induction types with
  | nil => intro ls _ _; simp
  | cons t ts ih =>
    intro ls he hn
    have he1 : t.Enum ∉ ls.EnumMap.map Prod.fst := by
      intro hmem
      rw [List.map_cons, List.nodup_append] at he
      exact he.2.2 hmem (List.mem_cons_self _ _)
    have hn1 : t.Name ∉ ls.StringMap.map Prod.fst := by
      intro hmem
      rw [List.map_cons, List.nodup_append] at hn
      exact hn.2.2 hmem (List.mem_cons_self _ _)
    have hes : NatMap.set ls.EnumMap t.Enum t = ls.EnumMap ++ [(t.Enum, t)] :=
      assoc_set_of_not_mem ls.EnumMap t.Enum t he1
    have hns : StrMap.set ls.StringMap t.Name t = ls.StringMap ++ [(t.Name, t)] :=
      assoc_set_of_not_mem ls.StringMap t.Name t hn1
    rw [List.foldl_cons]
    have h := ih { ls with EnumMap := NatMap.set ls.EnumMap t.Enum t,
                           StringMap := StrMap.set ls.StringMap t.Name t }
      (by
        simp only [hes, List.map_append, List.map_cons, List.map_nil, List.append_assoc,
          List.singleton_append]
        simpa using he)
      (by
        simp only [hns, List.map_append, List.map_cons, List.map_nil, List.append_assoc,
          List.singleton_append]
        simpa using hn)
    obtain ⟨h1, h2, h3⟩ := h
    refine ⟨?_, ?_, ?_⟩
    · rw [h1]
      simp only [hes, List.map_cons, List.append_assoc, List.singleton_append]
    · rw [h2]
      simp only [hns, List.map_cons, List.append_assoc, List.singleton_append]
    · rw [h3]

/-- C20: for a list of property types with pairwise distinct names and pairwise distinct
enums, the registry `newPropertyTypeLS` builds returns every listed type from `StringMap`
under its name and from `EnumMap` under its enum, so that the two look-ups agree on the
name, the enum, the price type and the unit price; each of the two maps has as many entries
as the list, and `Types` is the list. -/
theorem newPropertyTypeLS_lookup (types : List PropertyType)
    (hnames : (types.map (fun t => t.Name)).Nodup)
    (henums : (types.map (fun t => t.Enum)).Nodup) :
    (∀ t ∈ types,
      (newPropertyTypeLS types).StringMap.get? t.Name = some t ∧
      (newPropertyTypeLS types).EnumMap.get? t.Enum = some t ∧
      ∃ byName byEnum,
        (newPropertyTypeLS types).StringMap.get? t.Name = some byName ∧
        (newPropertyTypeLS types).EnumMap.get? t.Enum = some byEnum ∧
        byName.Name = byEnum.Name ∧ byName.Enum = byEnum.Enum ∧
        byName.PriceType = byEnum.PriceType ∧ byName.UnitPrice = byEnum.UnitPrice) ∧
    (newPropertyTypeLS types).StringMap.length = types.length ∧
    (newPropertyTypeLS types).EnumMap.length = types.length ∧
    (newPropertyTypeLS types).Types = types := by
  obtain ⟨h1, h2, h3⟩ := newPropertyTypeLS_fold types
    { Types := types, StringMap := [], EnumMap := [] } (by simpa using henums)
    (by simpa using hnames)
  have he : (newPropertyTypeLS types).EnumMap = types.map (fun t => (t.Enum, t)) := by
    unfold newPropertyTypeLS
    rw [h1]
    rfl
  have hn : (newPropertyTypeLS types).StringMap = types.map (fun t => (t.Name, t)) := by
    unfold newPropertyTypeLS
    rw [h2]
    rfl
  have hlook : ∀ t ∈ types,
      (newPropertyTypeLS types).StringMap.get? t.Name = some t ∧
      (newPropertyTypeLS types).EnumMap.get? t.Enum = some t := by
    intro t ht
    constructor
    · rw [hn]
      apply assoc_get?_of_mem
      · rw [List.map_map]
        exact hnames
      · exact List.mem_map.mpr ⟨t, ht, rfl⟩
    · rw [he]
      apply assoc_get?_of_mem
      · rw [List.map_map]
        exact henums
      · exact List.mem_map.mpr ⟨t, ht, rfl⟩
  refine ⟨?_, ?_, ?_, ?_⟩
  · intro t ht
    obtain ⟨a, b⟩ := hlook t ht
    exact ⟨a, b, t, t, a, b, rfl, rfl, rfl, rfl⟩
  · rw [hn, List.length_map]
  · rw [he, List.length_map]
  · unfold newPropertyTypeLS
    rw [h3]

/-- C20 on the default list: the registry returns `cpu` under its name and under the enum
0. -/
theorem newPropertyTypeLS_lookup_witness :
    ((DefaultPropertyTypeList.map (fun t => t.Name)).Nodup ∧
      (DefaultPropertyTypeList.map (fun t => t.Enum)).Nodup) ∧
    ((newPropertyTypeLS DefaultPropertyTypeList).StringMap.get? "cpu").map
        (fun t => (t.Name, t.Enum, t.PriceType)) = some ("cpu", 0, "AVG") ∧
    ((newPropertyTypeLS DefaultPropertyTypeList).EnumMap.get? 0).map
        (fun t => (t.Name, t.Enum, t.PriceType)) = some ("cpu", 0, "AVG") ∧
    (newPropertyTypeLS DefaultPropertyTypeList).StringMap.length = 4 ∧
    (newPropertyTypeLS DefaultPropertyTypeList).EnumMap.length = 4 ∧
    (newPropertyTypeLS DefaultPropertyTypeList).Types = DefaultPropertyTypeList :=
  ⟨⟨by decide, by decide⟩, by decide, by decide,
    (newPropertyTypeLS_lookup DefaultPropertyTypeList (by decide) (by decide)).2.1,
    (newPropertyTypeLS_lookup DefaultPropertyTypeList (by decide) (by decide)).2.2.1,
    (newPropertyTypeLS_lookup DefaultPropertyTypeList (by decide) (by decide)).2.2.2⟩

/-! ## What retention keeps -/

/-- Whatever the loop does, it adds no collection, and it keeps every collection whose name
does not start with the prefix or does not sort below the cutoff. -/
theorem dropOlder_keeps (pre cutoffName : String) (dropErr : String → Option Error)
    (names : List String) :
    ∀ db : Database,
      (∀ x ∈ (dropOlder pre cutoffName dropErr names db).1, x ∈ db) ∧
      (∀ x ∈ db, ¬ (HasPrefix x.name pre = true ∧ strLess x.name cutoffName = true) →
        x ∈ (dropOlder pre cutoffName dropErr names db).1) := by
  induction names with
  | nil => intro db; exact ⟨fun x hx => hx, fun x hx _ => hx⟩
  | cons c cs ih =>
    intro db
    simp only [dropOlder]
    by_cases hc : (HasPrefix c pre && strLess c cutoffName) = true
    · rw [if_pos hc]
      cases he : dropErr c with
      | some e => exact ⟨fun x hx => hx, fun x hx _ => hx⟩
      | none =>
        simp only
        obtain ⟨h1, h2⟩ := ih (db.Drop c)
        refine ⟨fun x hx => ((mem_Drop db c x).mp (h1 x hx)).1, ?_⟩
        intro x hx hnot
        apply h2 x _ hnot
        rw [mem_Drop]
        refine ⟨hx, ?_⟩
        intro hname
        apply hnot
        rw [hname]
        simpa using hc
    · rw [if_neg hc]
      exact ih db

theorem appendInt_neg (x : Int) (width : Nat) (h : x < 0) :
    ∃ rest, appendInt x width = '-' :: rest := by
  unfold appendInt
  simp only [h, if_true]
  split
  · exact ⟨_, rfl⟩
  · split
    · exact ⟨_, rfl⟩
    · exact ⟨_, rfl⟩

theorem lexLess_digit_minus (a : Nat) (ha : a < 10) (l1 l2 : List Char) :
    lexLess (digit a :: l1) ('-' :: l2) = false := by
  have h1 : ¬ digit a < '-' := by
    interval_cases a <;> decide
  have h2 : '-' < digit a := by
    interval_cases a <;> decide
  simp [lexLess, h1, h2]

/-- The name of a day with a four-digit year does not sort below the name of a day that is
not later. -/
theorem strLess_name_of_day_le (m : MongoDB) (t cutoff : Time)
    (hy0 : 0 ≤ t.Date.year) (hy1 : t.Date.year ≤ 9999)
    (hday : cutoff.dayNumber ≤ t.dayNumber) :
    strLess (m.getMonitorCollectionName t) (m.getMonitorCollectionName cutoff) = false := by
  by_cases hc : 0 ≤ cutoff.Date.year
  · have hkey : ¬ t.Date.key < cutoff.Date.key := by
      rw [Time.Date_key_lt_iff]
      omega
    have hr1 := t.Date_range
    have hr2 := cutoff.Date_range
    have hc1 : cutoff.Date.year ≤ 9999 := by
      simp only [Date.key] at hkey
      omega
    have := strLess_getMonitorCollectionName m t cutoff ⟨hy0, hy1⟩ ⟨hc, hc1⟩
    rw [Bool.eq_false_iff]
    intro h
    have := this.mp h
    omega
  · obtain ⟨rest, hrest⟩ := appendInt_neg cutoff.Date.year 4 (by omega)
    have hd : (dateDigits t.Date).map digit =
        digit ((dateDigits t.Date).headD 0) :: ((dateDigits t.Date).map digit).tail := by
      simp [dateDigits]
    have hlt : (dateDigits t.Date).headD 0 < 10 :=
      dateDigits_lt t.Date _ (by simp [dateDigits])
    have h1 := getMonitorCollectionName_data m t hy0 hy1
    have h2 : (m.getMonitorCollectionName cutoff).data =
        (m.MonitorConnPrefix.data ++ ['_']) ++
          '-' :: (rest ++ appendInt cutoff.Date.month 2 ++ appendInt cutoff.Date.day 2) := by
      simp [MongoDB.getMonitorCollectionName, Time.Format20060102, String.data_append, hrest]
    rw [strLess, h1, h2, lexLess_append_left, hd]
    exact lexLess_digit_minus _ hlt _ _

/-- C25: whatever `DropMonitorCollectionsOlderThan(days)` run at the instant `now` does
and returns, the database afterwards holds no collection it did not hold before, and it
still holds, as it was, every collection whose name does not start with the monitor prefix,
every collection named for a day with a four-digit year that is not earlier than the day of
`now` minus `days` days, and every other collection that the loop does not pick (one whose
name does not start with the prefix or does not sort below the cutoff name). -/
theorem DropMonitorCollectionsOlderThan_frame (m : MongoDB) (now : Time)
    (listErr : Option Error) (dropErr : String → Option Error) (days : Int) (db : Database) :
    (∀ x ∈ (m.DropMonitorCollectionsOlderThan now listErr dropErr days db).1, x ∈ db) ∧
    (∀ x ∈ db, HasPrefix x.name m.MonitorConnPrefix = false →
      x ∈ (m.DropMonitorCollectionsOlderThan now listErr dropErr days db).1) ∧
    (∀ x ∈ db, ∀ t : Time, 0 ≤ t.Date.year → t.Date.year ≤ 9999 →
      x.name = m.getMonitorCollectionName t →
      (now.AddDays (-days)).dayNumber ≤ t.dayNumber →
      x ∈ (m.DropMonitorCollectionsOlderThan now listErr dropErr days db).1) ∧
    (∀ x ∈ db, ¬ (HasPrefix x.name m.MonitorConnPrefix = true ∧
        strLess x.name (m.getMonitorCollectionName (now.AddDays (-days))) = true) →
      x ∈ (m.DropMonitorCollectionsOlderThan now listErr dropErr days db).1) := by
  have key : (∀ x ∈ (m.DropMonitorCollectionsOlderThan now listErr dropErr days db).1, x ∈ db) ∧
      (∀ x ∈ db, ¬ (HasPrefix x.name m.MonitorConnPrefix = true ∧
        strLess x.name (m.getMonitorCollectionName (now.AddDays (-days))) = true) →
      x ∈ (m.DropMonitorCollectionsOlderThan now listErr dropErr days db).1) := by
    unfold MongoDB.DropMonitorCollectionsOlderThan
    cases listErr with
    | some e => exact ⟨fun x hx => hx, fun x hx _ => hx⟩
    | none => exact dropOlder_keeps _ _ _ _ db
  refine ⟨key.1, ?_, ?_, key.2⟩
  · intro x hx hpre
    exact key.2 x hx (by simp [hpre])
  · intro x hx t hy0 hy1 hname hday
    apply key.2 x hx
    rw [hname, strLess_name_of_day_le m t _ hy0 hy1 hday]
    simp

/-- A run of the retention on 2020-12-31 with 30 days: the partition of 2020-11-30 is
dropped; those of 2020-12-01 and 2020-12-02 and the billing collection are kept. -/
theorem DropMonitorCollectionsOlderThan_sample :
    ((defaultMongoDB.DropMonitorCollectionsOlderThan (Time.ofDay 18627) none (fun _ => none) 30
      [Collection.empty "monitor_20201130", Collection.empty "monitor_20201201",
        Collection.empty "billing", Collection.empty "monitor_20201202"]).1.map
          (fun c => c.name)) = ["monitor_20201201", "billing", "monitor_20201202"] := by
  decide

/-! ## The totals of a range query -/

theorem timeMatch_congr (s1 s2 : BillingRecordQuerySpec) (hs : s1.StartTime = s2.StartTime)
    (he : s1.EndTime = s2.EndTime) : timeMatch s1 = timeMatch s2 := by
  funext b
  simp only [timeMatch, hs, he]

theorem rechargePipeline_congr (s1 s2 : BillingRecordQuerySpec) (owner : String)
    (docs : List Billing) (hs : s1.StartTime = s2.StartTime) (he : s1.EndTime = s2.EndTime) :
    rechargePipeline s1 owner docs = rechargePipeline s2 owner docs := by
  simp only [rechargePipeline, timeMatch_congr s1 s2 hs he]

theorem deductionPipeline_congr (s1 s2 : BillingRecordQuerySpec) (owner : String)
    (docs : List Billing) (hs : s1.StartTime = s2.StartTime) (he : s1.EndTime = s2.EndTime) :
    deductionPipeline s1 owner docs = deductionPipeline s2 owner docs := by
  simp only [deductionPipeline, timeMatch_congr s1 s2 hs he]

/-- C26: two range queries of one owner on one store with the same start time and the same
end time that both return no error give the same `RechargeAmount` and the same
`DeductionAmount`, whatever their types, namespaces, app types, pages and page sizes. -/
theorem QueryBillingRecords_totals_independent (m : MongoDB) (reg : PropertyTypeLS)
    (faults1 faults2 : QueryFaults) (query1 query2 : BillingRecordQuery) (owner : String)
    (db : Database)
    (hid1 : query1.Spec.OrderID = "") (hid2 : query2.Spec.OrderID = "")
    (hstart : query1.Spec.StartTime = query2.Spec.StartTime)
    (hend : query1.Spec.EndTime = query2.Spec.EndTime)
    (hok1 : (m.QueryBillingRecords reg faults1 query1 owner db).2 = none)
    (hok2 : (m.QueryBillingRecords reg faults2 query2 owner db).2 = none) :
    (m.QueryBillingRecords reg faults1 query1 owner db).1.Status.RechargeAmount =
      (m.QueryBillingRecords reg faults2 query2 owner db).1.Status.RechargeAmount ∧
    (m.QueryBillingRecords reg faults1 query1 owner db).1.Status.DeductionAmount =
      (m.QueryBillingRecords reg faults2 query2 owner db).1.Status.DeductionAmount := by
  obtain ⟨a1, a2, a3, a4⟩ := QueryBillingRecords_ok m reg faults1 query1 owner db hid1 hok1
  obtain ⟨b1, b2, b3, b4⟩ := QueryBillingRecords_ok m reg faults2 query2 owner db hid2 hok2
  obtain ⟨_, _, _, _, _, c1, c2⟩ :=
    QueryBillingRecords_range m reg faults1 query1 owner db hid1 a1 a4 a2 a3
  obtain ⟨_, _, _, _, _, d1, d2⟩ :=
    QueryBillingRecords_range m reg faults2 query2 owner db hid2 b1 b4 b2 b3
  rw [c1, c2, d1, d2, rechargePipeline_congr _ _ _ _ hstart hend,
    deductionPipeline_congr _ _ _ _ hstart hend]
  exact ⟨rfl, rfl⟩

/-- C26 on a store with a consumption and two recharges: the query for every order, page 1
of size 10, and the query for the consumptions of the apps of `ns-a`, page 2 of size 1,
both give the recharge amount 1200. -/
theorem QueryBillingRecords_totals_independent_witness :
    ((hourQuery 1 10).Spec.OrderID = "" ∧ (filteredQuery 0 "ns-a" "app" 2 1).Spec.OrderID = "" ∧
      (hourQuery 1 10).Spec.StartTime = (filteredQuery 0 "ns-a" "app" 2 1).Spec.StartTime ∧
      (hourQuery 1 10).Spec.EndTime = (filteredQuery 0 "ns-a" "app" 2 1).Spec.EndTime ∧
      (defaultMongoDB.QueryBillingRecords DefaultPropertyTypeLS QueryFaults.none
        (hourQuery 1 10) "owner"
        (billingOnly [webAndDb, rechargeOf "a" noon 500, rechargeOf "b" onePm 700])).2 = none ∧
      (defaultMongoDB.QueryBillingRecords DefaultPropertyTypeLS QueryFaults.none
        (filteredQuery 0 "ns-a" "app" 2 1) "owner"
        (billingOnly [webAndDb, rechargeOf "a" noon 500, rechargeOf "b" onePm 700])).2 = none) ∧
    (defaultMongoDB.QueryBillingRecords DefaultPropertyTypeLS QueryFaults.none
      (hourQuery 1 10) "owner"
      (billingOnly [webAndDb, rechargeOf "a" noon 500,
        rechargeOf "b" onePm 700])).1.Status.TotalCount = 3 ∧
    (defaultMongoDB.QueryBillingRecords DefaultPropertyTypeLS QueryFaults.none
      (filteredQuery 0 "ns-a" "app" 2 1) "owner"
      (billingOnly [webAndDb, rechargeOf "a" noon 500,
        rechargeOf "b" onePm 700])).1.Status.TotalCount = 1 ∧
    (defaultMongoDB.QueryBillingRecords DefaultPropertyTypeLS QueryFaults.none
      (filteredQuery 0 "ns-a" "app" 2 1) "owner"
      (billingOnly [webAndDb, rechargeOf "a" noon 500,
        rechargeOf "b" onePm 700])).1.Status.RechargeAmount = 1200 ∧
    ((defaultMongoDB.QueryBillingRecords DefaultPropertyTypeLS QueryFaults.none
      (hourQuery 1 10) "owner"
      (billingOnly [webAndDb, rechargeOf "a" noon 500,
        rechargeOf "b" onePm 700])).1.Status.RechargeAmount =
      (defaultMongoDB.QueryBillingRecords DefaultPropertyTypeLS QueryFaults.none
        (filteredQuery 0 "ns-a" "app" 2 1) "owner"
        (billingOnly [webAndDb, rechargeOf "a" noon 500,
          rechargeOf "b" onePm 700])).1.Status.RechargeAmount ∧
    (defaultMongoDB.QueryBillingRecords DefaultPropertyTypeLS QueryFaults.none
      (hourQuery 1 10) "owner"
      (billingOnly [webAndDb, rechargeOf "a" noon 500,
        rechargeOf "b" onePm 700])).1.Status.DeductionAmount =
      (defaultMongoDB.QueryBillingRecords DefaultPropertyTypeLS QueryFaults.none
        (filteredQuery 0 "ns-a" "app" 2 1) "owner"
        (billingOnly [webAndDb, rechargeOf "a" noon 500,
          rechargeOf "b" onePm 700])).1.Status.DeductionAmount) :=
  ⟨⟨by decide, by decide, by decide, by decide, by decide, by decide⟩, by decide, by decide,
    by decide,
    QueryBillingRecords_totals_independent defaultMongoDB DefaultPropertyTypeLS
      QueryFaults.none QueryFaults.none (hourQuery 1 10) (filteredQuery 0 "ns-a" "app" 2 1)
      "owner" (billingOnly [webAndDb, rechargeOf "a" noon 500, rechargeOf "b" onePm 700])
      (by decide) (by decide) (by decide) (by decide) (by decide) (by decide)⟩

/-! ## The rows of the usage aggregation -/

theorem sameGroup_iff (a b : Monitor) :
    sameGroup a b = true ↔ a.Type_ = b.Type_ ∧ a.Name = b.Name ∧ a.Category = b.Category := by
  simp [sameGroup, and_assoc]

theorem sameGroup_refl (a : Monitor) : sameGroup a a = true := by
  simp [sameGroup_iff]

theorem sameGroup_congr (a b : Monitor) (h : sameGroup a b = true) :
    sameGroup a = sameGroup b := by
  funext z
  rw [sameGroup_iff] at h
  rw [Bool.eq_iff_iff, sameGroup_iff, sameGroup_iff, h.1, h.2.1, h.2.2]

theorem addToGroups_groupsOf (p : List Monitor) (groups : List (List Monitor)) (x : Monitor)
    (h : GroupsOf p groups) : GroupsOf (p ++ [x]) (addToGroups groups x) := by
  obtain ⟨ha, hb⟩ := h
  unfold addToGroups
  by_cases hany : groups.any (fun g => (g.head?.map (fun y => sameGroup y x)).getD false) = true
  · rw [if_pos hany]
    constructor
    · intro g' hg'
      obtain ⟨g, hg, rfl⟩ := List.mem_map.mp hg'
      obtain ⟨y, hy, hhead, hfil⟩ := ha g hg
      have hne : g ≠ [] := by
        intro hnil
        rw [hnil] at hhead
        simp at hhead
      refine ⟨y, List.mem_append_left _ hy, ?_, ?_⟩
      · split
        · rw [List.head?_append_of_ne_nil _ hne]
          exact hhead
        · exact hhead
      · simp only [hhead, Option.map_some', Option.getD_some]
        by_cases hs : sameGroup y x = true
        · simp [hs, List.filter_append, ← hfil]
        · simp [hs, List.filter_append, ← hfil]
    · intro z hz
      rcases List.mem_append.mp hz with hz | hz
      · obtain ⟨g, hg, y, hhead, hs⟩ := hb z hz
        refine ⟨_, List.mem_map.mpr ⟨g, hg, rfl⟩, y, ?_, hs⟩
        have hne : g ≠ [] := by
          intro hnil
          rw [hnil] at hhead
          simp at hhead
        split
        · rw [List.head?_append_of_ne_nil _ hne]
          exact hhead
        · exact hhead
      · simp only [List.mem_singleton] at hz
        subst hz
        obtain ⟨g, hg, hgx⟩ := List.any_eq_true.mp hany
        cases hhead : g.head? with
        | none => simp [hhead] at hgx
        | some y =>
          simp only [hhead, Option.map_some', Option.getD_some] at hgx
          refine ⟨_, List.mem_map.mpr ⟨g, hg, rfl⟩, y, ?_, hgx⟩
          have hne : g ≠ [] := by
            intro hnil
            rw [hnil] at hhead
            simp at hhead
          simp only [hhead, Option.map_some', Option.getD_some, hgx, if_true]
          rw [List.head?_append_of_ne_nil _ hne]
          exact hhead
  · rw [if_neg hany]
    have hnone : ∀ z ∈ p, sameGroup x z = false := by
      intro z hz
      rw [Bool.eq_false_iff]
      intro hxz
      apply hany
      obtain ⟨g, hg, y, hhead, hs⟩ := hb z hz
      refine List.any_eq_true.mpr ⟨g, hg, ?_⟩
      simp only [hhead, Option.map_some', Option.getD_some]
      rw [sameGroup_iff] at hxz hs ⊢
      exact ⟨hs.1.trans hxz.1.symm, hs.2.1.trans hxz.2.1.symm, hs.2.2.trans hxz.2.2.symm⟩
    constructor
    · intro g hg
      rcases List.mem_append.mp hg with hg | hg
      · obtain ⟨y, hy, hhead, hfil⟩ := ha g hg
        refine ⟨y, List.mem_append_left _ hy, hhead, ?_⟩
        have hyx : sameGroup y x = false := by
          rw [Bool.eq_false_iff]
          intro hs
          apply hany
          exact List.any_eq_true.mpr ⟨g, hg, by simp [hhead, hs]⟩
        simp [List.filter_append, hyx, ← hfil]
      · simp only [List.mem_singleton] at hg
        subst hg
        refine ⟨x, by simp, rfl, ?_⟩
        have : p.filter (sameGroup x) = [] := by
          rw [List.filter_eq_nil_iff]
          intro z hz
          simp [hnone z hz]
        simp [List.filter_append, this, sameGroup_refl]
    · intro z hz
      rcases List.mem_append.mp hz with hz | hz
      · obtain ⟨g, hg, y, hhead, hs⟩ := hb z hz
        exact ⟨g, List.mem_append_left _ hg, y, hhead, hs⟩
      · simp only [List.mem_singleton] at hz
        subst hz
        exact ⟨[z], by simp, z, rfl, sameGroup_refl z⟩

theorem groupMonitors_groupsOf (l : List Monitor) : GroupsOf l (groupMonitors l) := by
  have key : ∀ (rest p : List Monitor) (groups : List (List Monitor)),
      GroupsOf p groups → GroupsOf (p ++ rest) (rest.foldl addToGroups groups) := by
    intro rest
    induction rest with
    | nil => intro p groups h; simpa using h
    | cons x rest ih =>
      intro p groups h
      have := ih (p ++ [x]) (addToGroups groups x) (addToGroups_groupsOf p groups x h)
      simpa using this
  have := key l [] [] ⟨by simp, by simp⟩
  simpa [groupMonitors] using this

/-- The rows of the pipeline: every sample of the window has a row, the row of its group,
and every row is the row of the group of a sample of the window. The group of a sample is
made of the samples of the window with its type, name and category. -/
theorem billingRows_groups (m : MongoDB) (db : Database) (startTime endTime : Time)
    (prols : PropertyTypeLS) (namespaces : List String) :
    (∀ x ∈ m.billingWindow db startTime endTime namespaces,
      ∃ y ∈ m.billingWindow db startTime endTime namespaces, sameGroup y x = true ∧
        rowOfGroup prols (endTime.unixNano - startTime.unixNano) y
          ((m.billingWindow db startTime endTime namespaces).filter (sameGroup x)) ∈
          m.billingRows db startTime endTime prols namespaces) ∧
    (∀ row ∈ m.billingRows db startTime endTime prols namespaces,
      ∃ y ∈ m.billingWindow db startTime endTime namespaces,
        row = rowOfGroup prols (endTime.unixNano - startTime.unixNano) y
          ((m.billingWindow db startTime endTime namespaces).filter (sameGroup y))) := by
  obtain ⟨ha, hb⟩ := groupMonitors_groupsOf (m.billingWindow db startTime endTime namespaces)
  have hrows : m.billingRows db startTime endTime prols namespaces =
      (groupMonitors (m.billingWindow db startTime endTime namespaces)).filterMap (fun g =>
        g.head?.map (fun first =>
          rowOfGroup prols (endTime.unixNano - startTime.unixNano) first g)) := rfl
  constructor
  · intro x hx
    obtain ⟨g, hg, y, hhead, hs⟩ := hb x hx
    obtain ⟨y', hy', hhead', hfil⟩ := ha g hg
    have hyy : y' = y := by
      rw [hhead] at hhead'
      exact (Option.some.inj hhead').symm
    subst hyy
    refine ⟨y', hy', hs, ?_⟩
    rw [hrows, List.mem_filterMap]
    refine ⟨g, hg, ?_⟩
    rw [hhead, Option.map_some', hfil, sameGroup_congr _ _ hs]
  · intro row hrow
    rw [hrows, List.mem_filterMap] at hrow
    obtain ⟨g, hg, hmap⟩ := hrow
    obtain ⟨y, hy, hhead, hfil⟩ := ha g hg
    rw [hhead, Option.map_some', Option.some.injEq] at hmap
    exact ⟨y, hy, by rw [← hmap, ← hfil]⟩

theorem roundHalfEven_eq (a b : Int) (hb : 0 < b) :
    roundHalfEven a b = roundToEven ((a : ℚ) / (b : ℚ)) := by
  have hfloor : ⌊((a : ℚ) / (b : ℚ))⌋ = a / b := by
    obtain ⟨n, rfl⟩ := Int.eq_ofNat_of_zero_le hb.le
    rw [Int.cast_natCast]
    exact Rat.floor_intCast_div_natCast a n
  have hbq : (0 : ℚ) < (b : ℚ) := by exact_mod_cast hb
  have hfrac : (a : ℚ) / (b : ℚ) - ((a / b : ℤ) : ℚ) = ((a % b : ℤ) : ℚ) / (b : ℚ) := by
    have h := Int.emod_add_ediv a b
    have h2 : (a : ℚ) = ((a % b : ℤ) : ℚ) + (b : ℚ) * ((a / b : ℤ) : ℚ) := by
      exact_mod_cast h.symm
    rw [div_sub' _ _ _ hbq.ne', eq_comm, div_eq_div_iff hbq.ne' hbq.ne']
    rw [h2]
    ring
  have hlt : ((a % b : ℤ) : ℚ) / (b : ℚ) < 1 / 2 ↔ 2 * (a % b) < b := by
    rw [div_lt_div_iff₀ hbq (by norm_num)]
    constructor
    · intro h
      have : ((2 * (a % b) : ℤ) : ℚ) < ((b : ℤ) : ℚ) := by
        push_cast
        linarith
      exact_mod_cast this
    · intro h
      have : ((2 * (a % b) : ℤ) : ℚ) < ((b : ℤ) : ℚ) := by exact_mod_cast h
      push_cast at this
      linarith
  have hgt : 1 / 2 < ((a % b : ℤ) : ℚ) / (b : ℚ) ↔ b < 2 * (a % b) := by
    rw [div_lt_div_iff₀ (by norm_num) hbq]
    constructor
    · intro h
      have : ((b : ℤ) : ℚ) < ((2 * (a % b) : ℤ) : ℚ) := by
        push_cast
        linarith
      exact_mod_cast this
    · intro h
      have : ((b : ℤ) : ℚ) < ((2 * (a % b) : ℤ) : ℚ) := by exact_mod_cast h
      push_cast at this
      linarith
  unfold roundHalfEven roundToEven
  simp only [hfloor, hfrac, hlt, hgt]

theorem roundToEven_mono (p q : ℚ) (h : p ≤ q) : roundToEven p ≤ roundToEven q := by
  have hp1 : ⌊p⌋ ≤ roundToEven p ∧ roundToEven p ≤ ⌊p⌋ + 1 := by
    unfold roundToEven
    split_ifs <;> omega
  have hq1 : ⌊q⌋ ≤ roundToEven q ∧ roundToEven q ≤ ⌊q⌋ + 1 := by
    unfold roundToEven
    split_ifs <;> omega
  have hfl : ⌊p⌋ ≤ ⌊q⌋ := Int.floor_mono h
  rcases lt_or_eq_of_le hfl with hlt | heq
  · omega
  · unfold roundToEven
    rw [heq]
    have hfr : p - (⌊q⌋ : ℚ) ≤ q - (⌊q⌋ : ℚ) := by linarith
    split_ifs <;> first | omega | (exfalso; linarith)

theorem int_max?_eq (xs : List Int) (hi : Int) (h1 : hi ∈ xs) (h2 : ∀ v ∈ xs, v ≤ hi) :
    xs.max? = some hi := by
  cases hm : xs.max? with
  | none =>
    rw [List.max?_eq_none_iff] at hm
    rw [hm] at h1
    simp at h1
  | some w =>
    have hw := List.max?_mem (fun a b : Int => max_choice a b) hm
    have hle := (List.max?_le_iff (fun a b c : Int => max_le_iff) hm (x := w)).mp (le_refl w)
    have : w = hi := le_antisymm (h2 w hw) (hle hi h1)
    rw [this]

theorem int_min?_eq (xs : List Int) (lo : Int) (h1 : lo ∈ xs) (h2 : ∀ v ∈ xs, lo ≤ v) :
    xs.min? = some lo := by
  cases hm : xs.min? with
  | none =>
    rw [List.min?_eq_none_iff] at hm
    rw [hm] at h1
    simp at h1
  | some w =>
    have hw := List.min?_mem (fun a b : Int => min_choice a b) hm
    have hle := (List.le_min?_iff (fun a b c : Int => le_min_iff) hm (x := w)).mp (le_refl w)
    have : w = lo := le_antisymm (hle lo h1) (h2 w hw)
    rw [this]

/-- The value of a `DIF` property of a group: the maximum of the values less the minimum of
the values other than 0, when there are such; 0 for a group of one sample. -/
theorem groupUsed_dif (nanos : Int) (prop : PropertyType) (key : Nat) (g : List Monitor)
    (hdif : prop.PriceType = DIF) :
    (∀ hi lo : Int,
      hi ∈ g.filterMap (fun x => NatMap.get? x.Used key) →
      (∀ v ∈ g.filterMap (fun x => NatMap.get? x.Used key), v ≤ hi) →
      lo ∈ g.filterMap (fun x => NatMap.get? x.Used key) → lo ≠ 0 →
      (∀ v ∈ g.filterMap (fun x => NatMap.get? x.Used key), v ≠ 0 → lo ≤ v) →
      groupUsed nanos prop key g = hi - lo) ∧
    (g.length = 1 → groupUsed nanos prop key g = 0) := by
  have hd : (prop.PriceType == DIF) = true := by simp [hdif]
  constructor
  · intro hi lo h1 h2 h3 h4 h5
    have hmax := int_max?_eq _ hi h1 h2
    have hmin : ((g.filterMap (fun x => NatMap.get? x.Used key)).filter
        (fun v => v != 0)).min? = some lo := by
      apply int_min?_eq
      · simp only [List.mem_filter]
        exact ⟨h3, by simpa using h4⟩
      · intro v hv
        simp only [List.mem_filter] at hv
        exact h5 v hv.1 (by simpa using hv.2)
    simp only [groupUsed, hd, if_true, hmax, hmin]
  · intro hlen
    obtain ⟨x, rfl⟩ := List.length_eq_one.mp hlen
    simp only [groupUsed, hd, if_true, List.filterMap_cons, List.filterMap_nil]
    cases hg : NatMap.get? x.Used key with
    | none => simp
    | some v =>
      by_cases hv : v = 0
      · subst hv
        simp [List.max?, List.min?]
      · simp [List.max?, List.min?, hv]

/-- C23: for every sample of the window and every `DIF` property of the registry, the row
that the pipeline of `GenerateBillingData` projects for the group of the sample (the
samples of the window with its type, name and category) carries for the property the
maximum of the values of the group less the minimum of the values of the group other than
0, and 0 when the group has one sample only. -/
theorem billingRows_dif (m : MongoDB) (db : Database) (startTime endTime : Time)
    (prols : PropertyTypeLS) (namespaces : List String) (x : Monitor) (kp : Nat × PropertyType)
    (hx : x ∈ m.billingWindow db startTime endTime namespaces)
    (hkp : kp ∈ prols.EnumMap) (hdif : kp.2.PriceType = DIF) :
    ∃ row ∈ m.billingRows db startTime endTime prols namespaces,
      row.Type_ = x.Type_ ∧ row.Name = x.Name ∧ row.Namespace = x.Category ∧
      ∃ used : Int, (kp.1, used) ∈ row.Used ∧
        (∀ hi lo : Int,
          hi ∈ ((m.billingWindow db startTime endTime namespaces).filter
            (sameGroup x)).filterMap (fun y => NatMap.get? y.Used kp.1) →
          (∀ v ∈ ((m.billingWindow db startTime endTime namespaces).filter
            (sameGroup x)).filterMap (fun y => NatMap.get? y.Used kp.1), v ≤ hi) →
          lo ∈ ((m.billingWindow db startTime endTime namespaces).filter
            (sameGroup x)).filterMap (fun y => NatMap.get? y.Used kp.1) → lo ≠ 0 →
          (∀ v ∈ ((m.billingWindow db startTime endTime namespaces).filter
            (sameGroup x)).filterMap (fun y => NatMap.get? y.Used kp.1), v ≠ 0 → lo ≤ v) →
          used = hi - lo) ∧
        (((m.billingWindow db startTime endTime namespaces).filter (sameGroup x)).length = 1 →
          used = 0) := by
  obtain ⟨y, _, hs, hrow⟩ := (billingRows_groups m db startTime endTime prols namespaces).1 x hx
  rw [sameGroup_iff] at hs
  exact ⟨_, hrow, hs.1, hs.2.1, hs.2.2,
    groupUsed (endTime.unixNano - startTime.unixNano) kp.2 kp.1
      ((m.billingWindow db startTime endTime namespaces).filter (sameGroup x)),
    List.mem_map.mpr ⟨kp, hkp, rfl⟩, groupUsed_dif _ kp.2 kp.1 _ hdif⟩

/-- The value of a property that is not `DIF` of a group with at least one sample: the sum
of the values divided by the larger of the count of the group and the minutes of the
window, rounded; the divisor is above 0; and when the sum is not negative the value is at
most the rounded average of the group. -/
theorem groupUsed_avg (nanos : Int) (prop : PropertyType) (key : Nat) (g : List Monitor)
    (hnd : prop.PriceType ≠ DIF) (hg : g ≠ []) :
    0 < max (g.length : ℚ) ((nanos : ℚ) / 60000000000) ∧
    groupUsed nanos prop key g =
      roundToEven ((((g.filterMap (fun x => NatMap.get? x.Used key)).sum : Int) : ℚ) /
        max (g.length : ℚ) ((nanos : ℚ) / 60000000000)) ∧
    (0 ≤ (g.filterMap (fun x => NatMap.get? x.Used key)).sum →
      groupUsed nanos prop key g ≤
        roundToEven ((((g.filterMap (fun x => NatMap.get? x.Used key)).sum : Int) : ℚ) /
          (g.length : ℚ))) := by
  have hd : (prop.PriceType == DIF) = false := by simpa using hnd
  have hlen : 0 < g.length := List.length_pos.mpr hg
  have hlenq : (0 : ℚ) < (g.length : ℚ) := by exact_mod_cast hlen
  have hpos : 0 < max (g.length : ℚ) ((nanos : ℚ) / 60000000000) :=
    lt_of_lt_of_le hlenq (le_max_left _ _)
  have hval : groupUsed nanos prop key g =
      roundToEven ((((g.filterMap (fun x => NatMap.get? x.Used key)).sum : Int) : ℚ) /
        max (g.length : ℚ) ((nanos : ℚ) / 60000000000)) := by
    simp only [groupUsed, hd, Bool.false_eq_true, if_false]
    by_cases hc : (g.length : Int) * 60000000000 > nanos
    · rw [if_pos hc, roundHalfEven_eq _ _ (by exact_mod_cast hlen)]
      have hmax : max (g.length : ℚ) ((nanos : ℚ) / 60000000000) = (g.length : ℚ) := by
        apply max_eq_left
        rw [div_le_iff₀ (by norm_num)]
        have : ((nanos : ℤ) : ℚ) ≤ (((g.length : Int) * 60000000000 : ℤ) : ℚ) := by
          exact_mod_cast hc.le
        push_cast at this
        linarith
      rw [hmax, Int.cast_natCast]
    · rw [if_neg hc]
      have hn : (0 : Int) < nanos := by omega
      rw [roundHalfEven_eq _ _ hn]
      have hmax : max (g.length : ℚ) ((nanos : ℚ) / 60000000000) = (nanos : ℚ) / 60000000000 := by
        apply max_eq_right
        rw [le_div_iff₀ (by norm_num)]
        have : (((g.length : Int) * 60000000000 : ℤ) : ℚ) ≤ ((nanos : ℤ) : ℚ) := by
          exact_mod_cast (not_lt.mp hc)
        push_cast at this
        linarith
      rw [hmax]
      congr 1
      have hnq : (nanos : ℚ) ≠ 0 := by
        have : (0 : ℚ) < (nanos : ℚ) := by exact_mod_cast hn
        exact this.ne'
      push_cast
      field_simp
  refine ⟨hpos, hval, ?_⟩
  intro hsum
  rw [hval]
  apply roundToEven_mono
  apply div_le_div_of_nonneg_left _ hlenq (le_max_left _ _)
  exact_mod_cast hsum

/-- C24, amended: for every sample of the window and every property of the registry that is
not `DIF`, the row that the pipeline of `GenerateBillingData` projects for the group of the
sample carries for the property the sum of the values of the group divided by the larger of
the count of the group and the minutes of the window, rounded to an integer; the count is
at least 1 and the divisor above 0; and when the sum is not negative, the value is at most
the rounded average of the group. -/
theorem billingRows_avg (m : MongoDB) (db : Database) (startTime endTime : Time)
    (prols : PropertyTypeLS) (namespaces : List String) (x : Monitor) (kp : Nat × PropertyType)
    (hx : x ∈ m.billingWindow db startTime endTime namespaces)
    (hkp : kp ∈ prols.EnumMap) (hnd : kp.2.PriceType ≠ DIF) :
    ∃ row ∈ m.billingRows db startTime endTime prols namespaces,
      row.Type_ = x.Type_ ∧ row.Name = x.Name ∧ row.Namespace = x.Category ∧
      ∃ used : Int, (kp.1, used) ∈ row.Used ∧
        1 ≤ ((m.billingWindow db startTime endTime namespaces).filter (sameGroup x)).length ∧
        0 < max
          (((m.billingWindow db startTime endTime namespaces).filter (sameGroup x)).length : ℚ)
          (((endTime.unixNano - startTime.unixNano : Int) : ℚ) / 60000000000) ∧
        used = roundToEven
          ((((((m.billingWindow db startTime endTime namespaces).filter
              (sameGroup x)).filterMap (fun y => NatMap.get? y.Used kp.1)).sum : Int) : ℚ) /
            max
              (((m.billingWindow db startTime endTime namespaces).filter
                (sameGroup x)).length : ℚ)
              (((endTime.unixNano - startTime.unixNano : Int) : ℚ) / 60000000000)) ∧
        (0 ≤ (((m.billingWindow db startTime endTime namespaces).filter
            (sameGroup x)).filterMap (fun y => NatMap.get? y.Used kp.1)).sum →
          used ≤ roundToEven
            ((((((m.billingWindow db startTime endTime namespaces).filter
                (sameGroup x)).filterMap (fun y => NatMap.get? y.Used kp.1)).sum : Int) : ℚ) /
              (((m.billingWindow db startTime endTime namespaces).filter
                (sameGroup x)).length : ℚ))) := by
  obtain ⟨y, _, hs, hrow⟩ := (billingRows_groups m db startTime endTime prols namespaces).1 x hx
  rw [sameGroup_iff] at hs
  have hmem : x ∈ (m.billingWindow db startTime endTime namespaces).filter (sameGroup x) :=
    List.mem_filter.mpr ⟨hx, sameGroup_refl x⟩
  have hne : (m.billingWindow db startTime endTime namespaces).filter (sameGroup x) ≠ [] :=
    List.ne_nil_of_mem hmem
  obtain ⟨h1, h2, h3⟩ := groupUsed_avg (endTime.unixNano - startTime.unixNano) kp.2 kp.1 _ hnd hne
  exact ⟨_, hrow, hs.1, hs.2.1, hs.2.2,
    groupUsed (endTime.unixNano - startTime.unixNano) kp.2 kp.1
      ((m.billingWindow db startTime endTime namespaces).filter (sameGroup x)),
    List.mem_map.mpr ⟨kp, hkp, rfl⟩, List.length_pos.mpr hne, h1, h2, h3⟩

/-! ## Status updates -/

theorem setFirstStatus_length (id : String) (s : BillingStatus) (l : List Billing) :
    (setFirstStatus id s l).length = l.length := by
  induction l with
  | nil => rfl
  | cons b bs ih =>
    unfold setFirstStatus
    split
    · rfl
    · simp [ih]

/-- The order at a place after the update: the order that was there, or that order with
the new status when it is the first one with the id. -/
theorem setFirstStatus_getElem? (id : String) (s : BillingStatus) (l : List Billing) :
    ∀ (i : Nat) (b : Billing), l[i]? = some b →
      (setFirstStatus id s l)[i]? =
        some (if b.OrderID = id ∧ ∀ j < i, ∀ c, l[j]? = some c → c.OrderID ≠ id then
          { b with Status := s } else b) := by
  induction l with
  | nil => intro i b h; simp at h
  | cons a as ih =>
    intro i b h
    unfold setFirstStatus
    by_cases ha : (a.OrderID == id) = true
    · rw [if_pos ha]
      have ha2 : a.OrderID = id := by simpa using ha
      cases i with
      | zero =>
        simp only [List.getElem?_cons_zero, Option.some.injEq] at h ⊢
        subst h
        simp [ha2]
      | succ i =>
        simp only [List.getElem?_cons_succ] at h ⊢
        rw [h]
        have : ¬ (b.OrderID = id ∧ ∀ j < i + 1, ∀ c, (a :: as)[j]? = some c → c.OrderID ≠ id) := by
          rintro ⟨_, h2⟩
          exact h2 0 (by omega) a (by simp) ha2
        rw [if_neg this]
    · rw [if_neg ha]
      have ha2 : a.OrderID ≠ id := by simpa using ha
      cases i with
      | zero =>
        simp only [List.getElem?_cons_zero, Option.some.injEq] at h ⊢
        subst h
        simp [ha2]
      | succ i =>
        simp only [List.getElem?_cons_succ] at h ⊢
        rw [ih i b h]
        congr 1
        have hiff : (b.OrderID = id ∧ ∀ j < i, ∀ c, as[j]? = some c → c.OrderID ≠ id) ↔
            (b.OrderID = id ∧ ∀ j < i + 1, ∀ c, (a :: as)[j]? = some c → c.OrderID ≠ id) := by
          constructor
          · rintro ⟨h1, h2⟩
            refine ⟨h1, ?_⟩
            intro j hj c hc
            cases j with
            | zero =>
              simp only [List.getElem?_cons_zero, Option.some.injEq] at hc
              rw [← hc]
              exact ha2
            | succ j =>
              simp only [List.getElem?_cons_succ] at hc
              exact h2 j (by omega) c hc
          · rintro ⟨h1, h2⟩
            refine ⟨h1, ?_⟩
            intro j hj c hc
            exact h2 (j + 1) (by omega) c (by simpa using hc)
        by_cases hc : b.OrderID = id ∧ ∀ j < i, ∀ c, as[j]? = some c → c.OrderID ≠ id
        · rw [if_pos hc, if_pos (hiff.mp hc)]
        · rw [if_neg hc, if_neg (fun h => hc (hiff.mpr h))]

/-- When at most one order has the id, every order with the id has the new status after the
update. -/
theorem setFirstStatus_unique (id : String) (s : BillingStatus) (l : List Billing)
    (h : (l.filter (fun b => b.OrderID == id)).length ≤ 1) :
    ∀ b ∈ setFirstStatus id s l, b.OrderID = id → b.Status = s := by
  induction l with
  | nil => intro b hb; simp [setFirstStatus] at hb
  | cons a as ih =>
    intro b hb hid
    unfold setFirstStatus at hb
    by_cases ha : (a.OrderID == id) = true
    · rw [if_pos ha] at hb
      simp only [List.filter_cons, ha, if_true, List.length_cons] at h
      have hnil : as.filter (fun b => b.OrderID == id) = [] :=
        List.length_eq_zero.mp (by omega)
      rcases List.mem_cons.mp hb with rfl | hb
      · rfl
      · exfalso
        have : b ∈ as.filter (fun b => b.OrderID == id) :=
          List.mem_filter.mpr ⟨hb, by simpa using hid⟩
        rw [hnil] at this
        simp at this
    · rw [if_neg ha] at hb
      simp only [List.filter_cons, ha, Bool.false_eq_true, if_false] at h
      rcases List.mem_cons.mp hb with rfl | hb
      · exfalso
        exact ha (by simpa using hid)
      · exact ih h b hb hid

/-- The orders of the billing collection after `UpdateBillingStatus` without a fault. -/
theorem UpdateBillingStatus_billings (m : MongoDB) (id : String) (s : BillingStatus)
    (db : Database) :
    ((m.UpdateBillingStatus none id s db).1.coll m.BillingConn).billings =
      setFirstStatus id s (db.coll m.BillingConn).billings := by
  simp only [MongoDB.UpdateBillingStatus, Database.coll]
  induction db with
  | nil => simp [Collection.empty, setFirstStatus]
  | cons c cs ih =>
    by_cases hc : (c.name == m.BillingConn) = true
    · simp [List.find?, hc]
    · simp only [Bool.not_eq_true] at hc
      simp only [List.map_cons, hc, Bool.false_eq_true, if_false, List.find?]
      exact ih

/-- C23 on scenario S5: four samples of one group with the values 0, 50, 100 and 200 of
`network` give the row value 150, and a group of one sample gives 0. -/
theorem billingRows_dif_witness :
    ((networkSample noon.unixNano 0 ∈ defaultMongoDB.billingWindow
        (monitorOnly (networkSamplesFrom noon.unixNano [0, 50, 100, 200])) noon onePm ["ns-a"] ∧
      networkProperty ∈ DefaultPropertyTypeLS.EnumMap ∧ networkProperty.2.PriceType = DIF) ∧
    (defaultMongoDB.billingRows (monitorOnly (networkSamplesFrom noon.unixNano [0, 50, 100, 200]))
      noon onePm DefaultPropertyTypeLS ["ns-a"]).map (fun r => r.Used) =
        [[(0, 0), (1, 0), (2, 0), (3, 150)]] ∧
    (defaultMongoDB.billingRows (monitorOnly (networkSamplesFrom noon.unixNano [70]))
      noon onePm DefaultPropertyTypeLS ["ns-a"]).map (fun r => r.Used) =
        [[(0, 0), (1, 0), (2, 0), (3, 0)]]) ∧
    ∃ row ∈ defaultMongoDB.billingRows
        (monitorOnly (networkSamplesFrom noon.unixNano [0, 50, 100, 200])) noon onePm
        DefaultPropertyTypeLS ["ns-a"],
      row.Type_ = (networkSample noon.unixNano 0).Type_ ∧
      row.Name = (networkSample noon.unixNano 0).Name ∧
      row.Namespace = (networkSample noon.unixNano 0).Category :=
  ⟨⟨⟨by decide, by decide, by decide⟩, by decide, by decide⟩,
    (billingRows_dif defaultMongoDB
      (monitorOnly (networkSamplesFrom noon.unixNano [0, 50, 100, 200])) noon onePm
      DefaultPropertyTypeLS ["ns-a"] (networkSample noon.unixNano 0) networkProperty
      (by decide) (by decide) (by decide)).imp
      (fun _ h => ⟨h.1, h.2.1, h.2.2.1, h.2.2.2.1⟩)⟩

/-- C24 fails on a negative sum: one sample of `cpu` with the value -120 in the hour gives
the row value -2, the sum divided by the 60 minutes, which is above the rounded average
-120 of the group. -/
theorem billingRows_avg_negative :
    (defaultMongoDB.billingWindow (monitorOnly [cpuSample (-120)]) noon onePm ["ns-a"]).filter
      (sameGroup (cpuSample (-120))) = [cpuSample (-120)] ∧
    (defaultMongoDB.billingRows (monitorOnly [cpuSample (-120)]) noon onePm
      DefaultPropertyTypeLS ["ns-a"]).map (fun r => (r.Type_, r.Name, r.Namespace, r.Used)) =
        [(2, "web", "ns-a", [(0, -2), (1, 0), (2, 0), (3, 0)])] ∧
    roundToEven ((((([cpuSample (-120)].filterMap
      (fun y => NatMap.get? y.Used 0)).sum : Int) : ℚ)) /
        (([cpuSample (-120)].length : Int) : ℚ)) = -120 ∧
    ¬ ((-2 : Int) ≤ roundToEven ((((([cpuSample (-120)].filterMap
      (fun y => NatMap.get? y.Used 0)).sum : Int) : ℚ)) /
        (([cpuSample (-120)].length : Int) : ℚ))) := by
  have h : roundToEven ((((([cpuSample (-120)].filterMap
      (fun y => NatMap.get? y.Used 0)).sum : Int) : ℚ)) /
        (([cpuSample (-120)].length : Int) : ℚ)) = -120 := by
    rw [← roundHalfEven_eq _ _ (by decide)]
    decide
  refine ⟨by decide, by decide, h, ?_⟩
  rw [h]
  decide

/-- The amended C24 on scenario S4: three samples of 20000 of `cpu` in the hour are in one
group, and the row value of the group is 1000. -/
theorem billingRows_avg_witness :
    ((cpuSample 60000 ∈
        defaultMongoDB.billingWindow (monitorOnly [cpuSample 60000]) noon onePm ["ns-a"] ∧
      cpuProperty ∈ DefaultPropertyTypeLS.EnumMap ∧ cpuProperty.2.PriceType ≠ DIF) ∧
    (defaultMongoDB.billingRows (monitorOnly (cpuSamples 3 60000000000 20000)) noon onePm
      DefaultPropertyTypeLS ["ns-a"]).map (fun r => r.Used) =
        [[(0, 1000), (1, 0), (2, 0), (3, 0)]] ∧
    (defaultMongoDB.billingRows (monitorOnly [cpuSample 60000]) noon onePm
      DefaultPropertyTypeLS ["ns-a"]).map (fun r => r.Used) =
        [[(0, 1000), (1, 0), (2, 0), (3, 0)]]) ∧
    ∃ row ∈ defaultMongoDB.billingRows (monitorOnly [cpuSample 60000]) noon onePm
        DefaultPropertyTypeLS ["ns-a"],
      row.Type_ = (cpuSample 60000).Type_ ∧ row.Name = (cpuSample 60000).Name ∧
      row.Namespace = (cpuSample 60000).Category :=
  ⟨⟨⟨by decide, by decide, by decide⟩, by decide, by decide⟩,
    (billingRows_avg defaultMongoDB (monitorOnly [cpuSample 60000]) noon onePm
      DefaultPropertyTypeLS ["ns-a"] (cpuSample 60000) cpuProperty (by decide) (by decide)
      (by decide)).imp (fun _ h => ⟨h.1, h.2.1, h.2.2.1, h.2.2.2.1⟩)⟩

theorem Database.coll_update_ne (db : Database) (name other : String)
    (f : Collection → Collection) (hf : ∀ c, (f c).name = c.name) (hne : name ≠ other) :
    (db.update name f).coll other = db.coll other := by
  have hmap : ∀ l : List Collection,
      (l.map (fun c => if c.name == name then f c else c)).find? (fun c => c.name == other) =
        l.find? (fun c => c.name == other) := by
    intro l
    induction l with
    | nil => rfl
    | cons c cs ih =>
      by_cases hc : (c.name == name) = true
      · have h1 : c.name = name := by simpa using hc
        have h2 : ((f c).name == other) = false := by
          rw [hf, h1]
          simpa using hne
        have h3 : (c.name == other) = false := by
          rw [h1]
          simpa using hne
        simp only [List.map_cons, hc, if_true]
        rw [find?_cons_neg (fun c : Collection => c.name == other) _ _ h2, find?_cons_neg (fun c : Collection => c.name == other) _ _ h3]
        exact ih
      · simp only [Bool.not_eq_true] at hc
        simp only [List.map_cons, hc, Bool.false_eq_true, if_false]
        by_cases ho : (c.name == other) = true
        · rw [find?_cons_pos (fun c : Collection => c.name == other) _ _ ho, find?_cons_pos (fun c : Collection => c.name == other) _ _ ho]
        · simp only [Bool.not_eq_true] at ho
          rw [find?_cons_neg (fun c : Collection => c.name == other) _ _ ho, find?_cons_neg (fun c : Collection => c.name == other) _ _ ho]
          exact ih
  unfold Database.update Database.coll
  split
  · rw [hmap]
  · rw [List.find?_append]
    have h2 : ((f (Collection.empty name)).name == other) = false := by
      rw [hf]
      simpa [Collection.empty] using hne
    cases hfind : db.find? (fun c => c.name == other) with
    | some c => simp
    | none => simp [List.find?, h2]

/-- An update of a collection that keeps the orders of a collection keeps the orders of
every collection. -/
theorem Database.coll_update_billings_same (db : Database) (name other : String)
    (f : Collection → Collection) (hf : ∀ c, (f c).name = c.name)
    (hb : ∀ c, (f c).billings = c.billings) :
    ((db.update name f).coll other).billings = (db.coll other).billings := by
  by_cases hne : name = other
  · subst hne
    rw [Database.coll_update db name f hf, hb]
  · rw [Database.coll_update_ne db name other f hf hne]

theorem Database.coll_Drop (db : Database) (c name : String) :
    (db.Drop c).coll name = db.coll name ∨ ((db.Drop c).coll name).billings = [] := by
  by_cases hc : c = name
  · right
    subst hc
    have : (db.Drop c).find? (fun x => x.name == c) = none := by
      rw [List.find?_eq_none]
      intro x hx
      rw [mem_Drop] at hx
      simpa using hx.2
    simp [Database.coll, this, Collection.empty]
  · left
    unfold Database.coll Database.Drop
    congr 1
    induction db with
    | nil => rfl
    | cons x xs ih =>
      by_cases hx : (x.name == c) = true
      · have h1 : x.name = c := by simpa using hx
        have h2 : (x.name == name) = false := by
          rw [h1]
          simpa using hc
        simp only [List.filter_cons, hx, Bool.not_true, Bool.false_eq_true, if_false]
        rw [find?_cons_neg (fun x : Collection => x.name == name) x xs h2]
        exact ih
      · simp only [Bool.not_eq_true] at hx
        simp only [List.filter_cons, hx, Bool.not_false, if_true]
        by_cases ho : (x.name == name) = true
        · rw [find?_cons_pos (fun x : Collection => x.name == name) _ _ ho, find?_cons_pos (fun x : Collection => x.name == name) _ _ ho]
        · simp only [Bool.not_eq_true] at ho
          rw [find?_cons_neg (fun x : Collection => x.name == name) _ _ ho, find?_cons_neg (fun x : Collection => x.name == name) _ _ ho]
          exact ih

theorem dropOlder_billings (pre cutoffName : String) (dropErr : String → Option Error)
    (names : List String) (name : String) :
    ∀ db : Database,
      ((dropOlder pre cutoffName dropErr names db).1.coll name).billings =
          (db.coll name).billings ∨
      ((dropOlder pre cutoffName dropErr names db).1.coll name).billings = [] := by
  induction names with
  | nil => intro db; exact Or.inl rfl
  | cons c cs ih =>
    intro db
    simp only [dropOlder]
    split
    · cases he : dropErr c with
      | some e => exact Or.inl rfl
      | none =>
        simp only
        rcases ih (db.Drop c) with h | h
        · rcases Database.coll_Drop db c name with h2 | h2
          · left
            rw [h, h2]
          · right
            rw [h, h2]
        · exact Or.inr h
    · exact ih db

/-- What an operation other than `UpdateBillingStatus` with `Unsettled` makes of the orders
of the billing collection: it keeps them, drops them all, adds orders behind them, or
settles the first order of an id. -/
theorem CoreOp.run_billings (m : MongoDB) (op : CoreOp) (db : Database)
    (hop : op.unsettles = false) :
    ((op.run m db).coll m.BillingConn).billings = (db.coll m.BillingConn).billings ∨
    ((op.run m db).coll m.BillingConn).billings = [] ∨
    (∃ added, ((op.run m db).coll m.BillingConn).billings =
      (db.coll m.BillingConn).billings ++ added) ∨
    (∃ id, ((op.run m db).coll m.BillingConn).billings =
      setFirstStatus id BillingStatus.Settled (db.coll m.BillingConn).billings) := by
  cases op with
  | insertMonitor insertErr monitors =>
    left
    simp only [CoreOp.run, MongoDB.InsertMonitor]
    cases monitors with
    | nil => rfl
    | cons first rest =>
      cases insertErr with
      | some e => rfl
      | none =>
        exact Database.coll_update_billings_same db (m.getMonitorCollectionName first.Time)
          m.BillingConn (fun c => { c with monitors := c.monitors ++ (first :: rest) })
          (fun c => rfl) (fun c => rfl)
  | dropMonitorCollectionsOlderThan now listErr dropErr days =>
    simp only [CoreOp.run, MongoDB.DropMonitorCollectionsOlderThan]
    cases listErr with
    | some e => exact Or.inl rfl
    | none =>
      rcases dropOlder_billings m.MonitorConnPrefix
        (m.getMonitorCollectionName (now.AddDays (-days))) dropErr db.ListCollectionNames
        m.BillingConn db with h | h
      · exact Or.inl h
      · exact Or.inr (Or.inl h)
  | generateMeteringData faults startTime endTime prices =>
    left
    simp only [CoreOp.run, GenerateMeteringData_database]
  | generateBillingData faults startTime endTime prols namespaces owner =>
    right; right; left
    simp only [CoreOp.run, MongoDB.GenerateBillingData]
    cases faults.aggregateErr with
    | some e => exact ⟨[], by simp⟩
    | none =>
      obtain ⟨inserted, h, _⟩ := insertOrders_spec m faults
        ((m.billingRows db startTime endTime prols namespaces).foldl (billingStep prols)
          { appCostsMap := [], nsTypeAmount := [] }).nsTypeAmount owner endTime
        ((m.billingRows db startTime endTime prols namespaces).foldl (billingStep prols)
          { appCostsMap := [], nsTypeAmount := [] }).groups 0 db [] 0
      exact ⟨inserted, h⟩
  | saveBillings insertErr billing =>
    right; right; left
    simp only [CoreOp.run, MongoDB.SaveBillings]
    cases billing with
    | nil => exact ⟨[], by simp⟩
    | cons b bs =>
      cases insertErr with
      | some e => exact ⟨[], by simp⟩
      | none =>
        refine ⟨b :: bs, ?_⟩
        simp only
        rw [Database.coll_update db m.BillingConn
          (fun c => { c with billings := c.billings ++ (b :: bs) }) (fun c => rfl)]
  | updateBillingStatus updateErr orderID status =>
    cases status with
    | Unsettled => simp [CoreOp.unsettles] at hop
    | Settled =>
      cases updateErr with
      | some e => exact Or.inl rfl
      | none =>
        right; right; right
        exact ⟨orderID, UpdateBillingStatus_billings m orderID BillingStatus.Settled db⟩

/-- C21, amended: an order of the billing collection that is `Settled` is left as it is, at
its place, by every operation of the core other than `UpdateBillingStatus` with the status
`Unsettled` (unless the operation drops the whole collection): by `InsertMonitor`,
`DropMonitorCollectionsOlderThan`, `GenerateMeteringData`, `GenerateBillingData`,
`SaveBillings` and `UpdateBillingStatus` with the status `Settled`, whatever their arguments
and faults. -/
theorem settled_order_kept (m : MongoDB) (op : CoreOp) (db : Database) (i : Nat)
    (b b' : Billing) (hop : op.unsettles = false)
    (hb : (db.coll m.BillingConn).billings[i]? = some b)
    (hs : b.Status = BillingStatus.Settled)
    (hb' : ((op.run m db).coll m.BillingConn).billings[i]? = some b') :
    b' = b ∧ b'.Status = BillingStatus.Settled := by
  have key : b' = b := by
    rcases CoreOp.run_billings m op db hop with h | h | ⟨added, h⟩ | ⟨id, h⟩
    · rw [h, hb] at hb'
      exact (Option.some.inj hb').symm
    · rw [h] at hb'
      simp at hb'
    · rw [h, List.getElem?_append_left (by
        by_contra hlt
        rw [List.getElem?_eq_none (by omega)] at hb
        simp at hb), hb] at hb'
      exact (Option.some.inj hb').symm
    · rw [h, setFirstStatus_getElem? _ _ _ i b hb] at hb'
      have := (Option.some.inj hb').symm
      rw [this]
      split
      · rw [← hs]
      · rfl
  exact ⟨key, by rw [key]; exact hs⟩

/-- C21 fails for `UpdateBillingStatus` with the status `Unsettled`: on the store that
`GenerateBillingData` leaves on scenario S4 the order `id0` is `Settled`; after
`UpdateBillingStatus("id0", Unsettled)`, which returns no error, it is `Unsettled`. -/
theorem UpdateBillingStatus_unsettles :
    (billedStore.coll defaultMongoDB.BillingConn).billings.map
      (fun b => (b.OrderID, b.Status)) = [("id0", BillingStatus.Settled)] ∧
    (defaultMongoDB.UpdateBillingStatus none "id0" BillingStatus.Unsettled billedStore).2 =
      none ∧
    ((defaultMongoDB.UpdateBillingStatus none "id0" BillingStatus.Unsettled billedStore).1.coll
      defaultMongoDB.BillingConn).billings.map (fun b => (b.OrderID, b.Status)) =
        [("id0", BillingStatus.Unsettled)] :=
  ⟨by decide, by decide, by decide⟩

/-- The amended C21 on a store with the settled consumption `o1`: after
`UpdateBillingStatus("o1", Settled)` the order is as it was. -/
theorem settled_order_kept_witness :
    ((CoreOp.updateBillingStatus none "o1" BillingStatus.Settled).unsettles = false ∧
      ((billingOnly [webAndDb]).coll defaultMongoDB.BillingConn).billings[0]? = some webAndDb ∧
      webAndDb.Status = BillingStatus.Settled ∧
      (((CoreOp.updateBillingStatus none "o1" BillingStatus.Settled).run defaultMongoDB
        (billingOnly [webAndDb])).coll defaultMongoDB.BillingConn).billings[0]? =
          some webAndDb) ∧
    (webAndDb = webAndDb ∧ webAndDb.Status = BillingStatus.Settled) :=
  ⟨⟨by decide, by decide, by decide, by decide⟩,
    settled_order_kept defaultMongoDB (CoreOp.updateBillingStatus none "o1" BillingStatus.Settled)
      (billingOnly [webAndDb]) 0 webAndDb webAndDb (by decide) (by decide) (by decide)
      (by decide)⟩

/-- C22 fails when two owners hold orders with one order id: of the unsettled recharges of
`alice` and of `bob` with the order id `x`, `UpdateBillingStatus("x", Settled)`, which
returns no error, settles the first and leaves the second `Unsettled`. -/
theorem UpdateBillingStatus_shared_id :
    (defaultMongoDB.UpdateBillingStatus none "x" BillingStatus.Settled
      (billingOnly [pendingRecharge "x" "alice" 500, pendingRecharge "x" "bob" 700])).2 = none ∧
    ((defaultMongoDB.UpdateBillingStatus none "x" BillingStatus.Settled
      (billingOnly [pendingRecharge "x" "alice" 500, pendingRecharge "x" "bob" 700])).1.coll
        defaultMongoDB.BillingConn).billings.map (fun b => (b.Owner, b.OrderID, b.Status)) =
      [("alice", "x", BillingStatus.Settled), ("bob", "x", BillingStatus.Unsettled)] ∧
    ¬ ∀ b ∈ ((defaultMongoDB.UpdateBillingStatus none "x" BillingStatus.Settled
      (billingOnly [pendingRecharge "x" "alice" 500, pendingRecharge "x" "bob" 700])).1.coll
        defaultMongoDB.BillingConn).billings, b.OrderID = "x" → b.Status = BillingStatus.Settled :=
  ⟨by decide, by decide, by decide⟩

theorem UpdateBillingStatus_ok (m : MongoDB) (updateErr : Option Error) (id : String)
    (s : BillingStatus) (db : Database)
    (hok : (m.UpdateBillingStatus updateErr id s db).2 = none) : updateErr = none := by
  cases updateErr with
  | none => rfl
  | some e => simp [MongoDB.UpdateBillingStatus] at hok

/-- C22, amended: after `UpdateBillingStatus(id, s)` has returned no error, the billing
collection holds as many orders as before; the order at a place is the order that was
there, with the status `s` and every other field as it was when it is the first order with
the order id `id`, and as it was altogether when it is not; so when at most one order has
the order id `id`, every order with that order id has the status `s`. The names of the
collections are as they were, and so is every collection other than the billing
collection. -/
theorem UpdateBillingStatus_frame (m : MongoDB) (updateErr : Option Error) (id : String)
    (s : BillingStatus) (db : Database)
    (hok : (m.UpdateBillingStatus updateErr id s db).2 = none) :
    (((m.UpdateBillingStatus updateErr id s db).1.coll m.BillingConn).billings.length =
      (db.coll m.BillingConn).billings.length) ∧
    (∀ (i : Nat) (b : Billing), (db.coll m.BillingConn).billings[i]? = some b →
      ((m.UpdateBillingStatus updateErr id s db).1.coll m.BillingConn).billings[i]? =
        some (if b.OrderID = id ∧
            ∀ j < i, ∀ c, (db.coll m.BillingConn).billings[j]? = some c → c.OrderID ≠ id then
          { b with Status := s } else b)) ∧
    (((db.coll m.BillingConn).billings.filter (fun b => b.OrderID == id)).length ≤ 1 →
      ∀ b ∈ ((m.UpdateBillingStatus updateErr id s db).1.coll m.BillingConn).billings,
        b.OrderID = id → b.Status = s) ∧
    (m.UpdateBillingStatus updateErr id s db).1.ListCollectionNames = db.ListCollectionNames ∧
    (∀ c ∈ db, c.name ≠ m.BillingConn → c ∈ (m.UpdateBillingStatus updateErr id s db).1) := by
  have hnone := UpdateBillingStatus_ok m updateErr id s db hok
  subst hnone
  rw [UpdateBillingStatus_billings]
  refine ⟨setFirstStatus_length id s _, setFirstStatus_getElem? id s _,
    setFirstStatus_unique id s _, ?_, ?_⟩
  · simp only [MongoDB.UpdateBillingStatus, Database.ListCollectionNames, List.map_map]
    apply List.map_congr_left
    intro c _
    simp only [Function.comp]
    split <;> rfl
  · intro c hc hname
    simp only [MongoDB.UpdateBillingStatus]
    refine List.mem_map.mpr ⟨c, hc, ?_⟩
    have : (c.name == m.BillingConn) = false := by simpa using hname
    simp [this]

/-- The amended C22 on the unsettled recharges `x` of `alice` and `y` of `bob`:
`UpdateBillingStatus("y", Settled)` settles the order of `bob` and leaves the other as it
was. -/
theorem UpdateBillingStatus_frame_witness :
    (defaultMongoDB.UpdateBillingStatus none "y" BillingStatus.Settled
      (billingOnly [pendingRecharge "x" "alice" 500, pendingRecharge "y" "bob" 700])).2 = none ∧
    ((defaultMongoDB.UpdateBillingStatus none "y" BillingStatus.Settled
      (billingOnly [pendingRecharge "x" "alice" 500, pendingRecharge "y" "bob" 700])).1.coll
        defaultMongoDB.BillingConn).billings =
      [pendingRecharge "x" "alice" 500,
        { pendingRecharge "y" "bob" 700 with Status := BillingStatus.Settled }] ∧
    ((defaultMongoDB.UpdateBillingStatus none "y" BillingStatus.Settled
      (billingOnly [pendingRecharge "x" "alice" 500, pendingRecharge "y" "bob" 700])).1.coll
        defaultMongoDB.BillingConn).billings.length =
      ((billingOnly [pendingRecharge "x" "alice" 500, pendingRecharge "y" "bob" 700]).coll
        defaultMongoDB.BillingConn).billings.length :=
  ⟨by decide, by decide,
    (UpdateBillingStatus_frame defaultMongoDB none "y" BillingStatus.Settled
      (billingOnly [pendingRecharge "x" "alice" 500, pendingRecharge "y" "bob" 700])
      (by decide)).1⟩

theorem StrMap.get?_set_self {α : Type} (m : StrMap α) (k : String) (v : α) :
    (m.set k v).get? k = some v := by
  unfold StrMap.set StrMap.get?
  split
  · rename_i h
    induction m with
    | nil => simp at h
    | cons p ps ih =>
      by_cases hp : p.1 = k
      · simp [List.find?, hp]
      · have h2 : ps.any (fun p => p.1 == k) = true := by
          simpa [List.any_cons, hp] using h
        have hb : (p.1 == k) = false := by simpa using hp
        rw [List.map_cons, hb, if_neg (by simp), List.find?_cons_of_neg _ (by simp [hb])]
        exact ih h2
  · rename_i h
    have h2 : ∀ p ∈ m, ¬ (p.1 == k) = true := by
      intro p hp hk
      exact h (List.any_eq_true.mpr ⟨p, hp, hk⟩)
    rw [List.find?_append, List.find?_eq_none.mpr h2]
    simp [List.find?]

/-- The time `meteringStep` compares with the start of the window is `scanWatermark`; when
it is after the start, the step counts nothing. -/
theorem meteringStep_skip (m : MongoDB) (faults : MeteringFaults) (db : Database)
    (startTime : Time) (s : MeteringScan) (monitor : Monitor)
    (h : (scanWatermark m faults db s monitor).Before startTime = false ∧
      (scanWatermark m faults db s monitor).Equal startTime = false) :
    (meteringStep m faults db startTime s monitor).countMap = s.countMap ∧
      (meteringStep m faults db startTime s monitor).meteringMap = s.meteringMap := by
  unfold scanWatermark at h
  unfold meteringStep
  cases hg : ((s.updateTimeMap.get? monitor.Category).getD []).get? monitor.Property with
  | some t =>
    rw [hg] at h
    simp only [hg, Option.getD_some, h.1, h.2, Bool.or_self, Bool.false_eq_true, if_false]
    try trivial
  | none =>
    rw [hg] at h
    simp only [hg, StrMap.get?_set_self, Option.getD_some, h.1, h.2, Bool.or_self,
      Bool.false_eq_true, if_false]
    try trivial

/-- C4: when `GenerateMeteringData(t0, t1, prices)` succeeds on a store, a second call
with the same window on the resulting store, whatever the faults of the store during it,
inserts no new metering record: the metering collection is the one the first run left, so
for every category and property the records of the key are those of before. In the scan a
sample counts only when the latest metering time of its key is not after `t0`: when it is
after `t0`, the step changes neither the counts nor the totals. -/
theorem GenerateMeteringData_second_run (m : MongoDB) (faults faults2 : MeteringFaults)
    (t0 t1 : Time) (prices : StrMap Price) (db : Database)
    (h : (m.GenerateMeteringData faults t0 t1 prices db).2 = none) :
    ((m.GenerateMeteringData faults2 t0 t1 prices
        (m.GenerateMeteringData faults t0 t1 prices db).1).1.coll m.MeteringConn).meterings =
        ((m.GenerateMeteringData faults t0 t1 prices db).1.coll m.MeteringConn).meterings ∧
      (∀ category property : String,
        ((m.GenerateMeteringData faults2 t0 t1 prices
          (m.GenerateMeteringData faults t0 t1 prices db).1).1.coll
            m.MeteringConn).meterings.filter
            (fun x => x.Category == category && x.Property == property) =
          ((m.GenerateMeteringData faults t0 t1 prices db).1.coll
            m.MeteringConn).meterings.filter
            (fun x => x.Category == category && x.Property == property)) ∧
      (∀ (store : Database) (s : MeteringScan) (monitor : Monitor),
        (scanWatermark m faults2 store s monitor).Before t0 = false →
        (scanWatermark m faults2 store s monitor).Equal t0 = false →
        (meteringStep m faults2 store t0 s monitor).countMap = s.countMap ∧
          (meteringStep m faults2 store t0 s monitor).meteringMap = s.meteringMap) := by
  have _ := h
  refine ⟨?_, ?_, ?_⟩
  · rw [GenerateMeteringData_database m faults2]
  · intro category property
    rw [GenerateMeteringData_database m faults2]
  · intro store s monitor h1 h2
    exact meteringStep_skip m faults2 store t0 s monitor ⟨h1, h2⟩

/-- C4 on scenario S1: the first run over [12:00, 13:00) succeeds, and the second run
leaves the metering collection as the first left it. -/
theorem GenerateMeteringData_second_run_witness :
    (defaultMongoDB.GenerateMeteringData MeteringFaults.none noon onePm cpuPrices
        (monitorOnly (cpuSamples 120 30000000000 100))).2 = none ∧
      ((defaultMongoDB.GenerateMeteringData MeteringFaults.none noon onePm cpuPrices
        (defaultMongoDB.GenerateMeteringData MeteringFaults.none noon onePm cpuPrices
          (monitorOnly (cpuSamples 120 30000000000 100))).1).1.coll
            defaultMongoDB.MeteringConn).meterings =
        ((defaultMongoDB.GenerateMeteringData MeteringFaults.none noon onePm cpuPrices
          (monitorOnly (cpuSamples 120 30000000000 100))).1.coll
            defaultMongoDB.MeteringConn).meterings :=
  ⟨GenerateMeteringData_ok _ _ _ _ _ _ rfl,
    (GenerateMeteringData_second_run defaultMongoDB MeteringFaults.none MeteringFaults.none
      noon onePm cpuPrices (monitorOnly (cpuSamples 120 30000000000 100))
      (GenerateMeteringData_ok _ _ _ _ _ _ rfl)).1⟩

/-! ## Calendar checks -/

/-- Day 0 is 1970-01-01. -/
theorem Date_unix_epoch : (Time.ofDay 0).Date = ⟨1970, 1, 1⟩ := by decide

/-- Day 19782 is the leap day 2024-02-29. -/
theorem Date_leap_day : (Time.ofDay 19782).Date = ⟨2024, 2, 29⟩ := by decide

/-- Day 18597 is 2020-12-01. -/
theorem Date_sample_day : (Time.ofDay 18597).Date = ⟨2020, 12, 1⟩ := by decide

/-- The zero time of package time is 0001-01-01. -/
theorem Date_zero : Time.zero.Date = ⟨1, 1, 1⟩ := by decide

/-- The partition of 2020-12-01 under the default prefix is the one the doc comment of
`InsertMonitor` names. -/
theorem getMonitorCollectionName_sample_day :
    defaultMongoDB.getMonitorCollectionName (Time.ofDay 18597) = "monitor_20201201" := by
  decide

end Sealos
